import Mathlib

/-!
# Banking server: the account table, its persistence and the protocol server

A shallow embedding of `banking.c` (with the constants and structures of `bank.h`) and of the
request handling of `server.c`.

Modelling conventions.

* The two globals `accounts[MAX_ACCOUNTS]` and `account_count` form the record `Table`;
  every operation takes the table and returns its result together with the new table.
* A C string is the list of its characters before the terminating NUL (`CString`);
  a `char*` that may be `NULL` is an `Option CString`.
* A `double` is an IEEE 754 binary64 value (`Double`): a finite number, a signed zero, a
  signed infinity or a NaN.  Sums and differences are rounded to the nearest representable
  value, ties to even; comparisons with a NaN are false; the conversion `(int)amount` is
  modelled with its 32-bit range (`double_to_int`).  `atof`, `fscanf` and `printf` are
  modelled as glibc implements them, with correctly rounded conversions.
* `int` fields that are only stored and compared (`pin`, `is_active`) are integers;
  the counters `account_count` and `transaction_count`, which the code only ever sets
  to values between `0` and the array size, are natural numbers.
* The values the C library hands to `generate_account_number` (`time(NULL)` and
  `rand()` at each attempt) are the fields of `Env`; `malloc` is taken to succeed.
* Messages written to `stderr` are not modelled.  The file that every successful
  mutation rewrites is, by definition, `save_accounts_to_file` of the new table.
* A file is the list of its characters.  `save_accounts_to_file` returns the text it writes
  and `load_accounts_from_file` takes the text it reads (`none` for a missing file), with
  `fscanf` and `fgets` modelled on the remaining input.
* A connection is the list of the texts its successive successful `read` calls leave in
  `buffer` (the C string found there, which is empty when the data starts with a NUL); the
  end of the list is the `read` that returns 0 or fails.  `handle_request` is one iteration
  of the loop of `handle_client`: it returns the text sent, the new table and whether the
  loop is left.
  Sockets, `fork` and the sharing of the file between processes are not modelled.
-/

namespace Bank

/-! ## Constants of `bank.h` -/

def MAX_NAME_LEN : Nat := 50

def MAX_ID_LEN : Nat := 20

def MAX_ACCOUNT_TYPE_LEN : Nat := 10

def MAX_ACCOUNTS : Nat := 100

def MAX_TRANSACTIONS : Nat := 5

/-- Largest value of a C `int` (32 bits). -/
def INT_MAX : Int := 2147483647

/-- Smallest value of a C `int` (32 bits). -/
def INT_MIN : Int := -2147483648

/-! ## The type `double`

A `double` is an IEEE 754 binary64 value.  A finite value other than the negative zero is
represented by the rational number it denotes (`finite 0` is the positive zero).  Of a NaN only
the sign is kept, which is all that `printf` shows of it. -/

/-- A value of the C type `double`. -/
inductive Double where
  /-- A finite value other than the negative zero. -/
  | finite (q : ℚ)
  /-- The negative zero. -/
  | neg_zero
  /-- An infinity with its sign. -/
  | inf (negative : Bool)
  /-- A NaN with its sign bit. -/
  | nan (negative : Bool)
deriving DecidableEq

instance (n : Nat) : OfNat Double n := ⟨Double.finite n⟩

/-- The quotient `a / b` rounded to the nearest natural number, ties to even. -/
def round_half_even (a b : Nat) : Nat :=
  if 2 * (a % b) < b then a / b
  else if b < 2 * (a % b) then a / b + 1
  else if (a / b) % 2 = 0 then a / b
  else a / b + 1

/-- The loop that counts the binary digits of `n`; `fuel` bounds the number of iterations. -/
def bit_length_loop : Nat → Nat → Nat → Nat
  | 0, _, count => count
  | fuel + 1, n, count => if n = 0 then count else bit_length_loop fuel (n / 2) (count + 1)

/-- The number of binary digits of `n`. -/
def bit_length (n : Nat) : Nat :=
  bit_length_loop n n 0

/-- The integer `E` with `2 ^ E ≤ n / d < 2 ^ (E + 1)`, for positive `n` and `d`. -/
def floor_log2 (n d : Nat) : Int :=
  if d * 2 ^ ((bit_length n : Int) - (bit_length d : Int)).toNat ≤
      n * 2 ^ (-((bit_length n : Int) - (bit_length d : Int))).toNat then
    (bit_length n : Int) - (bit_length d : Int)
  else (bit_length n : Int) - (bit_length d : Int) - 1

/-- The unit in the last place of a positive value `n / d` as a power of two: 52 binary places
below the leading digit, and never below the smallest subnormal number `2 ^ (-1074)`. -/
def ulp_exponent (n d : Nat) : Int :=
  max (floor_log2 n d - 52) (-1074)

/-- The number of units in the last place of `n / d`, rounded to nearest, ties to even. -/
def rounded_mantissa (n d : Nat) : Nat :=
  round_half_even (n * 2 ^ (-ulp_exponent n d).toNat) (d * 2 ^ (ulp_exponent n d).toNat)

/-- The `double` nearest to `± n / d` (ties to even): a signed zero when the value rounds to
zero, an infinity when the rounded value reaches `2 ^ 1024`. -/
def round_to_double (negative : Bool) (n d : Nat) : Double :=
  if n = 0 ∨ rounded_mantissa n d = 0 then
    if negative then Double.neg_zero else Double.finite 0
  else if 971 ≤ ulp_exponent n d ∧
      2 ^ 53 ≤ rounded_mantissa n d * 2 ^ (ulp_exponent n d - 971).toNat then
    Double.inf negative
  else
    Double.finite
      (mkRat ((if negative then -1 else 1) *
          ((rounded_mantissa n d * 2 ^ (ulp_exponent n d).toNat : Nat) : Int))
        (2 ^ (-ulp_exponent n d).toNat))

/-- The unary minus: the sign is flipped, also that of a zero or of a NaN. -/
def Double.neg : Double → Double
  | Double.finite q => if q.num = 0 then Double.neg_zero else Double.finite (-q)
  | Double.neg_zero => Double.finite 0
  | Double.inf negative => Double.inf (!negative)
  | Double.nan negative => Double.nan (!negative)

/-- The sum of two `double`s.  A NaN operand is returned (the first one if both are NaN);
infinities of opposite signs give the default NaN, whose sign bit is set on x86-64; the sum of
two negative zeros is the negative zero and an exact sum of zero is the positive zero; every
other sum is rounded to the nearest `double`. -/
def Double.add : Double → Double → Double
  | Double.nan s, _ => Double.nan s
  | _, Double.nan s => Double.nan s
  | Double.inf a, Double.inf b => if a = b then Double.inf a else Double.nan true
  | Double.inf a, _ => Double.inf a
  | _, Double.inf b => Double.inf b
  | Double.neg_zero, Double.neg_zero => Double.neg_zero
  | Double.neg_zero, Double.finite b => Double.finite b
  | Double.finite a, Double.neg_zero => Double.finite a
  | Double.finite a, Double.finite b =>
    round_to_double (decide (a.num * b.den + b.num * a.den < 0))
      (a.num * b.den + b.num * a.den).natAbs (a.den * b.den)

/-- The difference of two `double`s: a NaN operand is returned as it is, and otherwise the
difference is the sum with the opposite. -/
def Double.sub : Double → Double → Double
  | Double.nan s, _ => Double.nan s
  | _, Double.nan s => Double.nan s
  | x, y => Double.add x (Double.neg y)

/-- The comparison `x < y`, false when an operand is a NaN; the two zeros are equal. -/
def Double.lt : Double → Double → Bool
  | Double.nan _, _ => false
  | _, Double.nan _ => false
  | Double.inf a, Double.inf b => a && !b
  | Double.inf a, _ => a
  | _, Double.inf b => !b
  | Double.finite a, Double.finite b => decide (a < b)
  | Double.finite a, Double.neg_zero => decide (a < 0)
  | Double.neg_zero, Double.finite b => decide (0 < b)
  | Double.neg_zero, Double.neg_zero => false

/-- The comparison `x <= y`, false when an operand is a NaN; the two zeros are equal. -/
def Double.le : Double → Double → Bool
  | Double.nan _, _ => false
  | _, Double.nan _ => false
  | Double.inf a, Double.inf b => a || !b
  | Double.inf a, _ => a
  | _, Double.inf b => !b
  | Double.finite a, Double.finite b => decide (a ≤ b)
  | Double.finite a, Double.neg_zero => decide (a ≤ 0)
  | Double.neg_zero, Double.finite b => decide (0 ≤ b)
  | Double.neg_zero, Double.neg_zero => true

/-- Is the value a NaN? -/
def Double.is_nan : Double → Bool
  | Double.nan _ => true
  | _ => false

/-- The absolute value: the value with its sign cleared. -/
def Double.abs : Double → Double
  | Double.finite q => Double.finite |q|
  | Double.neg_zero => Double.finite 0
  | Double.inf _ => Double.inf false
  | Double.nan _ => Double.nan false

/-- The rational numbers that are values of `double`: zero, and the products `± M * 2 ^ k` of a
natural number `M` below `2 ^ 53` by a power of two not below `2 ^ (-1074)` that are below
`2 ^ 1024` in absolute value. -/
def Double.representable (q : ℚ) : Prop :=
  ∃ (M : Nat) (k : Int), M < 2 ^ 53 ∧ -1074 ≤ k ∧ |q| = (M : ℚ) * (2 : ℚ) ^ k ∧
    |q| < (2 : ℚ) ^ (1024 : Int)

instance : Neg Double := ⟨Double.neg⟩

instance : Add Double := ⟨Double.add⟩

instance : Sub Double := ⟨Double.sub⟩

instance : LT Double := ⟨fun x y => Double.lt x y = true⟩

instance : LE Double := ⟨fun x y => Double.le x y = true⟩

instance (x y : Double) : Decidable (x < y) :=
  inferInstanceAs (Decidable (Double.lt x y = true))

instance (x y : Double) : Decidable (x ≤ y) :=
  inferInstanceAs (Decidable (Double.le x y = true))

/-! ## Data model -/

/-- A C string: the characters before the terminating NUL. -/
abbrev CString := List Char

/-- The C structure `Statement`: the array `transactions[MAX_TRANSACTIONS]` and the number of
entries in use. -/
structure Statement where
  transactions : List Double
  transaction_count : Nat
deriving DecidableEq

/-- The C structure `Account`. -/
structure Account where
  name : CString
  national_id : CString
  account_type : CString
  account_number : Option CString
  balance : Double
  pin : Int
  statement : Statement
  is_active : Int
deriving DecidableEq

/-- The globals `accounts` and `account_count`. -/
structure Table where
  accounts : List Account
  account_count : Nat
deriving DecidableEq

/-- A zero-filled `Statement`. -/
def Statement.zero : Statement :=
  { transactions := List.replicate MAX_TRANSACTIONS 0, transaction_count := 0 }

/-- A zero-filled `Account`, as left by `memset(&a, 0, sizeof(Account))` and as found in
every slot of the global array when the process starts. -/
def Account.zero : Account :=
  { name := [], national_id := [], account_type := [], account_number := none,
    balance := 0, pin := 0, statement := Statement.zero, is_active := 0 }

/-- The table of a freshly started process: zero-initialised globals. -/
def Table.empty : Table :=
  { accounts := List.replicate MAX_ACCOUNTS Account.zero, account_count := 0 }

/-- Read `accounts[i]`. -/
def Table.slot (t : Table) (i : Nat) : Account :=
  t.accounts.getD i Account.zero

/-- Write `accounts[i] = a`. -/
def Table.set_slot (t : Table) (i : Nat) (a : Account) : Table :=
  { t with accounts := t.accounts.set i a }

/-- The entries of the transaction log that are in use: `transactions[0 .. transaction_count)`. -/
def Statement.log (s : Statement) : List Double :=
  s.transactions.take s.transaction_count

/-- The sizes fixed by the C declarations: 100 slots, 5 transaction cells per slot, and
counters within the arrays. -/
structure Table.WF (t : Table) : Prop where
  length_accounts : t.accounts.length = MAX_ACCOUNTS
  count_le : t.account_count ≤ MAX_ACCOUNTS
  length_transactions : ∀ a ∈ t.accounts, a.statement.transactions.length = MAX_TRANSACTIONS
  transaction_count_le : ∀ a ∈ t.accounts, a.statement.transaction_count ≤ MAX_TRANSACTIONS

/-! ## `find_account_index` -/

/-- The condition of the `if` in `find_account_index`: the slot is active, its account number
is not `NULL` and equals the given one, and the PIN is equal. -/
def account_matches (a : Account) (account_number : CString) (pin : Int) : Bool :=
  decide (a.is_active ≠ 0) &&
    (match a.account_number with
      | none => false
      | some s => decide (s = account_number)) &&
    decide (a.pin = pin)

/-- The `for` loop of `find_account_index` over the slots still to visit, `i` being the index
of the first of them. -/
def find_account_index_loop (account_number : CString) (pin : Int) :
    List Account → Nat → Option Nat
  | [], _ => none
  | a :: rest, i =>
    if account_matches a account_number pin then some i
    else find_account_index_loop account_number pin rest (i + 1)

/-- The function `find_account_index`: the first index below `account_count` whose slot matches;
`none` stands for the result `-1`. -/
def find_account_index (t : Table) (account_number : CString) (pin : Int) : Option Nat :=
  find_account_index_loop account_number pin (t.accounts.take t.account_count) 0

/-! ## Transaction log -/

/-- The loop `for (j = 0; j < MAX_TRANSACTIONS - 1; j++) transactions[j] = transactions[j + 1];`. -/
def shift_transactions (ts : List Double) : List Double :=
  (List.range (MAX_TRANSACTIONS - 1)).foldl (fun acc j => acc.set j (acc.getD (j + 1) 0)) ts

/-- The block "Record transaction" that `deposit` and `withdraw` both contain: store at
`transaction_count` when there is room, otherwise shift down and store in the last cell. -/
def record_transaction (s : Statement) (x : Double) : Statement :=
  if s.transaction_count < MAX_TRANSACTIONS then
    { transactions := s.transactions.set s.transaction_count x,
      transaction_count := s.transaction_count + 1 }
  else
    { transactions := (shift_transactions s.transactions).set (MAX_TRANSACTIONS - 1) x,
      transaction_count := s.transaction_count }

/-! ## `withdraw` and `deposit` -/

/-- The conversion `(int)x` of a `double`: the fractional part is discarded (truncation toward
zero).  When the truncated value is not representable in `int`, or `x` is an infinity or a NaN,
the C standard leaves the behaviour undefined; the model returns what the x86-64 conversion
instruction returns, `INT_MIN` (the AArch64 instruction saturates to `INT_MAX` or `INT_MIN`
instead, and gives 0 for a NaN). -/
def double_to_int : Double → Int
  | Double.finite x =>
    if INT_MIN ≤ Int.tdiv x.num x.den ∧ Int.tdiv x.num x.den ≤ INT_MAX then Int.tdiv x.num x.den
    else INT_MIN
  | Double.neg_zero => 0
  | Double.inf _ => INT_MIN
  | Double.nan _ => INT_MIN

/-- The function `withdraw`: result code and new table. -/
def withdraw (t : Table) (account_number : CString) (pin : Int) (amount : Double) :
    Int × Table :=
  match find_account_index t account_number pin with
  | some index =>
    if Int.tmod (double_to_int amount) 500 ≠ 0 ∨ amount ≤ 0 then (4, t)
    else if (t.slot index).balance - amount < 1000 then (3, t)
    else
      (0, t.set_slot index
        { t.slot index with
          balance := (t.slot index).balance - amount
          statement := record_transaction (t.slot index).statement (-amount) })
  | none => (1, t)

/-- The function `deposit`: result code and new table. -/
def deposit (t : Table) (account_number : CString) (pin : Int) (amount : Double) :
    Int × Table :=
  match find_account_index t account_number pin with
  | some index =>
    if amount < 500 then (3, t)
    else
      (0, t.set_slot index
        { t.slot index with
          balance := (t.slot index).balance + amount
          statement := record_transaction (t.slot index).statement amount })
  | none => (1, t)

/-- The function `check_balance`; `-1` is the error value. -/
def check_balance (t : Table) (account_number : CString) (pin : Int) : Double :=
  match find_account_index t account_number pin with
  | some index => (t.slot index).balance
  | none => Double.finite (-1)

/-! ## `close_account` -/

/-- The function `close_account`: result code and new table. -/
def close_account (t : Table) (account_number : CString) (pin : Int) : Int × Table :=
  match find_account_index t account_number pin with
  | some index =>
    (0, t.set_slot index { t.slot index with account_number := none, is_active := 0 })
  | none => (1, t)

/-! ## `generate_account_number` and `open_account` -/

/-- What the C library returns during one call of `generate_account_number`:
`time k` is `time(NULL)` and `rand k` is `rand()` at attempt number `k`. -/
structure Env where
  time : Nat → Int
  rand : Nat → Nat

/-- The output of `sprintf(acc_num, "%lld", n)`. -/
def render_lld (n : Int) : CString :=
  (toString n).toList

/-- The inner `for` loop of `generate_account_number`: does an active slot below
`account_count` carry the candidate number? -/
def number_in_use (t : Table) (acc_num : CString) : Bool :=
  (t.accounts.take t.account_count).any fun a =>
    decide (a.is_active ≠ 0) &&
      (match a.account_number with
        | none => false
        | some s => decide (s = acc_num))

/-- The `while (!unique && attempts < max_attempts)` loop of `generate_account_number`;
`remaining` is `max_attempts - attempts`. -/
def generate_account_number_loop (t : Table) (env : Env) : Nat → Nat → Option CString
  | 0, _ => none
  | remaining + 1, attempts =>
    let acc_num := render_lld (env.time attempts + ((env.rand attempts : Int) % 100000) + attempts)
    if number_in_use t acc_num then generate_account_number_loop t env remaining (attempts + 1)
    else some acc_num

/-- The function `generate_account_number`; `none` is `NULL`. -/
def generate_account_number (t : Table) (env : Env) : Option CString :=
  generate_account_number_loop t env 100 0

/-- The search for an available slot in `open_account`: the first index below `MAX_ACCOUNTS`
whose slot is not active. -/
def find_free_slot_loop : List Account → Nat → Option Nat
  | [], _ => none
  | a :: rest, i => if a.is_active = 0 then some i else find_free_slot_loop rest (i + 1)

/-- The first inactive slot among the `MAX_ACCOUNTS` slots; `none` is `account_index == -1`. -/
def find_free_slot (t : Table) : Option Nat :=
  find_free_slot_loop (t.accounts.take MAX_ACCOUNTS) 0

/-- The effect of `strncpy(dst, src, n - 1); dst[n - 1] = 0` on a buffer of `n` bytes. -/
def strncpy_field (n : Nat) (src : CString) : CString :=
  src.take (n - 1)

/-- The function `open_account`: the returned `Account` and the new table. -/
def open_account (t : Table) (env : Env) (name national_id account_type : CString)
    (initial_deposit : Double) (pin : Int) : Account × Table :=
  if initial_deposit < 1000 then (Account.zero, t)
  else
    match find_free_slot t with
    | none => (Account.zero, t)
    | some account_index =>
      let t1 := t.set_slot account_index
        { t.slot account_index with
          name := strncpy_field MAX_NAME_LEN name
          national_id := strncpy_field MAX_ID_LEN national_id
          account_type := strncpy_field MAX_ACCOUNT_TYPE_LEN account_type }
      match generate_account_number t1 env with
      | none =>
        (Account.zero,
          t1.set_slot account_index
            { t1.slot account_index with account_number := none, is_active := 0 })
      | some acc_num =>
        let s0 : Statement :=
          { (t1.slot account_index).statement with transaction_count := 0 }
        let s1 : Statement :=
          if s0.transaction_count < MAX_TRANSACTIONS then
            { transactions := s0.transactions.set s0.transaction_count initial_deposit,
              transaction_count := s0.transaction_count + 1 }
          else s0
        let a : Account :=
          { t1.slot account_index with
            account_number := some acc_num
            pin := pin
            balance := initial_deposit
            is_active := 1
            statement := s1 }
        let t2 := t1.set_slot account_index a
        (a, { t2 with
              account_count :=
                if account_index ≥ t2.account_count then account_index + 1 else t2.account_count })

/-! ## Text files: what `fprintf`, `fscanf` and `fgets` do

A file is the list of its characters; a read position is the list of characters not yet read.
`fopen` for writing is taken to succeed. -/

/-- The output of `fprintf(file, "%d", n)`. -/
def render_d (n : Int) : CString :=
  (toString n).toList

/-- The two decimal digits of a number below 100. -/
def two_digits (n : Nat) : CString :=
  [Nat.digitChar (n / 10 % 10), Nat.digitChar (n % 10)]

/-- The output of `fprintf(file, "%.2f", x)`: for a finite value a minus sign if it is negative,
the integer part, a point and two decimals, the value being rounded to the nearest hundredth
(ties to even); `inf` and `nan` with their sign otherwise. -/
def render_2f : Double → CString
  | Double.finite x =>
    (if x.num < 0 then ['-'] else []) ++
      (toString (round_half_even (x.num.natAbs * 100) x.den / 100)).toList ++ ['.'] ++
      two_digits (round_half_even (x.num.natAbs * 100) x.den % 100)
  | Double.neg_zero => "-0.00".toList
  | Double.inf negative => if negative then "-inf".toList else "inf".toList
  | Double.nan negative => if negative then "-nan".toList else "nan".toList

/-- The lines `save_accounts_to_file` writes for one slot below `account_count`. -/
def save_record (a : Account) : CString :=
  if a.is_active ≠ 0 then
    render_d a.is_active ++ ['\n'] ++
    a.name ++ ['\n'] ++
    a.national_id ++ ['\n'] ++
    a.account_type ++ ['\n'] ++
    (match a.account_number with
      | some s => s
      | none => "NULL".toList) ++ ['\n'] ++
    render_d a.pin ++ ['\n'] ++
    render_2f a.balance ++ ['\n'] ++
    render_d a.statement.transaction_count ++ ['\n'] ++
    ((a.statement.transactions.take a.statement.transaction_count).map
      fun x => render_2f x ++ ['\n']).flatten ++
    "---\n".toList
  else
    render_d a.is_active ++ ['\n'] ++ "---\n".toList

/-- The function `save_accounts_to_file`: the text written to the file. -/
def save_accounts_to_file (t : Table) : CString :=
  render_d t.account_count ++ ['\n'] ++
    ((t.accounts.take t.account_count).map save_record).flatten

/-- The C predicate `isspace` in the "C" locale. -/
def is_space (c : Char) : Bool :=
  c = ' ' || c = '\t' || c = '\n' || c = '\x0b' || c = '\x0c' || c = '\r'

/-- A white-space directive of `fscanf` (here the `\n` that ends the formats): read up to the
first character that is not white space. -/
def skip_space : List Char → List Char
  | [] => []
  | c :: cs => if is_space c then skip_space cs else c :: cs

/-- The value of a string of decimal digits. -/
def digits_value (ds : List Char) : Nat :=
  ds.foldl (fun n c => 10 * n + (c.toNat - 48)) 0

/-- An optional sign in front of a number: whether it is a minus, and the rest of the input. -/
def scan_sign : List Char → Bool × List Char
  | '-' :: rest => (true, rest)
  | '+' :: rest => (false, rest)
  | input => (false, input)

/-- The value `fscanf` stores through an `int*` for the decimal number `z`, as glibc does it:
the number is read as a `long` (saturating) and narrowed to 32 bits. -/
def store_int (z : Int) : Int :=
  (max (-9223372036854775808) (min z 9223372036854775807) + 2147483648) % 4294967296 - 2147483648

/-- The conversion `%d` of `fscanf`: white space is skipped, then an optional sign and decimal
digits are read.  The result is the value (or `none` at a matching failure or at the end of the
file) and the new read position. -/
def scan_d (input : List Char) : Option Int × List Char :=
  let s := scan_sign (skip_space input)
  let ds := s.2.span Char.isDigit
  if ds.1 = [] then (none, s.2)
  else (some (store_int (if s.1 then -(digits_value ds.1 : Int) else (digits_value ds.1 : Int))), ds.2)

/-- The characters of an optional fraction `.ddd`: the digits and the rest of the input. -/
def scan_fraction : List Char → List Char × List Char
  | '.' :: rest => rest.span Char.isDigit
  | input => ([], input)

/-- An optional exponent `e±ddd`: `none` when there is no exponent, `some none` when the letter
`e` is not followed by digits (the characters read are then lost and the conversion fails),
otherwise the exponent; and the rest of the input. -/
def scan_exponent : List Char → Option (Option Int) × List Char
  | [] => (none, [])
  | c :: rest =>
    if c = 'e' ∨ c = 'E' then
      let s := scan_sign rest
      let ds := s.2.span Char.isDigit
      if ds.1 = [] then (some none, s.2)
      else (some (some (if s.1 then -(digits_value ds.1 : Int) else (digits_value ds.1 : Int))), ds.2)
    else (none, c :: rest)

/-- The C predicate `isxdigit`. -/
def is_xdigit (c : Char) : Bool :=
  c.isDigit || (97 ≤ c.toNat && c.toNat ≤ 102) || (65 ≤ c.toNat && c.toNat ≤ 70)

/-- The value of a hexadecimal digit. -/
def hex_digit_value (c : Char) : Nat :=
  if c.isDigit then c.toNat - 48 else if 97 ≤ c.toNat then c.toNat - 87 else c.toNat - 55

/-- The value of a string of hexadecimal digits. -/
def hex_digits_value (ds : List Char) : Nat :=
  ds.foldl (fun n c => 16 * n + hex_digit_value c) 0

/-- Does the text start with the given lowercase word, in any letter case? -/
def starts_with_word (word : List Char) (s : List Char) : Bool :=
  (s.take word.length).map Char.toLower = word

/-- The characters of an optional hexadecimal fraction: the digits and the rest of the input. -/
def scan_hex_fraction : List Char → List Char × List Char
  | '.' :: rest => rest.span is_xdigit
  | input => ([], input)

/-- The binary exponent `p±ddd` of a hexadecimal number; 0 when there is none or when the
letter is not followed by digits. -/
def scan_binary_exponent : List Char → Int
  | [] => 0
  | c :: rest =>
    if c = 'p' ∨ c = 'P' then
      if (scan_sign rest).1 then -(digits_value ((scan_sign rest).2.span Char.isDigit).1 : Int)
      else (digits_value ((scan_sign rest).2.span Char.isDigit).1 : Int)
    else 0

/-- The hexadecimal case of `strtod`, on the text that follows the sign: `0x`, then
hexadecimal digits with an optional point (at least one digit), then an optional binary
exponent.  `none` when the text is not of this form. -/
def strtod_hex (negative : Bool) : List Char → Option Double
  | '0' :: x :: rest =>
    if x = 'x' ∨ x = 'X' then
      let ip := rest.span is_xdigit
      let fp := scan_hex_fraction ip.2
      if ip.1 = [] ∧ fp.1 = [] then none
      else
        some (round_to_double negative
          (hex_digits_value (ip.1 ++ fp.1) * 2 ^ (scan_binary_exponent fp.2).toNat)
          (2 ^ (4 * fp.1.length + (-scan_binary_exponent fp.2).toNat)))
    else none
  | _ => none

/-- The decimal case of `strtod`, on the text that follows the sign: digits with an optional
fraction (at least one digit), and an exponent when it is complete.  The value is rounded to
the nearest `double`.  `none` when there is no digit. -/
def strtod_decimal (negative : Bool) (input : List Char) : Option Double :=
  let ip := input.span Char.isDigit
  let fp := scan_fraction ip.2
  if ip.1 = [] ∧ fp.1 = [] then none
  else
    match scan_exponent fp.2 with
    | (some (some e), _) =>
      some (round_to_double negative (digits_value (ip.1 ++ fp.1) * 10 ^ e.toNat)
        (10 ^ (fp.1.length + (-e).toNat)))
    | _ => some (round_to_double negative (digits_value (ip.1 ++ fp.1)) (10 ^ fp.1.length))

/-- The value `strtod` converts the beginning of a text to, as glibc does it: white space, an
optional sign, then `inf` or `nan` in any letter case, a hexadecimal number or a decimal
number.  `none` when no conversion can be performed. -/
def strtod (s : CString) : Option Double :=
  let sg := scan_sign (skip_space s)
  if starts_with_word "inf".toList sg.2 then some (Double.inf sg.1)
  else if starts_with_word "nan".toList sg.2 then some (Double.nan sg.1)
  else
    match strtod_hex sg.1 sg.2 with
    | some x => some x
    | none => strtod_decimal sg.1 sg.2

/-- The letters of a word (given in lowercase) that `fscanf` expects next, in any letter case:
whether they were all found, and the rest of the input.  A character that does not match is
consumed. -/
def scan_word : List Char → List Char → Bool × List Char
  | [], input => (true, input)
  | _ :: _, [] => (false, [])
  | w :: ws, c :: cs => if c.toLower = w then scan_word ws cs else (false, cs)

/-- The loop of the conversion `%lf` that collects the characters of a number, as glibc does
it: digits (hexadecimal digits before the exponent of a hexadecimal number), one point, the
exponent letter once a digit has been read, and a sign right after the exponent letter.  The
arguments are the input, the flags `got_digit`, `got_dot` and `got_e`, and the characters
collected so far, last one first; the result is the characters collected and the rest of the
input. -/
def scan_number_loop (hexa : Bool) :
    List Char → Bool → Bool → Bool → List Char → List Char × List Char
  | [], _, _, _, buf => (buf, [])
  | c :: cs, got_digit, got_dot, got_e, buf =>
    if c.isDigit then scan_number_loop hexa cs true got_dot got_e (c :: buf)
    else if !got_e && hexa && is_xdigit c then
      scan_number_loop hexa cs true got_dot got_e (c :: buf)
    else if got_e && buf.head? = some (if hexa then 'p' else 'e') && (c = '-' || c = '+') then
      scan_number_loop hexa cs got_digit got_dot got_e (c :: buf)
    else if got_digit && !got_e && c.toLower = (if hexa then 'p' else 'e') then
      scan_number_loop hexa cs got_digit true true ((if hexa then 'p' else 'e') :: buf)
    else if !got_dot && c = '.' then scan_number_loop hexa cs got_digit true got_e (c :: buf)
    else (buf, c :: cs)

/-- The characters of a number that the conversion `%lf` collects from the input that follows
the sign, and the rest of the input; `none` when nothing was collected or only the prefix `0x`
of a hexadecimal number. -/
def scan_number (body : List Char) : Option (List Char) × List Char :=
  match body with
  | '0' :: x :: rest =>
    if x.toLower = 'x' then
      if (scan_number_loop true rest false false false ['x', '0']).1.length = 2 then
        (none, (scan_number_loop true rest false false false ['x', '0']).2)
      else
        (some (scan_number_loop true rest false false false ['x', '0']).1.reverse,
          (scan_number_loop true rest false false false ['x', '0']).2)
    else
      (some (scan_number_loop false (x :: rest) true false false ['0']).1.reverse,
        (scan_number_loop false (x :: rest) true false false ['0']).2)
  | _ =>
    if (scan_number_loop false body false false false []).1 = [] then
      (none, (scan_number_loop false body false false false []).2)
    else
      (some (scan_number_loop false body false false false []).1.reverse,
        (scan_number_loop false body false false false []).2)

/-- The conversion `%lf` of `fscanf`, as glibc does it: white space is skipped and an optional
sign is read; then come `nan`, `inf` or `infinity` in any letter case, or the characters of a
decimal or hexadecimal number, which are handed to `strtod`.  The result is the value (or
`none` at a matching failure or at the end of the file) and the new read position; the
characters read are consumed even when the conversion fails. -/
def scan_lf (input : List Char) : Option Double × List Char :=
  match (scan_sign (skip_space input)).2 with
  | [] => (none, [])
  | b :: bs =>
    if b.toLower = 'n' then
      if (scan_word "an".toList bs).1 then
        (some (Double.nan (scan_sign (skip_space input)).1), (scan_word "an".toList bs).2)
      else (none, (scan_word "an".toList bs).2)
    else if b.toLower = 'i' then
      if (scan_word "nf".toList bs).1 then
        match (scan_word "nf".toList bs).2 with
        | [] => (some (Double.inf (scan_sign (skip_space input)).1), [])
        | i :: rest =>
          if i.toLower = 'i' then
            if (scan_word "nity".toList rest).1 then
              (some (Double.inf (scan_sign (skip_space input)).1),
                (scan_word "nity".toList rest).2)
            else (none, (scan_word "nity".toList rest).2)
          else (some (Double.inf (scan_sign (skip_space input)).1), i :: rest)
      else (none, (scan_word "nf".toList bs).2)
    else
      match scan_number (b :: bs) with
      | (none, rest) => (none, rest)
      | (some number, rest) =>
        match strtod ((if (scan_sign (skip_space input)).1 then ['-'] else []) ++ number) with
        | none => (none, rest)
        | some x => (some x, rest)

/-- The characters `fgets` reads when it may store at most `k` of them: up to and including the
first newline. -/
def read_line : Nat → List Char → List Char × List Char
  | 0, input => ([], input)
  | _ + 1, [] => ([], [])
  | k + 1, c :: cs =>
    if c = '\n' then ([c], cs) else ((read_line k cs).1.cons c, (read_line k cs).2)

/-- The call `fgets(buf, n, file)`: `none` (a `NULL` result) at the end of the file, otherwise
the characters stored in `buf` and the new read position. -/
def fgets (n : Nat) (input : List Char) : Option (List Char × List Char) :=
  match input with
  | [] => none
  | _ :: _ => some (read_line (n - 1) input)

/-- The string left in `buf` by `buf[strcspn(buf, "\n")] = 0`: the characters before the first
newline (or NUL). -/
def line_text (buf : List Char) : CString :=
  buf.takeWhile fun c => c ≠ '\n' && c ≠ Char.ofNat 0

/-! ## `load_accounts_from_file` -/

/-- The outcome of one iteration of the slot loop of `load_accounts_from_file`. -/
structure LoadRecord where
  /-- The new contents of `accounts[i]`. -/
  account : Account
  /-- Whether `account_count = i + 1` has been executed. -/
  counted : Bool
  /-- The read position for the next iteration; `none` when the loop was left by `break`. -/
  rest : Option (List Char)

/-- The loop that reads the transaction amounts of one record: `j` is the loop counter and the
first argument is the number of iterations left.  A failed conversion truncates the log to `j`
entries and ends the loop. -/
def load_transactions (a : Account) : Nat → Nat → List Char → Account × List Char
  | 0, _, input => (a, input)
  | k + 1, j, input =>
    match scan_lf input with
    | (none, rest) => ({ a with statement := { a.statement with transaction_count := j } }, rest)
    | (some x, rest) =>
      load_transactions
        { a with statement := { a.statement with transactions := a.statement.transactions.set j x } }
        k (j + 1) (skip_space rest)

/-- The end of an iteration: the separator line is read with `fgets(separator_buf, 10, file)`;
in both cases `account_count = i + 1` is executed, and the loop goes on only if a line was
read. -/
def load_separator (a : Account) (input : List Char) : LoadRecord :=
  match fgets 10 input with
  | none => { account := a, counted := true, rest := none }
  | some r => { account := a, counted := true, rest := some r.2 }

/-- The sanity check on a transaction count read from the file. -/
def checked_transaction_count (n : Int) : Nat :=
  if n < 0 ∨ n > (MAX_TRANSACTIONS : Int) then 0 else n.toNat

/-- The body of the slot loop of `load_accounts_from_file`, for the slot whose current contents
are `a` (`strdup` is taken to succeed). -/
def load_record (a : Account) (input : List Char) : LoadRecord :=
  match scan_d input with
  | (none, _) => { account := a, counted := false, rest := none }
  | (some is_active, r0) =>
    let a1 : Account := { a with is_active := is_active }
    if a1.is_active ≠ 0 then
      match fgets MAX_NAME_LEN (skip_space r0) with
      | none => { account := a1, counted := false, rest := none }
      | some name_buf =>
        let a2 : Account := { a1 with name := strncpy_field MAX_NAME_LEN (line_text name_buf.1) }
        match fgets MAX_ID_LEN name_buf.2 with
        | none => { account := a2, counted := false, rest := none }
        | some nat_id_buf =>
          let a3 : Account :=
            { a2 with national_id := strncpy_field MAX_ID_LEN (line_text nat_id_buf.1) }
          match fgets MAX_ACCOUNT_TYPE_LEN nat_id_buf.2 with
          | none => { account := a3, counted := false, rest := none }
          | some acc_type_buf =>
            let a4 : Account :=
              { a3 with
                account_type := strncpy_field MAX_ACCOUNT_TYPE_LEN (line_text acc_type_buf.1) }
            match fgets 50 acc_type_buf.2 with
            | none => { account := a4, counted := false, rest := none }
            | some acc_num_buf =>
              let a5 : Account := { a4 with account_number := some (line_text acc_num_buf.1) }
              match scan_d acc_num_buf.2 with
              | (none, _) =>
                { account := { a5 with account_number := none, is_active := 0 },
                  counted := false, rest := none }
              | (some pin, r6) =>
                let a6 : Account := { a5 with pin := pin }
                match scan_lf (skip_space r6) with
                | (none, _) =>
                  { account := { a6 with account_number := none, is_active := 0 },
                    counted := false, rest := none }
                | (some balance, r7) =>
                  let a7 : Account := { a6 with balance := balance }
                  match scan_d (skip_space r7) with
                  | (none, _) =>
                    { account := { a7 with account_number := none, is_active := 0 },
                      counted := false, rest := none }
                  | (some n, r8) =>
                    let a8 : Account :=
                      { a7 with
                        statement :=
                          { a7.statement with transaction_count := checked_transaction_count n } }
                    let r := load_transactions a8 a8.statement.transaction_count 0 (skip_space r8)
                    load_separator r.1 r.2
    else load_separator a1 (skip_space r0)

/-- The slot loop of `load_accounts_from_file`: `i` is the loop counter and the first argument
is the number of iterations left (`loaded_account_count - i`). -/
def load_loop (t : Table) : Nat → Nat → List Char → Table
  | 0, _, _ => t
  | k + 1, i, input =>
    let r := load_record (t.slot i) input
    let t1 := t.set_slot i r.account
    let t2 : Table := if r.counted then { t1 with account_count := i + 1 } else t1
    match r.rest with
    | none => t2
    | some rest => load_loop t2 k (i + 1) rest

/-- The initialisation that precedes loading: every slot is made inactive with a `NULL`
account number, and `account_count` is 0. -/
def reset_table (t : Table) : Table :=
  { accounts := t.accounts.map fun a => { a with is_active := 0, account_number := none },
    account_count := 0 }

/-- The function `load_accounts_from_file` on the globals `t`; `file` is `none` when the file
cannot be opened for reading.  Result code and new table. -/
def load_accounts_from_file (t : Table) (file : Option (List Char)) : Int × Table :=
  match file with
  | none => (0, reset_table t)
  | some content =>
    match scan_d content with
    | (none, _) => (1, reset_table t)
    | (some loaded_account_count, r0) =>
      (0, load_loop (reset_table t)
        (if loaded_account_count > (MAX_ACCOUNTS : Int) then MAX_ACCOUNTS
          else loaded_account_count.toNat) 0 (skip_space r0))

/-! ## `get_statement` -/

/-- The line `get_statement` writes for the transaction at index `j`:
`"%d. %s: %.2f\n"` with `j + 1`, `Deposit` or `Withdrawal` according to the sign, and the
absolute amount. -/
def statement_line (j : Nat) (x : Double) : CString :=
  render_d ((j + 1 : Nat) : Int) ++ ". ".toList ++
    (if 0 ≤ x then "Deposit".toList else "Withdrawal".toList) ++ ": ".toList ++
    render_2f (if 0 ≤ x then x else -x) ++ ['\n']

/-- The loop of `get_statement` over the transactions: `j` is the loop counter, `text` what has
been written so far, and the first argument the number of iterations left.  After each
`snprintf` the function returns 2 when the text written so far, had it not been cut, would be
as long as the buffer or longer; the buffer then holds the cut text. -/
def statement_loop (transactions : List Double) (output_size : Nat) :
    Nat → Nat → CString → Int × CString
  | 0, _, text => (0, text)
  | k + 1, j, text =>
    if (text ++ statement_line j (transactions.getD j 0)).length ≥ output_size then
      (2, (text ++ statement_line j (transactions.getD j 0)).take (output_size - 1))
    else
      statement_loop transactions output_size k (j + 1)
        (text ++ statement_line j (transactions.getD j 0))

/-- The header line of a statement. -/
def statement_header (account_number : CString) (balance : Double) : CString :=
  "Statement for Account ".toList ++ account_number ++ " (Balance: ".toList ++
    render_2f balance ++ "):\n".toList

/-- The function `get_statement` on an output buffer that is empty on entry: result code and
the text left in the buffer. -/
def get_statement (t : Table) (account_number : CString) (pin : Int) (output_size : Nat) :
    Int × CString :=
  match find_account_index t account_number pin with
  | some index =>
    if (statement_header account_number (t.slot index).balance).length ≥ output_size then
      (2, (statement_header account_number (t.slot index).balance).take (output_size - 1))
    else if (t.slot index).statement.transaction_count = 0 then
      if (statement_header account_number (t.slot index).balance ++
          "No transactions yet.\n".toList).length ≥ output_size then
        (2, (statement_header account_number (t.slot index).balance ++
          "No transactions yet.\n".toList).take (output_size - 1))
      else
        (0, statement_header account_number (t.slot index).balance ++
          "No transactions yet.\n".toList)
    else
      if (statement_header account_number (t.slot index).balance ++ "Last ".toList ++
          render_d ((t.slot index).statement.transaction_count : Int) ++
          " Transactions:\n".toList).length ≥ output_size then
        (2, (statement_header account_number (t.slot index).balance ++ "Last ".toList ++
          render_d ((t.slot index).statement.transaction_count : Int) ++
          " Transactions:\n".toList).take (output_size - 1))
      else
        statement_loop (t.slot index).statement.transactions output_size
          (t.slot index).statement.transaction_count 0
          (statement_header account_number (t.slot index).balance ++ "Last ".toList ++
            render_d ((t.slot index).statement.transaction_count : Int) ++
            " Transactions:\n".toList)
  | none => (1, [])

/-! ## The server: request handling of `server.c`

A request is the C string that `buffer` holds after one `read` (at most `BUFFER_SIZE - 1`
characters).  `handle_request` is one iteration of the loop of `handle_client`; it returns the
text sent, the new table and whether the loop ends. -/

def BUFFER_SIZE : Nat := 1024

def MAX_ARGS : Nat := 10

/-- The size of the array `response` in `handle_client`. -/
def RESPONSE_SIZE : Nat := BUFFER_SIZE * 2

/-- The effect of `trim_whitespace(str)` on the string that starts at `str`.  The function
advances its own copy of the pointer over the leading white space and returns at once when
nothing else is left; otherwise it writes the terminator after the last character that is not
white space.  For the caller, whose pointer has not moved, the string keeps its leading white
space and loses its trailing white space. -/
def trim_whitespace (str : CString) : CString :=
  if str.dropWhile is_space = [] then str else str.rdropWhile is_space

/-- The function `to_lowercase`: `tolower` on every character. -/
def to_lowercase (str : CString) : CString :=
  str.map Char.toLower

/-- The successive results of `strtok(buffer, ",")`, `strtok(NULL, ",")`, ...: the non-empty
fields between commas. -/
def strtok_tokens (buffer : CString) : List CString :=
  (buffer.splitOn ',').filter fun token => !token.isEmpty

/-- The text `snprintf(buf, size, ...)` leaves in `buf` when the formatted text is `text`: at
most `size - 1` characters. -/
def snprintf (size : Nat) (text : CString) : CString :=
  text.take (size - 1)

/-- The function `atoi`: white space, an optional sign and decimal digits; 0 when there is no
digit (out-of-range values as for `%d`). -/
def atoi (s : CString) : Int :=
  (scan_d s).1.getD 0

/-- The function `atof`: the value `strtod` converts the beginning of the text to, and 0 when
no conversion can be performed. -/
def atof (s : CString) : Double :=
  (strtod s).getD 0

/-- The parsing loop of `handle_client` on the buffer without its final semicolon: at most
`MAX_ARGS + 1` tokens are taken, each is passed to `trim_whitespace`, the first one is copied
into `command[50]` and lowercased, the others are copied into `args[..][100]`. -/
def parse_tokens (buffer : CString) : CString × List CString :=
  match ((strtok_tokens buffer).take (MAX_ARGS + 1)).map trim_whitespace with
  | [] => ([], [])
  | token :: tokens => (to_lowercase (token.take 49), tokens.map fun a => a.take 99)

/-- The protocol check and the parsing of one request: `none` when the trimmed text is empty or
does not end with a semicolon, otherwise the command and the arguments. -/
def parse_request (received : CString) : Option (CString × List CString) :=
  if trim_whitespace received = [] ∨ (trim_whitespace received).getLast? ≠ some ';' then none
  else some (parse_tokens (trim_whitespace received).dropLast)

/-- One iteration of the loop of `handle_client`. -/
structure Outcome where
  /-- The text passed to `send`. -/
  response : CString
  /-- The account table after the request. -/
  table : Table
  /-- Whether the loop is left (`break` after a `quit`). -/
  closed : Bool
deriving DecidableEq

/-- The response to a request without terminating semicolon. -/
def format_error : CString :=
  "ERROR Invalid protocol format: Missing terminating semicolon ';'.\n".toList

/-- The response of every operation whose lookup fails. -/
def not_found_error : CString :=
  "ERROR 1 Account not found or incorrect PIN.;\n".toList

/-- The branch `open` of `handle_client`. -/
def handle_open (t : Table) (env : Env) (args : List CString) : Outcome :=
  match args with
  | [name, national_id, account_type, initial_deposit, pin] =>
    if to_lowercase account_type ≠ "savings".toList ∧
        to_lowercase account_type ≠ "checking".toList then
      { response := snprintf RESPONSE_SIZE
          "ERROR Invalid account type. Use 'savings' or 'checking'.\n".toList,
        table := t, closed := false }
    else
      if (open_account t env name national_id (to_lowercase account_type)
          (atof initial_deposit) (atoi pin)).1.is_active ≠ 0 then
        { response := snprintf RESPONSE_SIZE
            ("OK,Account Number:".toList ++
              (match (open_account t env name national_id (to_lowercase account_type)
                  (atof initial_deposit) (atoi pin)).1.account_number with
                | some s => s
                | none => "(null)".toList) ++
              ",PIN:".toList ++
              render_d (open_account t env name national_id (to_lowercase account_type)
                (atof initial_deposit) (atoi pin)).1.pin ++ ";\n".toList),
          table := (open_account t env name national_id (to_lowercase account_type)
            (atof initial_deposit) (atoi pin)).2,
          closed := false }
      else
        { response := snprintf RESPONSE_SIZE
            ("ERROR 2 Failed to open account. National ID may already exist or invalid " ++
              "deposit amount.\n").toList,
          table := (open_account t env name national_id (to_lowercase account_type)
            (atof initial_deposit) (atoi pin)).2,
          closed := false }
  | _ =>
    { response := snprintf RESPONSE_SIZE
        ("ERROR Invalid OPEN command format. Usage: " ++
          "OPEN,name,national_id,account_type,initial_deposit,pin;\n").toList,
      table := t, closed := false }

/-- The branch `close` of `handle_client`. -/
def handle_close (t : Table) (args : List CString) : Outcome :=
  match args with
  | [acc_num, pin] =>
    if (close_account t acc_num (atoi pin)).1 = 0 then
      { response := snprintf RESPONSE_SIZE
          ("OK,Account ".toList ++ acc_num ++ " closed successfully.;\n".toList),
        table := (close_account t acc_num (atoi pin)).2, closed := false }
    else
      { response := snprintf RESPONSE_SIZE not_found_error,
        table := (close_account t acc_num (atoi pin)).2, closed := false }
  | _ =>
    { response := snprintf RESPONSE_SIZE
        "ERROR Invalid CLOSE command format. Usage: CLOSE,account_number,pin;\n".toList,
      table := t, closed := false }

/-- The branch `withdraw` of `handle_client`. -/
def handle_withdraw (t : Table) (args : List CString) : Outcome :=
  match args with
  | [acc_num, pin, amount] =>
    { response := snprintf RESPONSE_SIZE
        (if (withdraw t acc_num (atoi pin) (atof amount)).1 = 0 then
          "OK,Withdrawal successful.;\n".toList
        else if (withdraw t acc_num (atoi pin) (atof amount)).1 = 1 then not_found_error
        else if (withdraw t acc_num (atoi pin) (atof amount)).1 = 3 then
          "ERROR 3 Insufficient funds or minimum balance requirement not met.;\n".toList
        else if (withdraw t acc_num (atoi pin) (atof amount)).1 = 4 then
          "ERROR 4 Withdrawal amount must be a positive multiple of 500.;\n".toList
        else
          "ERROR Unknown withdrawal error code: ".toList ++
            render_d (withdraw t acc_num (atoi pin) (atof amount)).1 ++ ".;\n".toList),
      table := (withdraw t acc_num (atoi pin) (atof amount)).2, closed := false }
  | _ =>
    { response := snprintf RESPONSE_SIZE
        ("ERROR Invalid WITHDRAW command format. Usage: " ++
          "WITHDRAW,account_number,pin,amount;\n").toList,
      table := t, closed := false }

/-- The branch `deposit` of `handle_client`. -/
def handle_deposit (t : Table) (args : List CString) : Outcome :=
  match args with
  | [acc_num, pin, amount] =>
    { response := snprintf RESPONSE_SIZE
        (if (deposit t acc_num (atoi pin) (atof amount)).1 = 0 then
          "OK,Deposit successful.;\n".toList
        else if (deposit t acc_num (atoi pin) (atof amount)).1 = 1 then not_found_error
        else if (deposit t acc_num (atoi pin) (atof amount)).1 = 3 then
          "ERROR 3 Minimum deposit amount is 500.;\n".toList
        else
          "ERROR Unknown deposit error code: ".toList ++
            render_d (deposit t acc_num (atoi pin) (atof amount)).1 ++ ".;\n".toList),
      table := (deposit t acc_num (atoi pin) (atof amount)).2, closed := false }
  | _ =>
    { response := snprintf RESPONSE_SIZE
        ("ERROR Invalid DEPOSIT command format. Usage: " ++
          "DEPOSIT,account_number,pin,amount;\n").toList,
      table := t, closed := false }

/-- The branch `balance` of `handle_client`. -/
def handle_balance (t : Table) (args : List CString) : Outcome :=
  match args with
  | [acc_num, pin] =>
    if 0 ≤ check_balance t acc_num (atoi pin) then
      { response := snprintf RESPONSE_SIZE
          ("OK,Balance:".toList ++ render_2f (check_balance t acc_num (atoi pin)) ++
            ";\n".toList),
        table := t, closed := false }
    else { response := snprintf RESPONSE_SIZE not_found_error, table := t, closed := false }
  | _ =>
    { response := snprintf RESPONSE_SIZE
        "ERROR Invalid BALANCE command format. Usage: BALANCE,account_number,pin;\n".toList,
      table := t, closed := false }

/-- The branch `statement` of `handle_client`. -/
def handle_statement (t : Table) (args : List CString) : Outcome :=
  match args with
  | [acc_num, pin] =>
    { response := snprintf RESPONSE_SIZE
        (if (get_statement t acc_num (atoi pin) (BUFFER_SIZE * 2)).1 = 0 then
          "OK,".toList ++ (get_statement t acc_num (atoi pin) (BUFFER_SIZE * 2)).2 ++
            ";\n".toList
        else if (get_statement t acc_num (atoi pin) (BUFFER_SIZE * 2)).1 = 1 then
          not_found_error
        else if (get_statement t acc_num (atoi pin) (BUFFER_SIZE * 2)).1 = 2 then
          "ERROR 2 Statement buffer too small.;\n".toList
        else
          "ERROR Unknown statement error code: ".toList ++
            render_d (get_statement t acc_num (atoi pin) (BUFFER_SIZE * 2)).1 ++ ".;\n".toList),
      table := t, closed := false }
  | _ =>
    { response := snprintf RESPONSE_SIZE
        ("ERROR Invalid STATEMENT command format. Usage: " ++
          "STATEMENT,account_number,pin;\n").toList,
      table := t, closed := false }

/-- The branch `quit` of `handle_client`. -/
def handle_quit (t : Table) (args : List CString) : Outcome :=
  match args with
  | [] =>
    { response := snprintf RESPONSE_SIZE "OK,Connection terminated.;\n".toList,
      table := t, closed := true }
  | _ =>
    { response := snprintf RESPONSE_SIZE
        "ERROR Invalid QUIT command format. Usage: QUIT;\n".toList,
      table := t, closed := false }

/-- The command dispatch of `handle_client` on the parsed command and arguments. -/
def handle_command (t : Table) (env : Env) (command : CString) (args : List CString) :
    Outcome :=
  if command = "open".toList then handle_open t env args
  else if command = "close".toList then handle_close t args
  else if command = "withdraw".toList then handle_withdraw t args
  else if command = "deposit".toList then handle_deposit t args
  else if command = "balance".toList then handle_balance t args
  else if command = "statement".toList then handle_statement t args
  else if command = "quit".toList then handle_quit t args
  else
    { response := snprintf RESPONSE_SIZE
        ("ERROR Unknown command: ".toList ++ command ++ ";\n".toList),
      table := t, closed := false }

/-- One iteration of the loop of `handle_client` on the text received; `env` holds the library
values an `open` would consume. -/
def handle_request (t : Table) (env : Env) (received : CString) : Outcome :=
  match parse_request received with
  | none => { response := snprintf RESPONSE_SIZE format_error, table := t, closed := false }
  | some parsed => handle_command t env parsed.1 parsed.2

/-- The loop of `handle_client` on the texts that the successive successful `read` calls leave
in `buffer`: it ends after a `quit`, or at the end of the list, which stands for the `read`
that returns 0 or fails.  A text may be empty (data that starts with a NUL); it is answered like
any other request.  The result is the list of responses sent and the final table. -/
def handle_client (t : Table) : List (Env × CString) → List CString × Table
  | [] => ([], t)
  | (env, received) :: rest =>
    if (handle_request t env received).closed then
      ([(handle_request t env received).response], (handle_request t env received).table)
    else
      ((handle_request t env received).response ::
          (handle_client (handle_request t env received).table rest).1,
        (handle_client (handle_request t env received).table rest).2)

/-- The candidate number that `generate_account_number` renders at attempt number `attempts`:
`time(NULL) + (rand() % 100000) + attempts` printed with `%lld`. -/
def candidate_number (env : Env) (attempts : Nat) : CString :=
  render_lld (env.time attempts + ((env.rand attempts : Int) % 100000) + attempts)

/-! ## The statement text as the specification describes it -/

/-- The line of the `j`-th entry (counted from 1) of a statement: `<j>. Deposit: <amount>` when
the entry is not negative, `<j>. Withdrawal: <absolute amount>` when it is negative, amounts
with two decimals, followed by a newline.  An entry that is a NaN is neither; for it the line
is the one the code writes, a withdrawal of the NaN with its sign flipped. -/
def statement_entry (j : Nat) (x : Double) : CString :=
  if 0 ≤ x then render_d (j : Int) ++ ". Deposit: ".toList ++ render_2f x ++ "\n".toList
  else if x < 0 then
    render_d (j : Int) ++ ". Withdrawal: ".toList ++ render_2f x.abs ++ "\n".toList
  else render_d (j : Int) ++ ". Withdrawal: ".toList ++ render_2f (-x) ++ "\n".toList

/-- The lines of the entries of a log, oldest first, the first one being numbered `j`. -/
def statement_entries : Nat → List Double → CString
  | _, [] => []
  | j, x :: xs => statement_entry j x ++ statement_entries (j + 1) xs

/-- The full statement text: the header with the account number and the balance, then
`No transactions yet.` if the log is empty, otherwise `Last <k> Transactions:` and the `k`
entry lines. -/
def statement_text (account_number : CString) (balance : Double) (log : List Double) :
    CString :=
  "Statement for Account ".toList ++ account_number ++ " (Balance: ".toList ++
    render_2f balance ++ "):\n".toList ++
    (if log = [] then "No transactions yet.\n".toList
    else
      "Last ".toList ++ render_d (log.length : Int) ++ " Transactions:\n".toList ++
        statement_entries 1 log)

/-! ## Sequences of calls -/

/-- One call of a mutating operation of `bank.h`, with its arguments (and, for `open_account`,
the library values its generator run receives). -/
inductive Call where
  | open_account (env : Env) (name national_id account_type : CString)
      (initial_deposit : Double)
      (pin : Int)
  | close_account (account_number : CString) (pin : Int)
  | deposit (account_number : CString) (pin : Int) (amount : Double)
  | withdraw (account_number : CString) (pin : Int) (amount : Double)

/-- The table after one call. -/
def Call.run (t : Table) : Call → Table
  | Call.open_account env name national_id account_type initial_deposit pin =>
    (Bank.open_account t env name national_id account_type initial_deposit pin).2
  | Call.close_account account_number pin => (Bank.close_account t account_number pin).2
  | Call.deposit account_number pin amount => (Bank.deposit t account_number pin amount).2
  | Call.withdraw account_number pin amount => (Bank.withdraw t account_number pin amount).2

/-- The table after a sequence of calls, first call first. -/
def run_calls (t : Table) (calls : List Call) : Table :=
  calls.foldl Call.run t

/-- A table state that some sequence of calls produces from the empty table. -/
def Reachable (t : Table) : Prop :=
  ∃ calls : List Call, run_calls Table.empty calls = t

/-- Is the amount of the call a number, that is, not a NaN?  (True of a call without amount.) -/
def Call.amount_is_number : Call → Bool
  | Call.open_account _ _ _ _ initial_deposit _ => !initial_deposit.is_nan
  | Call.close_account _ _ => true
  | Call.deposit _ _ amount => !amount.is_nan
  | Call.withdraw _ _ amount => !amount.is_nan

/-- What holds of every slot in a reachable table: the array sizes, and for an active slot a
non-null account number and a non-empty log. -/
structure Account.Good (a : Account) : Prop where
  length_transactions : a.statement.transactions.length = MAX_TRANSACTIONS
  transaction_count_le : a.statement.transaction_count ≤ MAX_TRANSACTIONS
  number_ne_none : a.is_active ≠ 0 → a.account_number ≠ none
  transaction_count_pos : a.is_active ≠ 0 → 1 ≤ a.statement.transaction_count

/-- The invariant of the account table. -/
structure Table.Inv (t : Table) : Prop where
  length_accounts : t.accounts.length = MAX_ACCOUNTS
  count_le : t.account_count ≤ MAX_ACCOUNTS
  good : ∀ a ∈ t.accounts, a.Good
  active_below_count : ∀ (i : Nat) (a : Account), t.accounts[i]? = some a → a.is_active ≠ 0 →
    i < t.account_count
  unique : ∀ (i j : Nat) (a b : Account), t.accounts[i]? = some a → t.accounts[j]? = some b →
    i ≠ j → a.is_active ≠ 0 → b.is_active ≠ 0 → a.account_number ≠ b.account_number

/-- Every active account holds at least 1000. -/
def Table.MinimumBalance (t : Table) : Prop :=
  ∀ a ∈ t.accounts, a.is_active ≠ 0 → 1000 ≤ a.balance

/-! ## Deposits and withdrawals on one account -/

/-- A deposit or a withdrawal of the given amount. -/
inductive Movement where
  | deposit (amount : Double)
  | withdraw (amount : Double)

/-- The entry a successful movement adds to the transaction log: `amount` for a deposit,
`-amount` for a withdrawal. -/
def Movement.signed : Movement → Double
  | Movement.deposit amount => amount
  | Movement.withdraw amount => -amount

/-- The call of `deposit` or `withdraw` on the account `(account_number, pin)`. -/
def Movement.perform (t : Table) (account_number : CString) (pin : Int) : Movement → Int × Table
  | Movement.deposit amount => Bank.deposit t account_number pin amount
  | Movement.withdraw amount => Bank.withdraw t account_number pin amount

/-- The table after performing the movements in order on one account. -/
def perform_all (t : Table) (account_number : CString) (pin : Int) : List Movement → Table
  | [] => t
  | m :: ms => perform_all (m.perform t account_number pin).2 account_number pin ms

/-- Does every movement of the sequence return code 0? -/
def all_succeed (t : Table) (account_number : CString) (pin : Int) : List Movement → Bool
  | [] => true
  | m :: ms =>
    decide ((m.perform t account_number pin).1 = 0) &&
      all_succeed (m.perform t account_number pin).2 account_number pin ms

/-- The full history of an account: the opening deposit, then one signed entry for each
movement. -/
def history (initial_deposit : Double) (ms : List Movement) : List Double :=
  initial_deposit :: ms.map Movement.signed

/-- The last `MAX_TRANSACTIONS` elements of a list (all of it when it is shorter). -/
def recent (l : List Double) : List Double :=
  l.drop (l.length - MAX_TRANSACTIONS)

/-- The conditions under which every movement of a sequence is accepted on an account that
starts with the given balance: a deposit needs an amount of at least 500; a withdrawal needs
the remainder test of `withdraw` to pass, a positive amount, and 1000 left afterwards. -/
def movements_accepted (balance : Double) : List Movement → Prop
  | [] => True
  | Movement.deposit amount :: ms => 500 ≤ amount ∧ movements_accepted (balance + amount) ms
  | Movement.withdraw amount :: ms =>
    Int.tmod (double_to_int amount) 500 = 0 ∧ 0 < amount ∧ 1000 ≤ balance - amount ∧
      movements_accepted (balance - amount) ms

/-! ## Sample data used to instantiate the theorems -/

/-- An account number as the generator renders it. -/
def sample_number : CString := "1700000042".toList

/-- An active account with the given balance, opened with that amount. -/
def sample_account (balance : Double) : Account :=
  { name := "Alice".toList, national_id := "12345678".toList, account_type := "savings".toList,
    account_number := some sample_number, balance := balance, pin := 1111,
    statement := { transactions := [balance, 0, 0, 0, 0], transaction_count := 1 },
    is_active := 1 }

/-- A table whose slot 0 holds `sample_account balance` and whose other 99 slots are free. -/
def sample_table (balance : Double) : Table :=
  { accounts := sample_account balance :: List.replicate 99 Account.zero, account_count := 1 }

/-- Library values for one run of the generator: the clock reads 1700000000 and `rand()`
returns 42 at every attempt. -/
def sample_env : Env :=
  { time := fun _ => 1700000000, rand := fun _ => 42 }

/-- A table in which all 100 slots are active, slot `i` carrying the number `1700000000 + i`. -/
def full_table : Table :=
  { accounts := (List.range 100).map fun (i : Nat) =>
      { sample_account 1500 with account_number := some (render_lld (1700000000 + Int.ofNat i)) },
    account_count := 100 }

/-- The table after two `open_account` calls on the empty table, both made with the library
values of `sample_env`. -/
def two_accounts : Table :=
  run_calls Table.empty
    [Call.open_account sample_env "Alice".toList "12345678".toList "savings".toList 1500 1111,
     Call.open_account sample_env "Bob".toList "87654321".toList "checking".toList 1000 2222]

/-- Six movements, all accepted on an account opened with 1000. -/
def sample_movements : List Movement :=
  [Movement.deposit 500, Movement.deposit 600, Movement.withdraw 500, Movement.deposit 700,
   Movement.deposit 800, Movement.withdraw 1000]

/-- The table after opening, on the empty table, an account whose name has 49 characters (the
longest name a slot can hold). -/
def long_name_table : Table :=
  run_calls Table.empty
    [Call.open_account sample_env (List.replicate 49 'x') "87654321".toList "checking".toList
      1000 2222]

/-- The table after opening, on the empty table, an account whose name starts with a space. -/
def spaced_name_table : Table :=
  run_calls Table.empty
    [Call.open_account sample_env " Bob".toList "87654321".toList "checking".toList 1000 2222]

/-- The table after opening, on the empty table, an account with a short plain name. -/
def plain_name_table : Table :=
  run_calls Table.empty
    [Call.open_account sample_env "Bob".toList "87654321".toList "checking".toList 1000 2222]

/-- Save a table and load the file into the table of a fresh process. -/
def save_then_load (t : Table) : Table :=
  (load_accounts_from_file Table.empty (some (save_accounts_to_file t))).2

/-- The table of a connection in which one account has been opened through the protocol with
the PIN text `0000`. -/
def pin_zero_table : Table :=
  (handle_client Table.empty
    [(sample_env, "OPEN,Bob,12345678,savings,1000,0000;".toList)]).2

/-- The table after one `open_account` call on the empty table whose initial deposit is a
NaN. -/
def nan_table : Table :=
  run_calls Table.empty
    [Call.open_account sample_env "Bob".toList "12345678".toList "savings".toList
      (Double.nan false) 2222]

/-- Library values for which every candidate of the generator is the number 1700000042: the
clock reads `1700000042 - k` at attempt `k` and `rand()` returns 0. -/
def stuck_env : Env :=
  { time := fun k => 1700000042 - (k : Int), rand := fun _ => 0 }

/-- The text of a file that ends after the active flag of its first record. -/
def truncated_file : List Char :=
  "1\n1\n".toList

/-! ## Facts about `double` values -/

theorem Double.lt_iff (x y : Double) : x < y ↔ Double.lt x y = true := Iff.rfl

theorem Double.le_iff (x y : Double) : x ≤ y ↔ Double.le x y = true := Iff.rfl

theorem Double.ofNat_eq (n : Nat) : (OfNat.ofNat n : Double) = Double.finite (n : ℚ) := rfl

theorem Double.finite_lt_finite (a b : ℚ) : Double.finite a < Double.finite b ↔ a < b := by
  simp [Double.lt_iff, Double.lt]

theorem Double.finite_le_finite (a b : ℚ) : Double.finite a ≤ Double.finite b ↔ a ≤ b := by
  simp [Double.le_iff, Double.le]

theorem Double.not_lt_of_le {x y : Double} (h : y ≤ x) : ¬ x < y := by
  rw [Double.le_iff] at h
  rw [Double.lt_iff]
  cases x <;> cases y <;> simp_all [Double.lt, Double.le] <;>
    first
    | linarith
    | (rename_i a b; cases a <;> cases b <;> simp_all)

theorem Double.not_le_of_lt {x y : Double} (h : y < x) : ¬ x ≤ y := fun hle =>
  Double.not_lt_of_le hle h

theorem Double.le_of_not_lt {x y : Double} (h : ¬ x < y) (hx : x.is_nan = false)
    (hy : y.is_nan = false) : y ≤ x := by
  rw [Double.lt_iff] at h
  rw [Double.le_iff]
  cases x <;> cases y <;> simp_all [Double.lt, Double.le, Double.is_nan] <;>
    (rename_i a b; cases a <;> cases b <;> simp_all)

theorem Double.is_nan_of_le {x y : Double} (h : x ≤ y) : x.is_nan = false ∧ y.is_nan = false := by
  rw [Double.le_iff] at h
  cases x <;> cases y <;> simp_all [Double.le, Double.is_nan]

theorem Double.is_nan_of_lt {x y : Double} (h : x < y) : x.is_nan = false ∧ y.is_nan = false := by
  rw [Double.lt_iff] at h
  cases x <;> cases y <;> simp_all [Double.lt, Double.is_nan]

theorem bit_length_loop_spec :
    ∀ (fuel n count : Nat), n ≤ fuel →
      ∃ k, bit_length_loop fuel n count = count + k ∧ (n = 0 → k = 0) ∧
        (n ≠ 0 → 2 ^ (k - 1) ≤ n ∧ n < 2 ^ k ∧ 1 ≤ k) := by
  intro fuel
  induction fuel with
  | zero =>
    intro n count h
    have hn : n = 0 := by omega
    subst hn
    exact ⟨0, rfl, fun _ => rfl, fun h => absurd rfl h⟩
  | succ fuel ih =>
    intro n count h
    unfold bit_length_loop
    by_cases hn : n = 0
    · simp only [hn, if_true]
      exact ⟨0, rfl, fun _ => rfl, fun h => absurd rfl h⟩
    · rw [if_neg hn]
      obtain ⟨k, hk, hk0, hk1⟩ := ih (n / 2) (count + 1) (by omega)
      refine ⟨k + 1, by omega, fun h0 => absurd h0 hn, fun _ => ?_⟩
      by_cases hhalf : n / 2 = 0
      · have hk' := hk0 hhalf
        subst hk'
        have h1 : n = 1 := by omega
        subst h1
        simp
      · obtain ⟨h1, h2, h3⟩ := hk1 hhalf
        have hpow : 2 ^ (k + 1 - 1) = 2 * 2 ^ (k - 1) := by
          have : k + 1 - 1 = (k - 1) + 1 := by omega
          rw [this, pow_succ]
          ring
        rw [hpow, pow_succ]
        refine ⟨by omega, by omega, by omega⟩

theorem bit_length_spec (n : Nat) (hn : n ≠ 0) :
    2 ^ (bit_length n - 1) ≤ n ∧ n < 2 ^ bit_length n ∧ 1 ≤ bit_length n := by
  obtain ⟨k, hk, _, hk1⟩ := bit_length_loop_spec n n 0 (le_refl n)
  have hb : bit_length n = k := by
    unfold bit_length
    omega
  rw [hb]
  exact hk1 hn

/-- A power of two with an integer exponent as a quotient of two powers with natural
exponents. -/
theorem two_zpow_eq (e : Int) : (2 : ℚ) ^ e = (2 : ℚ) ^ e.toNat / (2 : ℚ) ^ (-e).toNat := by
  rcases le_total 0 e with h | h
  · have h1 : (-e).toNat = 0 := Int.toNat_eq_zero.mpr (by omega)
    have h2 : (e.toNat : Int) = e := Int.toNat_of_nonneg h
    rw [h1, pow_zero, div_one, ← zpow_natCast, h2]
  · have h1 : e.toNat = 0 := Int.toNat_eq_zero.mpr h
    have h2 : ((-e).toNat : Int) = -e := Int.toNat_of_nonneg (by omega)
    rw [h1, pow_zero, one_div, ← zpow_natCast, h2, zpow_neg, inv_inv]

/-- The test that `floor_log2` and the rounding perform on natural numbers, read on rational
numbers. -/
theorem scaled_le_iff (n d : Nat) (e : Int) :
    d * 2 ^ e.toNat ≤ n * 2 ^ (-e).toNat ↔ (d : ℚ) * (2 : ℚ) ^ e ≤ n := by
  rw [two_zpow_eq e]
  have hpos : (0 : ℚ) < (2 : ℚ) ^ (-e).toNat := by positivity
  rw [← mul_div_assoc, div_le_iff₀ hpos]
  constructor
  · intro h
    exact_mod_cast h
  · intro h
    exact_mod_cast h

theorem floor_log2_le (n d : Nat) (hn : 0 < n) (hd : 0 < d) :
    (d : ℚ) * (2 : ℚ) ^ floor_log2 n d ≤ n := by
  unfold floor_log2
  split
  · rename_i h
    exact (scaled_le_iff n d _).mp h
  · obtain ⟨hn1, _, hn3⟩ := bit_length_spec n (by omega)
    obtain ⟨_, hd2, hd3⟩ := bit_length_spec d (by omega)
    have h1 : ((2 : ℚ) ^ (bit_length n - 1) : ℚ) ≤ n := by exact_mod_cast hn1
    have h2 : (d : ℚ) < (2 : ℚ) ^ (bit_length d) := by exact_mod_cast hd2
    have h3 : (2 : ℚ) ^ ((bit_length n : Int) - (bit_length d : Int) - 1) =
        (2 : ℚ) ^ (bit_length n - 1) / (2 : ℚ) ^ (bit_length d) := by
      rw [← zpow_natCast, ← zpow_natCast, ← zpow_sub₀ (by norm_num)]
      congr 1
      omega
    rw [h3, ← mul_div_assoc, div_le_iff₀ (by positivity)]
    calc (d : ℚ) * 2 ^ (bit_length n - 1) ≤ 2 ^ (bit_length d) * 2 ^ (bit_length n - 1) := by
          apply mul_le_mul_of_nonneg_right (le_of_lt h2) (by positivity)
      _ = 2 ^ (bit_length n - 1) * 2 ^ (bit_length d) := by ring
      _ ≤ n * 2 ^ (bit_length d) := by
          apply mul_le_mul_of_nonneg_right h1 (by positivity)

theorem round_half_even_ge (a b : Nat) : a / b ≤ round_half_even a b := by
  unfold round_half_even
  split
  · exact le_refl _
  · split
    · omega
    · split <;> omega

theorem round_half_even_mul (l b : Nat) (hb : 0 < b) : round_half_even (l * b) b = l := by
  unfold round_half_even
  have h1 : l * b % b = 0 := Nat.mul_mod_left l b
  have h2 : l * b / b = l := Nat.mul_div_cancel l hb
  simp [h1, h2, hb]

theorem ulp_exponent_toNat (n d : Nat) (h : ulp_exponent n d ≤ 0) :
    (ulp_exponent n d).toNat = 0 := Int.toNat_eq_zero.mpr h

/-- The rounding of a value that is a `double`: a natural number `M` below `2 ^ 53` times a
power of two that is at least `2 ^ (-1074)`, the product being below `2 ^ 1024`.  The value is
returned unchanged. -/
theorem round_to_double_exact (negative : Bool) (n d M : Nat) (k : Int) (hd : 0 < d)
    (hM0 : 0 < M) (hM : M < 2 ^ 53) (hk : -1074 ≤ k)
    (hq : (n : ℚ) = (M : ℚ) * (2 : ℚ) ^ k * d) (hmax : (M : ℚ) * (2 : ℚ) ^ k < (2 : ℚ) ^ (1024 : Int)) :
    round_to_double negative n d =
      Double.finite ((if negative then -1 else 1) * ((M : ℚ) * (2 : ℚ) ^ k)) := by
  have hdq : (0 : ℚ) < d := by exact_mod_cast hd
  have hMq : (0 : ℚ) < M := by exact_mod_cast hM0
  have h2k : (0 : ℚ) < (2 : ℚ) ^ k := by positivity
  have hnq : (0 : ℚ) < n := by rw [hq]; positivity
  have hn : 0 < n := by exact_mod_cast hnq
  -- the exponent of the unit in the last place is at most `k`
  have hE := floor_log2_le n d hn hd
  have hE2 : (2 : ℚ) ^ floor_log2 n d < (2 : ℚ) ^ (53 + k) := by
    have h1 : (d : ℚ) * (2 : ℚ) ^ floor_log2 n d ≤ d * ((M : ℚ) * (2 : ℚ) ^ k) := by
      rw [hq] at hE
      linarith
    have h2 : (2 : ℚ) ^ floor_log2 n d ≤ (M : ℚ) * (2 : ℚ) ^ k := le_of_mul_le_mul_left h1 hdq
    have h3 : (M : ℚ) < (2 : ℚ) ^ (53 : Int) := by
      have : ((2 : ℚ) ^ (53 : Int)) = ((2 ^ 53 : Nat) : ℚ) := by norm_num
      rw [this]
      exact_mod_cast hM
    calc (2 : ℚ) ^ floor_log2 n d ≤ (M : ℚ) * (2 : ℚ) ^ k := h2
      _ < (2 : ℚ) ^ (53 : Int) * (2 : ℚ) ^ k := by
          apply mul_lt_mul_of_pos_right h3 h2k
      _ = (2 : ℚ) ^ (53 + k) := by rw [zpow_add₀ (by norm_num)]
  have hE3 : floor_log2 n d < 53 + k := (zpow_lt_zpow_iff_right₀ (by norm_num)).mp hE2
  have he : ulp_exponent n d ≤ k := by
    unfold ulp_exponent
    omega
  have he2 : -1074 ≤ ulp_exponent n d := by
    unfold ulp_exponent
    omega
  generalize hedef : ulp_exponent n d = e at he he2
  -- the scaled value is a natural number
  have hke : ((k - e).toNat : Int) = k - e := Int.toNat_of_nonneg (by omega)
  have hpow : (2 : ℚ) ^ (k - e).toNat = (2 : ℚ) ^ (k - e) := by
    rw [← zpow_natCast, hke]
  have h2e := two_zpow_eq e
  have hpe : (0 : ℚ) < (2 : ℚ) ^ e.toNat := by positivity
  have hpne : (0 : ℚ) < (2 : ℚ) ^ (-e).toNat := by positivity
  have hscaled : n * 2 ^ (-e).toNat = M * 2 ^ (k - e).toNat * (d * 2 ^ e.toNat) := by
    have : ((n * 2 ^ (-e).toNat : Nat) : ℚ) = ((M * 2 ^ (k - e).toNat * (d * 2 ^ e.toNat) : Nat) : ℚ) := by
      push_cast
      rw [hq, hpow, zpow_sub₀ (by norm_num), h2e]
      field_simp
      ring
    exact_mod_cast this
  have hb : 0 < d * 2 ^ e.toNat := by positivity
  have hm : rounded_mantissa n d = M * 2 ^ (k - e).toNat := by
    unfold rounded_mantissa
    rw [hedef, hscaled]
    exact round_half_even_mul _ _ hb
  have hm0 : M * 2 ^ (k - e).toNat ≠ 0 := by positivity
  have hover : ¬ (971 ≤ e ∧ 2 ^ 53 ≤ M * 2 ^ (k - e).toNat * 2 ^ (e - 971).toNat) := by
    rintro ⟨h971, hbig⟩
    have hbq : ((2 ^ 53 : Nat) : ℚ) ≤ ((M * 2 ^ (k - e).toNat * 2 ^ (e - 971).toNat : Nat) : ℚ) := by
      exact_mod_cast hbig
    have he971 : ((e - 971).toNat : Int) = e - 971 := Int.toNat_of_nonneg (by omega)
    have hpow2 : (2 : ℚ) ^ (e - 971).toNat = (2 : ℚ) ^ (e - 971) := by
      rw [← zpow_natCast, he971]
    push_cast at hbq
    rw [hpow, hpow2, mul_assoc, ← zpow_add₀ (by norm_num)] at hbq
    have hsum : k - e + (e - 971) = k - 971 := by ring
    rw [hsum, zpow_sub₀ (by norm_num)] at hbq
    have h971pos : (0 : ℚ) < (2 : ℚ) ^ (971 : Int) := by positivity
    rw [← mul_div_assoc, le_div_iff₀ h971pos] at hbq
    have : (9007199254740992 : ℚ) * (2 : ℚ) ^ (971 : Int) = (2 : ℚ) ^ (1024 : Int) := by
      norm_num
    rw [this] at hbq
    linarith
  unfold round_to_double
  rw [hedef, hm]
  have hnm : ¬ (n = 0 ∨ M * 2 ^ (k - e).toNat = 0) := by
    rintro (h | h)
    · omega
    · exact hm0 h
  rw [if_neg hnm, if_neg hover]
  congr 1
  rw [Rat.mkRat_eq_div]
  push_cast
  rw [hpow, zpow_sub₀ (by norm_num), h2e]
  field_simp
  ring_nf

/-- Rounding does not go below a natural number of at most `2 ^ 53` that the value is not
below: such a number is a `double`, and the rounded value is the nearest one. -/
theorem le_round_to_double (c n d : Nat) (hc0 : 0 < c) (hc : c ≤ 2 ^ 53) (hd : 0 < d)
    (h : c * d ≤ n) : Double.finite (c : ℚ) ≤ round_to_double false n d := by
  have hn : 0 < n := lt_of_lt_of_le (Nat.mul_pos hc0 hd) h
  have hkey : c * 2 ^ (-ulp_exponent n d).toNat ≤
      rounded_mantissa n d * 2 ^ (ulp_exponent n d).toNat := by
    unfold rounded_mantissa
    rcases le_or_lt (ulp_exponent n d) 0 with he | he
    · have h0 : (ulp_exponent n d).toNat = 0 := Int.toNat_eq_zero.mpr he
      rw [h0, pow_zero, mul_one, mul_one]
      refine le_trans ?_ (round_half_even_ge _ _)
      rw [Nat.le_div_iff_mul_le hd]
      calc c * 2 ^ (-ulp_exponent n d).toNat * d = c * d * 2 ^ (-ulp_exponent n d).toNat := by
            ring
        _ ≤ n * 2 ^ (-ulp_exponent n d).toNat := Nat.mul_le_mul_right _ h
    · have h0 : (-ulp_exponent n d).toNat = 0 := Int.toNat_eq_zero.mpr (by omega)
      rw [h0, pow_zero, mul_one, mul_one]
      have hE : floor_log2 n d = ulp_exponent n d + 52 := by
        unfold ulp_exponent at he ⊢
        omega
      have hfl := floor_log2_le n d hn hd
      rw [hE] at hfl
      have hnat : ((ulp_exponent n d + 52).toNat : Int) = ulp_exponent n d + 52 :=
        Int.toNat_of_nonneg (by omega)
      have hfl2 : d * 2 ^ (ulp_exponent n d + 52).toNat ≤ n := by
        have : ((d * 2 ^ (ulp_exponent n d + 52).toNat : Nat) : ℚ) ≤ (n : ℚ) := by
          push_cast
          rw [← zpow_natCast, hnat]
          exact hfl
        exact_mod_cast this
      have hsplit : (ulp_exponent n d + 52).toNat = (ulp_exponent n d).toNat + 52 := by
        omega
      rw [hsplit, pow_add] at hfl2
      have hb : 0 < d * 2 ^ (ulp_exponent n d).toNat := by positivity
      have hm : 2 ^ 52 ≤ round_half_even n (d * 2 ^ (ulp_exponent n d).toNat) := by
        refine le_trans ?_ (round_half_even_ge _ _)
        rw [Nat.le_div_iff_mul_le hb]
        calc 2 ^ 52 * (d * 2 ^ (ulp_exponent n d).toNat)
            = d * (2 ^ (ulp_exponent n d).toNat * 2 ^ 52) := by ring
          _ ≤ n := hfl2
      have h1 : 1 ≤ (ulp_exponent n d).toNat := by omega
      have h2 : 2 ^ 1 ≤ 2 ^ (ulp_exponent n d).toNat := Nat.pow_le_pow_right (by norm_num) h1
      calc c ≤ 2 ^ 53 := hc
        _ = 2 ^ 52 * 2 ^ 1 := by norm_num
        _ ≤ round_half_even n (d * 2 ^ (ulp_exponent n d).toNat) *
            2 ^ (ulp_exponent n d).toNat := Nat.mul_le_mul hm h2
  have hm0 : rounded_mantissa n d ≠ 0 := by
    intro h0
    rw [h0, zero_mul] at hkey
    have : 0 < c * 2 ^ (-ulp_exponent n d).toNat := by positivity
    omega
  unfold round_to_double
  have hnm : ¬ (n = 0 ∨ rounded_mantissa n d = 0) := by
    rintro (h0 | h0)
    · omega
    · exact hm0 h0
  rw [if_neg hnm]
  split
  · rfl
  · rw [Double.finite_le_finite, Rat.mkRat_eq_div]
    have hpos : (0 : ℚ) < ((2 ^ (-ulp_exponent n d).toNat : Nat) : ℚ) := by positivity
    rw [le_div_iff₀ hpos]
    have : ((c * 2 ^ (-ulp_exponent n d).toNat : Nat) : ℚ) ≤
        ((rounded_mantissa n d * 2 ^ (ulp_exponent n d).toNat : Nat) : ℚ) := by
      exact_mod_cast hkey
    simpa using this

theorem round_to_double_is_nan (negative : Bool) (n d : Nat) :
    (round_to_double negative n d).is_nan = false := by
  unfold round_to_double
  split
  · split <;> rfl
  · split <;> rfl

theorem cross_sum_cast (a b : ℚ) :
    ((a.num * b.den + b.num * a.den : Int) : ℚ) = (a + b) * (a.den * b.den) := by
  have ha := Rat.mul_den_eq_num a
  have hb := Rat.mul_den_eq_num b
  push_cast
  linear_combination (-(b.den : ℚ)) * ha - (a.den : ℚ) * hb

theorem Double.finite_add_finite (a b : ℚ) :
    Double.finite a + Double.finite b =
      round_to_double (decide (a.num * b.den + b.num * a.den < 0))
        (a.num * b.den + b.num * a.den).natAbs (a.den * b.den) := rfl

/-- The sum of two finite values whose exact sum is a `double` is that sum. -/
theorem Double.finite_add_finite_exact (a b : ℚ) (M : Nat) (k : Int) (hM0 : 0 < M)
    (hM : M < 2 ^ 53) (hk : -1074 ≤ k) (hsum : |a + b| = (M : ℚ) * (2 : ℚ) ^ k)
    (hmax : (M : ℚ) * (2 : ℚ) ^ k < (2 : ℚ) ^ (1024 : Int)) :
    Double.finite a + Double.finite b = Double.finite (a + b) := by
  have hda : (0 : ℚ) < a.den := by exact_mod_cast a.den_pos
  have hdb : (0 : ℚ) < b.den := by exact_mod_cast b.den_pos
  have hval := cross_sum_cast a b
  have hd : 0 < a.den * b.den := Nat.mul_pos a.den_pos b.den_pos
  have hdq : (0 : ℚ) < ((a.den * b.den : Nat) : ℚ) := by exact_mod_cast hd
  have hq : (((a.num * b.den + b.num * a.den).natAbs : Nat) : ℚ) =
      (M : ℚ) * (2 : ℚ) ^ k * ((a.den * b.den : Nat) : ℚ) := by
    rw [Nat.cast_natAbs, Int.cast_abs, hval, abs_mul, hsum]
    push_cast
    rw [abs_of_pos (by positivity)]
  have hneg : decide (a.num * b.den + b.num * a.den < 0) = decide (a + b < 0) := by
    have : (a.num * b.den + b.num * a.den < 0) ↔ a + b < 0 := by
      constructor
      · intro h
        have h1 : ((a.num * b.den + b.num * a.den : Int) : ℚ) < 0 := by exact_mod_cast h
        rw [hval] at h1
        push_cast at hdq
        by_contra hge
        have : 0 ≤ (a + b) * ((a.den : ℚ) * b.den) := mul_nonneg (not_lt.mp hge) (by positivity)
        linarith
      · intro h
        have h1 : ((a.num * b.den + b.num * a.den : Int) : ℚ) < 0 := by
          rw [hval]
          exact mul_neg_of_neg_of_pos h (by positivity)
        exact_mod_cast h1
    simp [this]
  rw [Double.finite_add_finite, round_to_double_exact _ _ _ M k hd hM0 hM hk hq hmax, hneg,
    ← hsum]
  congr 1
  by_cases hlt : a + b < 0
  · simp [hlt, abs_of_neg hlt]
  · simp [hlt, abs_of_nonneg (not_lt.mp hlt)]

/-- The sum of two finite values whose exact sum is a value of `double` is that sum: nothing
is lost to rounding. -/
theorem Double.add_eq_of_representable (a b : ℚ) (h : Double.representable (a + b)) :
    Double.finite a + Double.finite b = Double.finite (a + b) := by
  obtain ⟨M, k, hM, hk, hsum, hmax⟩ := h
  by_cases hM0 : M = 0
  · subst hM0
    have h0 : a + b = 0 := by
      rw [Nat.cast_zero, zero_mul] at hsum
      exact abs_eq_zero.mp hsum
    have hnum : a.num * b.den + b.num * a.den = 0 := by
      have hval := cross_sum_cast a b
      rw [h0, zero_mul] at hval
      exact_mod_cast hval
    rw [Double.finite_add_finite, hnum, h0]
    rfl
  · rw [hsum] at hmax
    exact Double.finite_add_finite_exact a b M k (Nat.pos_of_ne_zero hM0) hM hk hsum hmax

/-- Whole numbers below `2 ^ 53` in absolute value are values of `double`. -/
theorem Double.representable_intCast (z : Int) (h : |z| < 2 ^ 53) :
    Double.representable (z : ℚ) := by
  refine ⟨z.natAbs, 0, ?_, by decide, ?_, ?_⟩
  · have : (z.natAbs : Int) < 2 ^ 53 := by rw [Int.natCast_natAbs]; exact h
    exact_mod_cast this
  · rw [zpow_zero, mul_one, Nat.cast_natAbs, Int.cast_abs]
  · have h1 : ((|z| : Int) : ℚ) < ((2 ^ 53 : Int) : ℚ) := by exact_mod_cast h
    rw [Int.cast_abs] at h1
    refine lt_trans h1 ?_
    norm_num

/-- The sum of two finite values that is at least a natural number `c ≤ 2 ^ 53` exactly is at
least `c` after rounding. -/
theorem Double.le_finite_add_finite (c : Nat) (a b : ℚ) (hc0 : 0 < c) (hc : c ≤ 2 ^ 53)
    (h : (c : ℚ) ≤ a + b) : Double.finite (c : ℚ) ≤ Double.finite a + Double.finite b := by
  have hda : (0 : ℚ) < a.den := by exact_mod_cast a.den_pos
  have hdb : (0 : ℚ) < b.den := by exact_mod_cast b.den_pos
  have hval := cross_sum_cast a b
  have hd : 0 < a.den * b.den := Nat.mul_pos a.den_pos b.den_pos
  have hge : ((c * (a.den * b.den) : Nat) : Int) ≤ a.num * b.den + b.num * a.den := by
    have : (((c * (a.den * b.den) : Nat) : Int) : ℚ) ≤
        ((a.num * b.den + b.num * a.den : Int) : ℚ) := by
      rw [hval]
      push_cast
      exact mul_le_mul_of_nonneg_right h (by positivity)
    exact_mod_cast this
  have hnn : ¬ (a.num * b.den + b.num * a.den < 0) := by
    have : (0 : Int) ≤ ((c * (a.den * b.den) : Nat) : Int) := Int.natCast_nonneg _
    omega
  have hnat : c * (a.den * b.den) ≤ (a.num * b.den + b.num * a.den).natAbs := by
    omega
  rw [Double.finite_add_finite]
  simp only [hnn, decide_False]
  exact le_round_to_double c _ _ hc0 hc hd hnat

/-! ## Basic facts about slots and the lookup -/

theorem slot_set_slot_same (t : Table) (i : Nat) (a : Account) (h : i < t.accounts.length) :
    (t.set_slot i a).slot i = a := by
  simp [Table.slot, Table.set_slot, List.getD_eq_getElem?_getD, List.getElem?_set, h]

theorem slot_set_slot_ne (t : Table) (i j : Nat) (a : Account) (h : i ≠ j) :
    (t.set_slot i a).slot j = t.slot j := by
  simp [Table.slot, Table.set_slot, List.getD_eq_getElem?_getD, List.getElem?_set, h]

theorem getElem?_set_slot_same (t : Table) (i : Nat) (a : Account) (h : i < t.accounts.length) :
    (t.set_slot i a).accounts[i]? = some a := by
  simp [Table.set_slot, List.getElem?_set, h]

theorem account_count_set_slot (t : Table) (i : Nat) (a : Account) :
    (t.set_slot i a).account_count = t.account_count := rfl

theorem length_set_slot (t : Table) (i : Nat) (a : Account) :
    (t.set_slot i a).accounts.length = t.accounts.length := by
  simp [Table.set_slot]

theorem slot_of_getElem? (t : Table) (i : Nat) (a : Account) (h : t.accounts[i]? = some a) :
    t.slot i = a := by
  simp [Table.slot, List.getD_eq_getElem?_getD, h]

theorem find_account_index_loop_spec (num : CString) (pin : Int) :
    ∀ (l : List Account) (i k : Nat), find_account_index_loop num pin l i = some k →
      i ≤ k ∧ (∃ a, l[k - i]? = some a ∧ account_matches a num pin = true) ∧
        ∀ j b, j < k - i → l[j]? = some b → account_matches b num pin = false := by
  intro l
  induction l with
  | nil => intro i k h; simp [find_account_index_loop] at h
  | cons a rest ih =>
    intro i k h
    unfold find_account_index_loop at h
    by_cases hm : account_matches a num pin = true
    · simp only [hm, if_true, Option.some.injEq] at h
      subst h
      refine ⟨le_refl _, ⟨a, by simp, hm⟩, ?_⟩
      intro j b hj
      simp at hj
    · simp only [hm] at h
      obtain ⟨h1, ⟨b, hb, hbm⟩, h3⟩ := ih (i + 1) k h
      have hk : k - i = (k - (i + 1)) + 1 := by omega
      refine ⟨by omega, ⟨b, ?_, hbm⟩, ?_⟩
      · rw [hk]; simpa using hb
      · intro j c hj hc
        cases j with
        | zero =>
          simp at hc
          subst hc
          simpa using hm
        | succ j =>
          simp at hc
          exact h3 j c (by omega) hc

/-- What a successful lookup says about the slot it returns. -/
theorem find_account_index_some {t : Table} {num : CString} {pin : Int} {i : Nat}
    (h : find_account_index t num pin = some i) :
    i < t.account_count ∧ i < t.accounts.length ∧ account_matches (t.slot i) num pin = true := by
  obtain ⟨_, ⟨a, ha, hm⟩, _⟩ := find_account_index_loop_spec num pin _ 0 i h
  simp only [Nat.sub_zero, List.getElem?_take] at ha
  by_cases hlt : i < t.account_count
  · simp only [hlt, if_true] at ha
    have hlen : i < t.accounts.length := by
      by_contra hge
      rw [List.getElem?_eq_none (by omega)] at ha
      cases ha
    exact ⟨hlt, hlen, by rw [slot_of_getElem? t i a ha]; exact hm⟩
  · simp [hlt] at ha

theorem find_free_slot_loop_spec :
    ∀ (l : List Account) (i k : Nat), find_free_slot_loop l i = some k →
      i ≤ k ∧ (∃ a, l[k - i]? = some a ∧ a.is_active = 0) ∧
        ∀ j b, j < k - i → l[j]? = some b → b.is_active ≠ 0 := by
  intro l
  induction l with
  | nil => intro i k h; simp [find_free_slot_loop] at h
  | cons a rest ih =>
    intro i k h
    unfold find_free_slot_loop at h
    by_cases hm : a.is_active = 0
    · simp only [hm, if_true, Option.some.injEq] at h
      subst h
      refine ⟨le_refl _, ⟨a, by simp, hm⟩, ?_⟩
      intro j b hj
      simp at hj
    · simp only [hm, if_false] at h
      obtain ⟨h1, ⟨b, hb, hbm⟩, h3⟩ := ih (i + 1) k h
      have hk : k - i = (k - (i + 1)) + 1 := by omega
      refine ⟨by omega, ⟨b, ?_, hbm⟩, ?_⟩
      · rw [hk]; simpa using hb
      · intro j c hj hc
        cases j with
        | zero =>
          simp at hc
          subst hc
          exact hm
        | succ j =>
          simp at hc
          exact h3 j c (by omega) hc

theorem find_free_slot_loop_none :
    ∀ (l : List Account) (i : Nat), (∀ a ∈ l, a.is_active ≠ 0) → find_free_slot_loop l i = none := by
  intro l
  induction l with
  | nil => intro i _; rfl
  | cons a rest ih =>
    intro i h
    unfold find_free_slot_loop
    have ha : a.is_active ≠ 0 := h a (by simp)
    simp only [ha, if_false]
    exact ih (i + 1) (fun b hb => h b (by simp [hb]))

theorem find_free_slot_loop_isSome :
    ∀ (l : List Account) (i : Nat), (∃ a ∈ l, a.is_active = 0) →
      ∃ k, find_free_slot_loop l i = some k := by
  intro l
  induction l with
  | nil => intro i h; simp at h
  | cons a rest ih =>
    intro i h
    unfold find_free_slot_loop
    by_cases ha : a.is_active = 0
    · exact ⟨i, by simp [ha]⟩
    · simp only [ha, if_false]
      apply ih
      obtain ⟨b, hb, hb0⟩ := h
      rcases List.mem_cons.mp hb with rfl | hb
      · exact absurd hb0 ha
      · exact ⟨b, hb, hb0⟩

/-- What the slot search of `open_account` returns: the lowest-index inactive slot. -/
theorem find_free_slot_some {t : Table} {k : Nat} (h : find_free_slot t = some k) :
    k < MAX_ACCOUNTS ∧ k < t.accounts.length ∧ (t.slot k).is_active = 0 ∧
      ∀ j, j < k → (t.slot j).is_active ≠ 0 := by
  obtain ⟨_, ⟨a, ha, ha0⟩, hlow⟩ := find_free_slot_loop_spec _ 0 k h
  simp only [Nat.sub_zero, List.getElem?_take] at ha hlow
  by_cases hlt : k < MAX_ACCOUNTS
  · simp only [hlt, if_true] at ha
    have hlen : k < t.accounts.length := by
      by_contra hge
      rw [List.getElem?_eq_none (by omega)] at ha
      cases ha
    refine ⟨hlt, hlen, by rw [slot_of_getElem? t k a ha]; exact ha0, ?_⟩
    intro j hj
    have hj2 : j < t.accounts.length := by omega
    have hget : t.accounts[j]? = some (t.accounts[j]) := List.getElem?_eq_getElem hj2
    have := hlow j (t.accounts[j]) hj (by simp [show j < MAX_ACCOUNTS by omega, hget])
    rwa [slot_of_getElem? t j _ hget]
  · simp [hlt] at ha

theorem find_free_slot_none_of_all_active (t : Table)
    (h : ∀ j, j < MAX_ACCOUNTS → (t.slot j).is_active ≠ 0) : find_free_slot t = none := by
  apply find_free_slot_loop_none
  intro a ha
  obtain ⟨j, hj, rfl⟩ := List.getElem_of_mem ha
  simp only [List.length_take, lt_min_iff] at hj
  have hget : t.accounts[j]? = some (t.accounts[j]) := List.getElem?_eq_getElem hj.2
  have := h j hj.1
  rw [slot_of_getElem? t j _ hget] at this
  simpa using this

/-- When the uniqueness test of the generator reports a collision. -/
theorem number_in_use_iff (t : Table) (c : CString) :
    number_in_use t c = true ↔
      ∃ j a, j < t.account_count ∧ t.accounts[j]? = some a ∧ a.is_active ≠ 0 ∧
        a.account_number = some c := by
  unfold number_in_use
  rw [List.any_eq_true]
  constructor
  · rintro ⟨a, ha, hp⟩
    obtain ⟨j, hj, rfl⟩ := List.getElem_of_mem ha
    simp only [List.length_take, lt_min_iff] at hj
    refine ⟨j, t.accounts[j], hj.1, List.getElem?_eq_getElem hj.2, ?_⟩
    simp only [List.getElem_take, Bool.and_eq_true, decide_eq_true_eq] at hp
    refine ⟨hp.1, ?_⟩
    cases hnum : (t.accounts[j]).account_number with
    | none => simp [hnum] at hp
    | some s =>
      simp only [hnum, decide_eq_true_eq] at hp
      rw [hp.2]
  · rintro ⟨j, a, hj, hget, hact, hnum⟩
    refine ⟨a, ?_, by simp [hact, hnum]⟩
    apply List.mem_iff_getElem?.mpr
    exact ⟨j, by simp [List.getElem?_take, hj, hget]⟩

/-- Rewriting an inactive slot into an inactive slot does not change what the uniqueness test
sees. -/
theorem number_in_use_set_slot_inactive (t : Table) (i : Nat) (a : Account) (c : CString)
    (h0 : (t.slot i).is_active = 0) (ha : a.is_active = 0) :
    number_in_use (t.set_slot i a) c = number_in_use t c := by
  rw [Bool.eq_iff_iff, number_in_use_iff, number_in_use_iff]
  simp only [Table.set_slot, List.getElem?_set]
  constructor
  · rintro ⟨j, b, hj, hget, hact, hnum⟩
    by_cases hij : i = j
    · subst hij
      by_cases hlen : i < t.accounts.length
      · simp only [if_true, hlen, Option.some.injEq] at hget
        subst hget
        exact absurd ha hact
      · simp [hlen] at hget
    · simp only [hij, if_false] at hget
      exact ⟨j, b, hj, hget, hact, hnum⟩
  · rintro ⟨j, b, hj, hget, hact, hnum⟩
    by_cases hij : i = j
    · subst hij
      rw [slot_of_getElem? t i b hget] at h0
      exact absurd h0 hact
    · exact ⟨j, b, hj, by simp [hij, hget], hact, hnum⟩

theorem generate_account_number_loop_congr (t u : Table) (env : Env)
    (h : ∀ c, number_in_use t c = number_in_use u c) :
    ∀ remaining attempts, generate_account_number_loop t env remaining attempts =
      generate_account_number_loop u env remaining attempts := by
  intro remaining
  induction remaining with
  | zero => intro attempts; rfl
  | succ n ih =>
    intro attempts
    simp only [generate_account_number_loop, h, ih]

/-- A number returned by the generator is carried by no active slot below `account_count`. -/
theorem generate_account_number_loop_fresh (t : Table) (env : Env) (c : CString) :
    ∀ remaining attempts, generate_account_number_loop t env remaining attempts = some c →
      number_in_use t c = false := by
  intro remaining
  induction remaining with
  | zero => intro attempts h; simp [generate_account_number_loop] at h
  | succ n ih =>
    intro attempts h
    simp only [generate_account_number_loop] at h
    split at h
    · exact ih _ h
    · rename_i hnot
      simp only [Option.some.injEq] at h
      subst h
      simpa using hnot

theorem generate_account_number_fresh (t : Table) (env : Env) (c : CString)
    (h : generate_account_number t env = some c) : number_in_use t c = false :=
  generate_account_number_loop_fresh t env c 100 0 h

/-- The three `strncpy` calls of `open_account` write into a slot that is inactive, so the
generator then sees the same active numbers as before them. -/
theorem generate_account_number_set_slot_inactive (t : Table) (env : Env) (i : Nat) (a : Account)
    (h0 : (t.slot i).is_active = 0) (ha : a.is_active = 0) :
    generate_account_number (t.set_slot i a) env = generate_account_number t env :=
  generate_account_number_loop_congr _ _ env
    (fun c => number_in_use_set_slot_inactive t i a c h0 ha) 100 0

/-- The result of `open_account` once the deposit test has passed, the slot search has
returned `idx` and the generator has returned `num`. -/
theorem open_account_eq_of_success (t : Table) (env : Env) (name national_id account_type : CString)
    (initial_deposit : Double) (pin : Int) (idx : Nat) (num : CString)
    (hd : ¬ initial_deposit < 1000) (hslot : find_free_slot t = some idx)
    (hgen : generate_account_number t env = some num) :
    open_account t env name national_id account_type initial_deposit pin =
      ({ name := strncpy_field MAX_NAME_LEN name
         national_id := strncpy_field MAX_ID_LEN national_id
         account_type := strncpy_field MAX_ACCOUNT_TYPE_LEN account_type
         account_number := some num
         balance := initial_deposit
         pin := pin
         statement :=
           { transactions := (t.slot idx).statement.transactions.set 0 initial_deposit
             transaction_count := 1 }
         is_active := 1 },
       { accounts := t.accounts.set idx
           { name := strncpy_field MAX_NAME_LEN name
             national_id := strncpy_field MAX_ID_LEN national_id
             account_type := strncpy_field MAX_ACCOUNT_TYPE_LEN account_type
             account_number := some num
             balance := initial_deposit
             pin := pin
             statement :=
               { transactions := (t.slot idx).statement.transactions.set 0 initial_deposit
                 transaction_count := 1 }
             is_active := 1 }
         account_count := max t.account_count (idx + 1) }) := by
  obtain ⟨_, hlen, h0, _⟩ := find_free_slot_some hslot
  have hgen' := generate_account_number_set_slot_inactive t env idx
    { t.slot idx with
      name := strncpy_field MAX_NAME_LEN name
      national_id := strncpy_field MAX_ID_LEN national_id
      account_type := strncpy_field MAX_ACCOUNT_TYPE_LEN account_type } h0 h0
  rw [hgen] at hgen'
  simp only [open_account, hd, if_false, hslot, hgen', slot_set_slot_same t idx _ hlen]
  have hmax : (if idx ≥ t.account_count then idx + 1 else t.account_count) =
      max t.account_count (idx + 1) := by
    split <;> omega
  simp [Table.set_slot, MAX_TRANSACTIONS, hmax]

/-! ## The conversion to `int` -/

theorem double_to_int_intCast (k : Int) :
    double_to_int (Double.finite (k : ℚ)) =
      if INT_MIN ≤ k ∧ k ≤ INT_MAX then k else INT_MIN := by
  simp [double_to_int, Rat.num_intCast, Rat.den_intCast, Int.tdiv_one]

theorem double_to_int_of_bounds (x : ℚ) (z : Int) (hz : 0 ≤ z) (h1 : (z : ℚ) ≤ x)
    (h2 : x < z + 1) (h3 : z ≤ INT_MAX) : double_to_int (Double.finite x) = z := by
  have hx : 0 ≤ x := le_trans (by exact_mod_cast hz) h1
  have hnum : 0 ≤ x.num := Rat.num_nonneg.mpr hx
  have hfl : ⌊x⌋ = z := Int.floor_eq_iff.mpr ⟨h1, h2⟩
  have htd : Int.tdiv x.num x.den = z := by
    rw [Int.tdiv_eq_ediv hnum (by positivity), ← hfl, Rat.floor_def]
  have hmin : INT_MIN ≤ z := le_trans (by decide) hz
  simp [double_to_int, htd, hmin, h3]

theorem find_sample (b : Double) : find_account_index (sample_table b) sample_number 1111 = some 0 := by
  rfl

theorem slot_sample (b : Double) : (sample_table b).slot 0 = sample_account b := rfl

/-! ## `withdraw` -/

/-- C1 (the code departs from it): `withdraw` returns 0 for the amount 500.5, which is not a
multiple of 500: on a table whose slot 0 holds 2000, withdrawing 1001/2 succeeds and leaves
2999/2, because the test `(int)amount % 500` only sees the truncated value 500. -/
theorem withdraw_accepts_fractional_amount :
    withdraw (sample_table 2000) sample_number 1111 (Double.finite (1001 / 2)) =
      (0, (sample_table 2000).set_slot 0
        { sample_account 2000 with
          balance := Double.finite (2999 / 2)
          statement :=
            { transactions := [2000, Double.finite (-(1001 / 2)), 0, 0, 0],
              transaction_count := 2 } }) ∧
      ¬ ∃ k : Int, ((1001 : ℚ) / 2) = 500 * k := by
  constructor
  · have h1 : ((1001 : ℚ) / 2) = mkRat 1001 2 := by norm_num [Rat.mkRat_eq_div]
    have h2 : ((2999 : ℚ) / 2) = mkRat 2999 2 := by norm_num [Rat.mkRat_eq_div]
    rw [h1, h2]
    decide
  · rintro ⟨k, hk⟩
    have h2 : ((1001 : Int) : ℚ) = ((1000 * k : Int) : ℚ) := by push_cast; linarith
    have h3 : (1001 : Int) = 1000 * k := by exact_mod_cast h2
    omega

/-- The same test lets an amount below one unit through: withdrawing 1/2 succeeds, since
`(int)0.5` is 0 and `0 % 500` is 0. -/
theorem withdraw_accepts_half_unit :
    (withdraw (sample_table 2000) sample_number 1111 (Double.finite (1 / 2))).1 = 0 := by
  have h1 : ((1 : ℚ) / 2) = mkRat 1 2 := by norm_num [Rat.mkRat_eq_div]
  rw [h1]
  decide

/-- The behaviour of `withdraw` on a matched account for a whole amount `500 * k` that fits in
an `int`: code 3 and no change when less than 1000 would remain, otherwise code 0, the balance
reduced by the amount and `-amount` recorded in the log. -/
theorem withdraw_multiple_in_range (t : Table) (num : CString) (pin : Int) (i : Nat) (k : Int)
    (hfind : find_account_index t num pin = some i) (hk : 0 < k) (hmax : 500 * k ≤ INT_MAX) :
    withdraw t num pin (Double.finite ((500 * k : Int) : ℚ)) =
      if (t.slot i).balance - Double.finite ((500 * k : Int) : ℚ) < 1000 then (3, t)
      else
        (0, t.set_slot i
          { t.slot i with
            balance := (t.slot i).balance - Double.finite ((500 * k : Int) : ℚ)
            statement := record_transaction (t.slot i).statement
              (-Double.finite ((500 * k : Int) : ℚ)) }) := by
  have hmin : INT_MIN ≤ 500 * k := le_trans (by decide) (by omega : (0 : Int) ≤ 500 * k)
  have hc : double_to_int (Double.finite ((500 * k : Int) : ℚ)) = 500 * k := by
    rw [double_to_int_intCast]; simp [hmin, hmax]
  have hrem : Int.tmod (500 * k) 500 = 0 := Int.tmod_eq_zero_of_dvd (Dvd.intro k rfl)
  have hpos : ¬ (Double.finite ((500 * k : Int) : ℚ) ≤ 0) := by
    have : (0 : ℚ) < ((500 * k : Int) : ℚ) := by exact_mod_cast (by omega : (0 : Int) < 500 * k)
    rw [Double.ofNat_eq, Double.finite_le_finite]
    push_cast at this ⊢
    linarith
  simp only [withdraw, hfind, hc, hrem, hpos, ne_eq, not_true_eq_false, or_self, if_false]

/-- C2 (the code departs from it): 2500000000 is a positive whole multiple of 500 and the
account holds 3000001000, so 500001000 would remain, yet `withdraw` returns 4 and changes
nothing: the amount does not fit in the `int` that the multiple-of-500 test converts it to. -/
theorem withdraw_rejects_large_multiple :
    withdraw (sample_table 3000001000) sample_number 1111 2500000000 =
        (4, sample_table 3000001000) ∧
      (2500000000 : Double) = Double.finite ((500 * 5000000 : Int) : ℚ) ∧
      ((sample_table 3000001000).slot 0).balance - 2500000000 = 500001000 ∧
      ((sample_table 3000001000).slot 0).balance - 2500000000 ≥ 1000 := by
  refine ⟨?_, by decide, by decide, by decide⟩
  have hc : double_to_int 2500000000 = INT_MIN := by decide
  have hrem : Int.tmod INT_MIN 500 ≠ 0 := by decide
  simp only [withdraw, find_sample, hc, hrem, ne_eq, not_false_eq_true, true_or, if_true]

/-- C3: on a matched account, `withdraw` with a whole amount that is not a multiple of 500 or is
not positive returns 4 and leaves the table unchanged, whatever the balance. -/
theorem withdraw_non_multiple_returns_4 (t : Table) (num : CString) (pin : Int) (i : Nat)
    (k : Int) (hfind : find_account_index t num pin = some i) (hk : ¬ (500 ∣ k) ∨ k ≤ 0) :
    withdraw t num pin (Double.finite (k : ℚ)) = (4, t) := by
  have hcond : Int.tmod (double_to_int (Double.finite (k : ℚ))) 500 ≠ 0 ∨
      Double.finite (k : ℚ) ≤ 0 := by
    rcases hk with hk | hk
    · left
      rw [double_to_int_intCast]
      split
      · intro h0
        exact hk (Int.dvd_of_tmod_eq_zero h0)
      · decide
    · right
      rw [Double.ofNat_eq, Double.finite_le_finite]
      exact_mod_cast hk
  simp only [withdraw, hfind, hcond, if_true]

/-- Witness for C3: withdrawing 300 from the sample account. -/
theorem withdraw_non_multiple_returns_4_witness :
    find_account_index (sample_table 1500) sample_number 1111 = some 0 ∧
      withdraw (sample_table 1500) sample_number 1111 (Double.finite ((300 : Int) : ℚ)) =
        (4, sample_table 1500) :=
  ⟨find_sample 1500,
    withdraw_non_multiple_returns_4 (sample_table 1500) sample_number 1111 0 300
      (find_sample 1500) (Or.inl (by decide))⟩

/-! ## `deposit` -/

/-- C4 as stated does not hold: the sum `balance += amount` is a `double` sum, which is
rounded.  On an account that holds 1e17 a deposit of 500 is accepted and the balance becomes
1e17 + 496, not 1e17 + 500; over the protocol, an account opened with 1e17 answers a deposit
of 500 and a balance request with `100000000000000496.00`. -/
theorem deposit_rounds_large_balance :
    find_account_index (sample_table 100000000000000000) sample_number 1111 = some 0 ∧
      ((sample_table 100000000000000000).slot 0).balance = Double.finite 100000000000000000 ∧
      (500 : Double) ≥ 500 ∧
      (deposit (sample_table 100000000000000000) sample_number 1111 500).1 = 0 ∧
      ((deposit (sample_table 100000000000000000) sample_number 1111 500).2.slot 0).balance =
        Double.finite 100000000000000496 ∧
      (100000000000000000 : ℚ) + 500 ≠ 100000000000000496 ∧
      (handle_client Table.empty
        [(sample_env, "OPEN,Bob,12345678,savings,1e17,2222;".toList),
         (sample_env, "DEPOSIT,1700000042,2222,500;".toList),
         (sample_env, "BALANCE,1700000042,2222;".toList)]).1 =
        ["OK,Account Number:1700000042,PIN:2222;\n".toList,
         "OK,Deposit successful.;\n".toList,
         "OK,Balance:100000000000000496.00;\n".toList] := by
  refine ⟨by decide, by decide, by decide, by decide, by decide, by norm_num, by decide⟩

/-- C4, amended: on a matched account with balance `b`, `deposit` with an amount below 500
returns 3 and leaves the table unchanged; with an amount of at least 500 it returns 0 and the
balance of the matched slot becomes the `double` sum `b + amount`, the exact sum rounded to the
nearest `double`; that is exactly `b + amount` whenever the exact sum is a value of `double`,
as it is for whole numbers below `2 ^ 53`. -/
theorem deposit_matched_rounded (t : Table) (num : CString) (pin : Int) (i : Nat)
    (amount : Double) (hfind : find_account_index t num pin = some i) :
    (amount < 500 → deposit t num pin amount = (3, t)) ∧
      (500 ≤ amount →
        (deposit t num pin amount).1 = 0 ∧
          ((deposit t num pin amount).2.slot i).balance = (t.slot i).balance + amount ∧
          (∀ b a : ℚ, (t.slot i).balance = Double.finite b → amount = Double.finite a →
            Double.representable (b + a) →
            ((deposit t num pin amount).2.slot i).balance = Double.finite (b + a)) ∧
          (∀ b a : Int, (t.slot i).balance = Double.finite b → amount = Double.finite a →
            |b + a| < 2 ^ 53 →
            ((deposit t num pin amount).2.slot i).balance = Double.finite ((b + a : Int) : ℚ))) := by
  have hlen := (find_account_index_some hfind).2.1
  constructor
  · intro h
    simp only [deposit, hfind, h, if_true]
  · intro h
    have h' : ¬ amount < 500 := Double.not_lt_of_le h
    have hbal : ((deposit t num pin amount).2.slot i).balance = (t.slot i).balance + amount := by
      simp only [deposit, hfind, h', if_false, slot_set_slot_same t i _ hlen]
    refine ⟨?_, hbal, ?_, ?_⟩
    · simp only [deposit, hfind, h', if_false]
    · intro b a hb ha hrep
      rw [hbal, hb, ha]
      exact Double.add_eq_of_representable b a hrep
    · intro b a hb ha hrep
      rw [hbal, hb, ha, Double.add_eq_of_representable (b : ℚ) (a : ℚ)]
      · push_cast
        rfl
      · have := Double.representable_intCast (b + a) hrep
        push_cast at this
        exact this

/-- Witness for the amended C4: on the sample account, which holds 1500, a deposit of 499 is
refused with code 3 and a deposit of 500 is accepted and gives exactly 2000. -/
theorem deposit_matched_rounded_witness :
    find_account_index (sample_table 1500) sample_number 1111 = some 0 ∧
      deposit (sample_table 1500) sample_number 1111 499 = (3, sample_table 1500) ∧
      (deposit (sample_table 1500) sample_number 1111 500).1 = 0 ∧
      ((deposit (sample_table 1500) sample_number 1111 500).2.slot 0).balance =
        ((sample_table 1500).slot 0).balance + 500 ∧
      ((deposit (sample_table 1500) sample_number 1111 500).2.slot 0).balance =
        Double.finite (((1500 + 500 : Int) : Int) : ℚ) ∧
      ((deposit (sample_table 1500) sample_number 1111 500).2.slot 0).balance = 2000 :=
  ⟨find_sample 1500,
    (deposit_matched_rounded (sample_table 1500) sample_number 1111 0 499 (find_sample 1500)).1
      (by decide),
    ((deposit_matched_rounded (sample_table 1500) sample_number 1111 0 500
      (find_sample 1500)).2 (by decide)).1,
    ((deposit_matched_rounded (sample_table 1500) sample_number 1111 0 500
      (find_sample 1500)).2 (by decide)).2.1,
    ((deposit_matched_rounded (sample_table 1500) sample_number 1111 0 500
      (find_sample 1500)).2 (by decide)).2.2.2 1500 500 rfl rfl (by decide),
    by decide⟩

/-! ## `open_account` -/

/-- C5: `open_account` with an initial deposit below 1000 returns an account with
`is_active = 0` and leaves the whole table unchanged. -/
theorem open_account_below_minimum (t : Table) (env : Env) (name national_id account_type : CString)
    (initial_deposit : Double) (pin : Int) (h : initial_deposit < 1000) :
    (open_account t env name national_id account_type initial_deposit pin).1.is_active = 0 ∧
      (open_account t env name national_id account_type initial_deposit pin).2 = t := by
  simp only [open_account, h, if_true]
  exact ⟨rfl, trivial⟩

/-- Witness for C5: an initial deposit of 999 on the sample table. -/
theorem open_account_below_minimum_witness :
    (open_account (sample_table 1500) sample_env "Bob".toList "87654321".toList
        "checking".toList 999 2222).1.is_active = 0 ∧
      (open_account (sample_table 1500) sample_env "Bob".toList "87654321".toList
        "checking".toList 999 2222).2 = sample_table 1500 :=
  open_account_below_minimum (sample_table 1500) sample_env "Bob".toList "87654321".toList
    "checking".toList 999 2222 (by decide)

theorem sample_table_wf (b : Double) : (sample_table b).WF := by
  refine ⟨rfl, Nat.le_of_ble_eq_true rfl, ?_, ?_⟩
  · intro a ha
    simp only [sample_table, List.mem_cons, List.mem_replicate] at ha
    rcases ha with rfl | ⟨_, rfl⟩ <;> rfl
  · intro a ha
    simp only [sample_table, List.mem_cons, List.mem_replicate] at ha
    rcases ha with rfl | ⟨_, rfl⟩ <;> exact Nat.le_of_ble_eq_true rfl

theorem full_table_all_active : ∀ j, j < MAX_ACCOUNTS → (full_table.slot j).is_active ≠ 0 := by
  intro j hj
  have hj' : j < 100 := hj
  simp [full_table, Table.slot, List.getD_eq_getElem?_getD, List.getElem?_map,
    List.getElem?_range hj', sample_account]

/-- C6: on a table with an inactive slot among the 100, with an initial deposit of at least 1000
and a generator run that yields `num`, `open_account` activates the lowest-index inactive slot
`idx`: the returned account is active and equal to that slot, it carries the deposit as balance,
the supplied PIN, the number `num` and a log holding exactly the deposit, and `account_count`
becomes the maximum of its old value and `idx + 1`. -/
theorem open_account_success (t : Table) (env : Env) (name national_id account_type : CString)
    (initial_deposit : Double) (pin : Int) (num : CString) (hwf : t.WF)
    (hfree : ∃ j, j < MAX_ACCOUNTS ∧ (t.slot j).is_active = 0) (hd : 1000 ≤ initial_deposit)
    (hgen : generate_account_number t env = some num) :
    ∃ idx, idx < MAX_ACCOUNTS ∧ (t.slot idx).is_active = 0 ∧
      (∀ j, j < idx → (t.slot j).is_active ≠ 0) ∧
      (open_account t env name national_id account_type initial_deposit pin).1.is_active = 1 ∧
      (open_account t env name national_id account_type initial_deposit pin).2.slot idx =
        (open_account t env name national_id account_type initial_deposit pin).1 ∧
      (open_account t env name national_id account_type initial_deposit pin).1.balance =
        initial_deposit ∧
      (open_account t env name national_id account_type initial_deposit pin).1.pin = pin ∧
      (open_account t env name national_id account_type initial_deposit pin).1.account_number =
        some num ∧
      (open_account t env name national_id account_type initial_deposit pin).1.statement.log =
        [initial_deposit] ∧
      (open_account t env name national_id account_type initial_deposit pin).2.account_count =
        max t.account_count (idx + 1) := by
  obtain ⟨j, hj, hj0⟩ := hfree
  have hjlen : j < t.accounts.length := by rw [hwf.length_accounts]; exact hj
  have hget : t.accounts[j]? = some (t.accounts[j]) := List.getElem?_eq_getElem hjlen
  have hmem : t.accounts[j] ∈ t.accounts.take MAX_ACCOUNTS := by
    apply List.mem_iff_getElem?.mpr
    exact ⟨j, by simp [List.getElem?_take, hj, hget]⟩
  obtain ⟨idx, hidx⟩ := find_free_slot_loop_isSome (t.accounts.take MAX_ACCOUNTS) 0
    ⟨t.accounts[j], hmem, by rw [← slot_of_getElem? t j _ hget]; exact hj0⟩
  obtain ⟨h1, hlen, h0, hlow⟩ := find_free_slot_some hidx
  have hgetidx : t.accounts[idx]? = some (t.accounts[idx]) := List.getElem?_eq_getElem hlen
  have htx : (t.slot idx).statement.transactions.length = MAX_TRANSACTIONS := by
    rw [slot_of_getElem? t idx _ hgetidx]
    exact hwf.length_transactions _ (List.getElem_mem hlen)
  refine ⟨idx, h1, h0, hlow, ?_⟩
  rw [open_account_eq_of_success t env name national_id account_type initial_deposit pin idx num
    (Double.not_lt_of_le hd) hidx hgen]
  refine ⟨rfl, ?_, rfl, rfl, rfl, ?_, rfl⟩
  · simp [Table.slot, List.getD_eq_getElem?_getD, List.getElem?_set, hlen]
  · cases htr : (t.slot idx).statement.transactions with
    | nil => rw [htr] at htx; simp [MAX_TRANSACTIONS] at htx
    | cons x xs => simp [Statement.log]

/-- Witness for C6: opening on the sample table, where the first candidate collides with the
number in slot 0 and the second one is returned; slot 1 is the lowest inactive slot. -/
theorem open_account_success_witness :
    ∃ idx, idx < MAX_ACCOUNTS ∧ ((sample_table 1500).slot idx).is_active = 0 ∧
      (∀ j, j < idx → ((sample_table 1500).slot j).is_active ≠ 0) ∧
      (open_account (sample_table 1500) sample_env "Bob".toList "87654321".toList
        "checking".toList 1000 2222).1.is_active = 1 ∧
      (open_account (sample_table 1500) sample_env "Bob".toList "87654321".toList
        "checking".toList 1000 2222).2.slot idx =
        (open_account (sample_table 1500) sample_env "Bob".toList "87654321".toList
          "checking".toList 1000 2222).1 ∧
      (open_account (sample_table 1500) sample_env "Bob".toList "87654321".toList
        "checking".toList 1000 2222).1.balance = 1000 ∧
      (open_account (sample_table 1500) sample_env "Bob".toList "87654321".toList
        "checking".toList 1000 2222).1.pin = 2222 ∧
      (open_account (sample_table 1500) sample_env "Bob".toList "87654321".toList
        "checking".toList 1000 2222).1.account_number = some "1700000043".toList ∧
      (open_account (sample_table 1500) sample_env "Bob".toList "87654321".toList
        "checking".toList 1000 2222).1.statement.log = [1000] ∧
      (open_account (sample_table 1500) sample_env "Bob".toList "87654321".toList
        "checking".toList 1000 2222).2.account_count = max (sample_table 1500).account_count (idx + 1) :=
  open_account_success (sample_table 1500) sample_env "Bob".toList "87654321".toList
    "checking".toList 1000 2222 "1700000043".toList (sample_table_wf 1500)
    ⟨1, by decide, rfl⟩ (by decide) (by rfl)

/-- C7: when all 100 slots are active, `open_account` returns an account with `is_active = 0`
and leaves the table unchanged, whatever the initial deposit. -/
theorem open_account_table_full (t : Table) (env : Env) (name national_id account_type : CString)
    (initial_deposit : Double) (pin : Int)
    (hfull : ∀ j, j < MAX_ACCOUNTS → (t.slot j).is_active ≠ 0) :
    (open_account t env name national_id account_type initial_deposit pin).1.is_active = 0 ∧
      (open_account t env name national_id account_type initial_deposit pin).2 = t := by
  have hnone := find_free_slot_none_of_all_active t hfull
  unfold open_account
  split
  · exact ⟨rfl, rfl⟩
  · simp only [hnone]
    exact ⟨rfl, trivial⟩

/-- Witness for C7: an attempt with a valid deposit on a table whose 100 slots are active. -/
theorem open_account_table_full_witness :
    (open_account full_table sample_env "Bob".toList "87654321".toList
        "checking".toList 5000 2222).1.is_active = 0 ∧
      (open_account full_table sample_env "Bob".toList "87654321".toList
        "checking".toList 5000 2222).2 = full_table :=
  open_account_table_full full_table sample_env "Bob".toList "87654321".toList
    "checking".toList 5000 2222 full_table_all_active

/-! ## The table invariant -/

theorem length_shift_transactions (ts : List Double) :
    (shift_transactions ts).length = ts.length := by
  unfold shift_transactions
  generalize List.range (MAX_TRANSACTIONS - 1) = js
  induction js generalizing ts with
  | nil => rfl
  | cons j js ih =>
    rw [List.foldl_cons, ih, List.length_set]

theorem length_record_transaction (s : Statement) (x : Double) :
    (record_transaction s x).transactions.length = s.transactions.length := by
  unfold record_transaction
  split <;> simp [length_shift_transactions]

theorem transaction_count_record_transaction (s : Statement) (x : Double) :
    (record_transaction s x).transaction_count =
      if s.transaction_count < MAX_TRANSACTIONS then s.transaction_count + 1
      else s.transaction_count := by
  unfold record_transaction
  split <;> rfl

theorem Table.Inv.wf {t : Table} (h : t.Inv) : t.WF :=
  ⟨h.length_accounts, h.count_le, fun a ha => (h.good a ha).length_transactions,
    fun a ha => (h.good a ha).transaction_count_le⟩

theorem Table.Inv.slot_good {t : Table} (h : t.Inv) (i : Nat) (hi : i < t.accounts.length) :
    (t.slot i).Good := by
  have hget : t.accounts[i]? = some (t.accounts[i]) := List.getElem?_eq_getElem hi
  rw [slot_of_getElem? t i _ hget]
  exact h.good _ (List.getElem_mem hi)

theorem inv_empty : Table.empty.Inv := by
  refine ⟨by simp [Table.empty], Nat.zero_le _, ?_, ?_, ?_⟩
  · intro a ha
    simp only [Table.empty, List.mem_replicate] at ha
    rw [ha.2]
    exact ⟨rfl, Nat.zero_le _, fun h => absurd rfl h, fun h => absurd rfl h⟩
  · intro i a hget hact
    have hmem : a ∈ Table.empty.accounts := List.mem_iff_getElem?.mpr ⟨i, hget⟩
    simp only [Table.empty, List.mem_replicate] at hmem
    rw [hmem.2] at hact
    exact absurd rfl hact
  · intro i j a b hget _ _ hact
    have hmem : a ∈ Table.empty.accounts := List.mem_iff_getElem?.mpr ⟨i, hget⟩
    simp only [Table.empty, List.mem_replicate] at hmem
    rw [hmem.2] at hact
    exact absurd rfl hact

/-- Replacing a slot by an account with the same `is_active` and the same account number keeps
the invariant, as long as the new contents are good. -/
theorem inv_set_slot_same_identity {t : Table} (h : t.Inv) (i : Nat) (a : Account)
    (hact : a.is_active = (t.slot i).is_active)
    (hnum : a.account_number = (t.slot i).account_number) (hgood : a.Good) :
    (t.set_slot i a).Inv := by
  refine ⟨by rw [length_set_slot]; exact h.length_accounts, h.count_le, ?_, ?_, ?_⟩
  · intro b hb
    rcases List.mem_or_eq_of_mem_set hb with hb | rfl
    · exact h.good b hb
    · exact hgood
  · intro j b hget hb
    simp only [Table.set_slot, List.getElem?_set] at hget
    by_cases hij : i = j
    · subst hij
      by_cases hlen : i < t.accounts.length
      · simp only [if_true, hlen, Option.some.injEq] at hget
        subst hget
        have hg : t.accounts[i]? = some (t.accounts[i]) := List.getElem?_eq_getElem hlen
        rw [hact, slot_of_getElem? t i _ hg] at hb
        exact h.active_below_count i _ hg hb
      · simp [hlen] at hget
    · simp only [hij, if_false] at hget
      exact h.active_below_count j b hget hb
  · intro j k b c hgj hgk hjk hb hc
    simp only [Table.set_slot, List.getElem?_set] at hgj hgk
    by_cases hlen : i < t.accounts.length
    · have hg : t.accounts[i]? = some (t.accounts[i]) := List.getElem?_eq_getElem hlen
      have hs := slot_of_getElem? t i _ hg
      by_cases hij : i = j
      · subst hij
        have hik : ¬ i = k := hjk
        simp only [if_true, hlen, Option.some.injEq] at hgj
        simp only [hik, if_false] at hgk
        subst hgj
        rw [hnum, hs]
        rw [hact, hs] at hb
        exact h.unique i k _ c hg hgk hjk hb hc
      · simp only [hij, if_false] at hgj
        by_cases hik : i = k
        · subst hik
          simp only [if_true, hlen, Option.some.injEq] at hgk
          subst hgk
          rw [hnum, hs]
          rw [hact, hs] at hc
          exact h.unique j i b _ hgj hg hjk hb hc
        · simp only [hik, if_false] at hgk
          exact h.unique j k b c hgj hgk hjk hb hc
    · have e1 : ∀ m, (if i = m then (if i < t.accounts.length then some a else none)
          else t.accounts[m]?) = t.accounts[m]? := by
        intro m
        by_cases him : i = m
        · subst him
          simp [hlen, List.getElem?_eq_none (not_lt.mp hlen)]
        · simp [him]
      rw [e1] at hgj hgk
      exact h.unique j k b c hgj hgk hjk hb hc

/-- Replacing a slot by an inactive account keeps the invariant. -/
theorem inv_set_slot_inactive {t : Table} (h : t.Inv) (i : Nat) (a : Account)
    (hact : a.is_active = 0) (hgood : a.Good) : (t.set_slot i a).Inv := by
  refine ⟨by rw [length_set_slot]; exact h.length_accounts, h.count_le, ?_, ?_, ?_⟩
  · intro b hb
    rcases List.mem_or_eq_of_mem_set hb with hb | rfl
    · exact h.good b hb
    · exact hgood
  · intro j b hget hb
    simp only [Table.set_slot, List.getElem?_set] at hget
    by_cases hij : i = j
    · subst hij
      by_cases hlen : i < t.accounts.length
      · simp only [if_true, hlen, Option.some.injEq] at hget
        subst hget
        exact absurd hact hb
      · simp [hlen] at hget
    · simp only [hij, if_false] at hget
      exact h.active_below_count j b hget hb
  · intro j k b c hgj hgk hjk hb hc
    simp only [Table.set_slot, List.getElem?_set] at hgj hgk
    by_cases hij : i = j
    · subst hij
      by_cases hlen : i < t.accounts.length
      · simp only [if_true, hlen, Option.some.injEq] at hgj
        subst hgj
        exact absurd hact hb
      · simp [hlen] at hgj
    · simp only [hij, if_false] at hgj
      by_cases hik : i = k
      · subst hik
        by_cases hlen : i < t.accounts.length
        · simp only [if_true, hlen, Option.some.injEq] at hgk
          subst hgk
          exact absurd hact hc
        · simp [hlen] at hgk
      · simp only [hik, if_false] at hgk
        exact h.unique j k b c hgj hgk hjk hb hc

/-- Filling an inactive slot below `MAX_ACCOUNTS` with an active account whose number no active
slot below `account_count` carries, and raising `account_count` to cover it, keeps the
invariant. -/
theorem inv_activate_slot {t : Table} (h : t.Inv) (idx : Nat) (a : Account) (num : CString)
    (hidx : idx < MAX_ACCOUNTS) (hnum : a.account_number = some num)
    (hfresh : number_in_use t num = false) (hgood : a.Good) :
    Table.Inv { accounts := t.accounts.set idx a, account_count := max t.account_count (idx + 1) } := by
  have hlen : idx < t.accounts.length := by rw [h.length_accounts]; exact hidx
  have hclash : ∀ (k : Nat) (c : Account), t.accounts[k]? = some c → c.is_active ≠ 0 →
      c.account_number ≠ some num := by
    intro k c hget hc heq
    have : number_in_use t num = true :=
      (number_in_use_iff t num).mpr ⟨k, c, h.active_below_count k c hget hc, hget, hc, heq⟩
    rw [hfresh] at this
    cases this
  refine ⟨by simp [h.length_accounts], ?_, ?_, ?_, ?_⟩
  · have := h.count_le
    simp only [max_le_iff]
    exact ⟨this, hidx⟩
  · intro b hb
    rcases List.mem_or_eq_of_mem_set hb with hb | rfl
    · exact h.good b hb
    · exact hgood
  · intro j b hget hb
    simp only [List.getElem?_set] at hget
    by_cases hij : idx = j
    · subst hij
      exact lt_of_lt_of_le (Nat.lt_succ_self _) (le_max_right _ _)
    · simp only [hij, if_false] at hget
      exact lt_of_lt_of_le (h.active_below_count j b hget hb) (le_max_left _ _)
  · intro j k b c hgj hgk hjk hb hc
    simp only [List.getElem?_set] at hgj hgk
    by_cases hij : idx = j
    · subst hij
      have hik : ¬ idx = k := hjk
      simp only [if_true, hlen, Option.some.injEq] at hgj
      simp only [hik, if_false] at hgk
      subst hgj
      rw [hnum]
      exact fun heq => hclash k c hgk hc heq.symm
    · simp only [hij, if_false] at hgj
      by_cases hik : idx = k
      · subst hik
        simp only [if_true, hlen, Option.some.injEq] at hgk
        subst hgk
        rw [hnum]
        exact hclash j b hgj hb
      · simp only [hik, if_false] at hgk
        exact h.unique j k b c hgj hgk hjk hb hc

theorem good_record_transaction {a : Account} (h : a.Good) (balance x : Double) :
    Account.Good { a with balance := balance, statement := record_transaction a.statement x } := by
  refine ⟨?_, ?_, h.number_ne_none, ?_⟩
  · rw [length_record_transaction]; exact h.length_transactions
  · have := h.transaction_count_le
    simp only [transaction_count_record_transaction]
    split <;> omega
  · intro hact
    have := h.transaction_count_pos hact
    simp only [transaction_count_record_transaction]
    split <;> omega

theorem inv_deposit {t : Table} (h : t.Inv) (num : CString) (pin : Int) (amount : Double) :
    (deposit t num pin amount).2.Inv := by
  unfold deposit
  cases hfind : find_account_index t num pin with
  | none => exact h
  | some i =>
    have hlen := (find_account_index_some hfind).2.1
    have hg := h.slot_good i hlen
    by_cases ha : amount < 500
    · simp only [ha, if_true]; exact h
    · simp only [ha, if_false]
      refine inv_set_slot_same_identity h i _ ?_ ?_ ?_
      · rfl
      · rfl
      · exact good_record_transaction hg _ _

theorem inv_withdraw {t : Table} (h : t.Inv) (num : CString) (pin : Int) (amount : Double) :
    (withdraw t num pin amount).2.Inv := by
  unfold withdraw
  cases hfind : find_account_index t num pin with
  | none => exact h
  | some i =>
    have hlen := (find_account_index_some hfind).2.1
    have hg := h.slot_good i hlen
    simp only
    split
    · exact h
    · split
      · exact h
      · rename_i hb
        refine inv_set_slot_same_identity h i _ ?_ ?_ ?_
        · rfl
        · rfl
        · exact good_record_transaction hg _ _

theorem inv_close_account {t : Table} (h : t.Inv) (num : CString) (pin : Int) :
    (close_account t num pin).2.Inv := by
  unfold close_account
  cases hfind : find_account_index t num pin with
  | none => exact h
  | some i =>
    have hlen := (find_account_index_some hfind).2.1
    have hg := h.slot_good i hlen
    refine inv_set_slot_inactive h i _ ?_ ?_
    · rfl
    · exact ⟨hg.length_transactions, hg.transaction_count_le, fun hx => absurd rfl hx,
        fun hx => absurd rfl hx⟩

theorem inv_open_account {t : Table} (h : t.Inv) (env : Env)
    (name national_id account_type : CString) (initial_deposit : Double) (pin : Int) :
    (open_account t env name national_id account_type initial_deposit pin).2.Inv := by
  by_cases hd : initial_deposit < 1000
  · simp only [open_account, hd, if_true]; exact h
  · cases hslot : find_free_slot t with
    | none => simp only [open_account, hd, if_false, hslot]; exact h
    | some idx =>
      obtain ⟨hidx, hlen, h0, _⟩ := find_free_slot_some hslot
      have hg := h.slot_good idx hlen
      have hgen' := generate_account_number_set_slot_inactive t env idx
        { t.slot idx with
          name := strncpy_field MAX_NAME_LEN name
          national_id := strncpy_field MAX_ID_LEN national_id
          account_type := strncpy_field MAX_ACCOUNT_TYPE_LEN account_type } h0 h0
      cases hgen : generate_account_number t env with
      | none =>
        rw [hgen] at hgen'
        simp only [open_account, hd, if_false, hslot, hgen', slot_set_slot_same t idx _ hlen]
        refine inv_set_slot_inactive ?_ idx _ ?_ ?_
        · refine inv_set_slot_inactive h idx _ ?_ ?_
          · exact h0
          · exact ⟨hg.length_transactions, hg.transaction_count_le, fun hx => absurd h0 hx,
              fun hx => absurd h0 hx⟩
        · rfl
        · exact ⟨hg.length_transactions, hg.transaction_count_le, fun hx => absurd rfl hx,
            fun hx => absurd rfl hx⟩
      | some acc_num =>
        rw [open_account_eq_of_success t env name national_id account_type initial_deposit pin
          idx acc_num hd hslot hgen]
        apply inv_activate_slot h idx _ acc_num hidx rfl
          (generate_account_number_fresh t env acc_num hgen)
        refine ⟨?_, Nat.le_of_ble_eq_true rfl, fun _ => by simp, fun _ => le_refl _⟩
        simp only [List.length_set]
        exact hg.length_transactions

theorem inv_run (t : Table) (h : t.Inv) (c : Call) : (c.run t).Inv := by
  cases c with
  | open_account env name national_id account_type initial_deposit pin =>
    exact inv_open_account h env name national_id account_type initial_deposit pin
  | close_account account_number pin => exact inv_close_account h account_number pin
  | deposit account_number pin amount => exact inv_deposit h account_number pin amount
  | withdraw account_number pin amount => exact inv_withdraw h account_number pin amount

theorem inv_run_calls (calls : List Call) : ∀ t : Table, t.Inv → (run_calls t calls).Inv := by
  induction calls with
  | nil => intro t h; exact h
  | cons c cs ih =>
    intro t h
    exact ih (c.run t) (inv_run t h c)

/-- Every reachable table satisfies the invariant. -/
theorem inv_of_reachable {t : Table} (h : Reachable t) : t.Inv := by
  obtain ⟨calls, rfl⟩ := h
  exact inv_run_calls calls Table.empty inv_empty

/-- C8: in every table reachable from the empty table by calls of `open_account`,
`close_account`, `deposit` and `withdraw`, whatever values the clock and `rand()` supply, two
distinct active slots never carry the same account number. -/
theorem reachable_account_numbers_unique (t : Table) (i j : Nat) (hreach : Reachable t)
    (hij : i ≠ j) (hi : (t.slot i).is_active ≠ 0) (hj : (t.slot j).is_active ≠ 0) :
    (t.slot i).account_number ≠ (t.slot j).account_number := by
  have hinv := inv_of_reachable hreach
  have hlen : ∀ k, (t.slot k).is_active ≠ 0 → k < t.accounts.length := by
    intro k hk
    by_contra hge
    have : t.slot k = Account.zero := by
      simp [Table.slot, List.getD_eq_getElem?_getD, List.getElem?_eq_none (not_lt.mp hge)]
    rw [this] at hk
    exact hk rfl
  have hli := hlen i hi
  have hlj := hlen j hj
  have hgi : t.accounts[i]? = some (t.accounts[i]) := List.getElem?_eq_getElem hli
  have hgj : t.accounts[j]? = some (t.accounts[j]) := List.getElem?_eq_getElem hlj
  rw [slot_of_getElem? t i _ hgi] at hi ⊢
  rw [slot_of_getElem? t j _ hgj] at hj ⊢
  exact hinv.unique i j _ _ hgi hgj hij hi hj

/-- Witness for C8: after two openings made with the same clock and `rand()` values, slots 0 and
1 are both active and carry different numbers. -/
theorem reachable_account_numbers_unique_witness :
    Reachable two_accounts ∧ (two_accounts.slot 0).is_active ≠ 0 ∧
      (two_accounts.slot 1).is_active ≠ 0 ∧
      (two_accounts.slot 0).account_number ≠ (two_accounts.slot 1).account_number :=
  ⟨⟨_, rfl⟩, by decide, by decide,
    reachable_account_numbers_unique two_accounts 0 1 ⟨_, rfl⟩ (by decide) (by decide)
      (by decide)⟩

/-! ## The transaction log as a window on the history -/

theorem account_matches_iff (a : Account) (num : CString) (pin : Int) :
    account_matches a num pin = true ↔
      a.is_active ≠ 0 ∧ a.account_number = some num ∧ a.pin = pin := by
  unfold account_matches
  cases hnum : a.account_number with
  | none => simp
  | some s => simp [and_assoc]

theorem find_account_index_loop_isSome (num : CString) (pin : Int) :
    ∀ (l : List Account) (i : Nat), (∃ a ∈ l, account_matches a num pin = true) →
      ∃ k, find_account_index_loop num pin l i = some k := by
  intro l
  induction l with
  | nil => intro i h; simp at h
  | cons a rest ih =>
    intro i h
    unfold find_account_index_loop
    by_cases ha : account_matches a num pin = true
    · exact ⟨i, by simp [ha]⟩
    · simp only [ha]
      apply ih
      obtain ⟨b, hb, hbm⟩ := h
      rcases List.mem_cons.mp hb with rfl | hb
      · exact absurd hbm ha
      · exact ⟨b, hb, hbm⟩

/-- In a table that satisfies the invariant, the lookup of the number and PIN of an active slot
returns that slot. -/
theorem find_account_index_of_active {t : Table} (hinv : t.Inv) (i : Nat) (a : Account)
    (num : CString) (pin : Int) (hget : t.accounts[i]? = some a)
    (hm : account_matches a num pin = true) : find_account_index t num pin = some i := by
  have ha := (account_matches_iff a num pin).mp hm
  have hcount := hinv.active_below_count i a hget ha.1
  have hmem : a ∈ t.accounts.take t.account_count :=
    List.mem_iff_getElem?.mpr ⟨i, by simp [List.getElem?_take, hcount, hget]⟩
  obtain ⟨k, hk⟩ := find_account_index_loop_isSome num pin _ 0 ⟨a, hmem, hm⟩
  have hk' : find_account_index t num pin = some k := hk
  obtain ⟨_, hklen, hkm⟩ := find_account_index_some hk'
  have hgk : t.accounts[k]? = some (t.accounts[k]) := List.getElem?_eq_getElem hklen
  rw [slot_of_getElem? t k _ hgk] at hkm
  have hb := (account_matches_iff _ num pin).mp hkm
  by_cases hik : i = k
  · rw [hik]; exact hk'
  · exact absurd (ha.2.1.trans hb.2.1.symm) (hinv.unique i k a _ hget hgk hik ha.1 hb.1)

theorem recent_of_length_le (l : List Double) (h : l.length ≤ MAX_TRANSACTIONS) : recent l = l := by
  unfold recent
  rw [Nat.sub_eq_zero_of_le h, List.drop_zero]

theorem length_recent_le (l : List Double) : (recent l).length ≤ MAX_TRANSACTIONS := by
  unfold recent
  rw [List.length_drop]
  omega

theorem recent_append (l : List Double) (x : Double) : recent (recent l ++ [x]) = recent (l ++ [x]) := by
  by_cases h : l.length ≤ MAX_TRANSACTIONS
  · rw [recent_of_length_le l h]
  · have hl : MAX_TRANSACTIONS < l.length := not_le.mp h
    have h5 : MAX_TRANSACTIONS = 5 := rfl
    have hlen : (List.drop (l.length - MAX_TRANSACTIONS) l).length = MAX_TRANSACTIONS := by
      rw [List.length_drop]; omega
    unfold recent
    simp only [List.length_append, List.length_cons, List.length_nil, hlen]
    rw [List.drop_append_of_le_length (by rw [hlen]; omega),
      List.drop_append_of_le_length (by omega), List.drop_drop]
    congr 2
    omega

/-- The log after recording `x`: the last `MAX_TRANSACTIONS` entries of the old log followed by
`x`. -/
theorem log_record_transaction (s : Statement) (x : Double)
    (hlen : s.transactions.length = MAX_TRANSACTIONS)
    (hcount : s.transaction_count ≤ MAX_TRANSACTIONS) :
    (record_transaction s x).log = recent (s.log ++ [x]) := by
  have h5 : MAX_TRANSACTIONS = 5 := rfl
  rw [h5] at hlen hcount
  obtain ⟨ts, n⟩ := s
  simp only at hlen hcount
  match ts, hlen with
  | [a, b, c, d, e], _ =>
    have hn : n = 0 ∨ n = 1 ∨ n = 2 ∨ n = 3 ∨ n = 4 ∨ n = 5 := by omega
    rcases hn with rfl | rfl | rfl | rfl | rfl | rfl <;>
      simp [record_transaction, Statement.log, recent, shift_transactions, MAX_TRANSACTIONS,
        List.range, List.range.loop]

/-- One successful movement on a matched account: the invariant is kept, the lookup still returns
the same slot, and the log of that slot is the window on the old log followed by the new
entry. -/
theorem movement_step {u : Table} (hinv : u.Inv) (num : CString) (pin : Int) (i : Nat)
    (m : Movement) (hfind : find_account_index u num pin = some i)
    (hok : (m.perform u num pin).1 = 0) :
    (m.perform u num pin).2.Inv ∧
      find_account_index (m.perform u num pin).2 num pin = some i ∧
      ((m.perform u num pin).2.slot i).statement.log =
        recent ((u.slot i).statement.log ++ [m.signed]) := by
  obtain ⟨_, hlen, hm⟩ := find_account_index_some hfind
  have hg := hinv.slot_good i hlen
  have hmi := (account_matches_iff _ num pin).mp hm
  have key : ∀ (balance x : Double),
      (u.set_slot i
          { u.slot i with
            balance := balance, statement := record_transaction (u.slot i).statement x }).Inv →
      find_account_index
          (u.set_slot i
            { u.slot i with
              balance := balance, statement := record_transaction (u.slot i).statement x })
          num pin = some i ∧
        ((u.set_slot i
            { u.slot i with
              balance := balance
              statement := record_transaction (u.slot i).statement x }).slot i).statement.log =
          recent ((u.slot i).statement.log ++ [x]) := by
    intro balance x hinv'
    constructor
    · apply find_account_index_of_active hinv' i _ num pin
      · exact getElem?_set_slot_same u i _ hlen
      · exact (account_matches_iff _ num pin).mpr hmi
    · rw [slot_set_slot_same u i _ hlen]
      exact log_record_transaction _ x hg.length_transactions hg.transaction_count_le
  cases m with
  | deposit amount =>
    have hinv' := inv_deposit hinv num pin amount
    simp only [Movement.perform, Movement.signed] at hok hinv' ⊢
    simp only [deposit, hfind] at hok hinv' ⊢
    by_cases ha : amount < 500
    · simp [ha] at hok
    · simp only [ha, if_false] at hinv' ⊢
      exact ⟨hinv', key _ _ hinv'⟩
  | withdraw amount =>
    have hinv' := inv_withdraw hinv num pin amount
    simp only [Movement.perform, Movement.signed] at hok hinv' ⊢
    simp only [withdraw, hfind] at hok hinv' ⊢
    by_cases hc : Int.tmod (double_to_int amount) 500 ≠ 0 ∨ amount ≤ 0
    · simp [hc] at hok
    · by_cases hb : (u.slot i).balance - amount < 1000
      · simp [hc, hb] at hok
      · simp only [hc, hb, if_false] at hinv' ⊢
        exact ⟨hinv', key _ _ hinv'⟩

theorem perform_all_log (num : CString) (pin : Int) (i : Nat) :
    ∀ (ms : List Movement) (u : Table) (H : List Double), u.Inv →
      find_account_index u num pin = some i → all_succeed u num pin ms = true →
      (u.slot i).statement.log = recent H →
      find_account_index (perform_all u num pin ms) num pin = some i ∧
        ((perform_all u num pin ms).slot i).statement.log =
          recent (H ++ ms.map Movement.signed) := by
  intro ms
  induction ms with
  | nil =>
    intro u H _ hfind _ hlog
    simpa [perform_all] using ⟨hfind, hlog⟩
  | cons m ms ih =>
    intro u H hinv hfind hok hlog
    simp only [all_succeed, Bool.and_eq_true, decide_eq_true_eq] at hok
    obtain ⟨hinv', hfind', hlog'⟩ := movement_step hinv num pin i m hfind hok.1
    rw [hlog, recent_append] at hlog'
    have := ih _ (H ++ [m.signed]) hinv' hfind' hok.2 hlog'
    simpa [perform_all] using this

/-- When `open_account` returns an account that carries a number, it has activated a slot: the
slot holds the returned account, which is active, has the supplied PIN and a log made of the
deposit alone. -/
theorem open_account_of_number (t : Table) (env : Env) (name national_id account_type : CString)
    (d : Double) (pin : Int) (num : CString) (hwf : t.WF)
    (hopen : (open_account t env name national_id account_type d pin).1.account_number = some num) :
    ∃ idx : Nat,
      (open_account t env name national_id account_type d pin).2.accounts[idx]? =
        some (open_account t env name national_id account_type d pin).1 ∧
      (open_account t env name national_id account_type d pin).1.is_active = 1 ∧
      (open_account t env name national_id account_type d pin).1.pin = pin ∧
      (open_account t env name national_id account_type d pin).1.statement.log = [d] := by
  by_cases hd : d < 1000
  · simp [open_account, hd, Account.zero] at hopen
  · cases hslot : find_free_slot t with
    | none => simp [open_account, hd, hslot, Account.zero] at hopen
    | some idx =>
      obtain ⟨hidx, hlen, h0, _⟩ := find_free_slot_some hslot
      have hgen' := generate_account_number_set_slot_inactive t env idx
        { t.slot idx with
          name := strncpy_field MAX_NAME_LEN name
          national_id := strncpy_field MAX_ID_LEN national_id
          account_type := strncpy_field MAX_ACCOUNT_TYPE_LEN account_type } h0 h0
      cases hgen : generate_account_number t env with
      | none =>
        rw [hgen] at hgen'
        simp [open_account, hd, hslot, hgen', Account.zero] at hopen
      | some acc_num =>
        have hgetidx : t.accounts[idx]? = some (t.accounts[idx]) := List.getElem?_eq_getElem hlen
        have htx : (t.slot idx).statement.transactions.length = MAX_TRANSACTIONS := by
          rw [slot_of_getElem? t idx _ hgetidx]
          exact hwf.length_transactions _ (List.getElem_mem hlen)
        rw [open_account_eq_of_success t env name national_id account_type d pin
          idx acc_num hd hslot hgen]
        refine ⟨idx, by simp [List.getElem?_set, hlen], rfl, rfl, ?_⟩
        cases htr : (t.slot idx).statement.transactions with
        | nil => rw [htr] at htx; simp [MAX_TRANSACTIONS] at htx
        | cons x xs => simp [Statement.log]

/-- C10: for an account opened with deposit `d` in a reachable table and then subjected to any
sequence of successful deposits and withdrawals, the transaction log is the last `min(n, 5)`
elements, oldest first, of the full history (`d`, then `+amount` per deposit and `-amount` per
withdrawal), `n` being the length of that history. -/
theorem transaction_log_recent_history (t : Table) (env : Env)
    (name national_id account_type : CString) (d : Double) (pin : Int) (num : CString)
    (ms : List Movement) (hreach : Reachable t)
    (hopen : (open_account t env name national_id account_type d pin).1.account_number = some num)
    (hok : all_succeed (open_account t env name national_id account_type d pin).2 num pin ms
      = true) :
    ∃ idx,
      (open_account t env name national_id account_type d pin).2.slot idx =
        (open_account t env name national_id account_type d pin).1 ∧
      find_account_index
        (perform_all (open_account t env name national_id account_type d pin).2 num pin ms)
        num pin = some idx ∧
      ((perform_all (open_account t env name national_id account_type d pin).2 num pin ms).slot
          idx).statement.log =
        (history d ms).drop ((history d ms).length - min (history d ms).length 5) := by
  have hinv := inv_of_reachable hreach
  have hinv1 := inv_open_account hinv env name national_id account_type d pin
  obtain ⟨idx, hget, hact, hpin, hlog⟩ :=
    open_account_of_number t env name national_id account_type d pin num hinv.wf hopen
  have hslot1 := slot_of_getElem? _ idx _ hget
  have hmatch : account_matches (open_account t env name national_id account_type d pin).1
      num pin = true := by
    rw [account_matches_iff]
    exact ⟨by rw [hact]; decide, hopen, hpin⟩
  have hfind1 := find_account_index_of_active hinv1 idx _ num pin hget hmatch
  have hlog1 : ((open_account t env name national_id account_type d pin).2.slot
      idx).statement.log = recent [d] := by
    rw [hslot1, hlog]
    rfl
  obtain ⟨hf, hl⟩ := perform_all_log num pin idx ms _ [d] hinv1 hfind1 hok hlog1
  refine ⟨idx, hslot1, hf, ?_⟩
  rw [hl]
  simp only [history, recent, MAX_TRANSACTIONS, List.singleton_append]
  congr 1
  omega

theorem deposit_of_find (t : Table) (num : CString) (pin : Int) (i : Nat) (amount : Double)
    (hfind : find_account_index t num pin = some i) (h : 500 ≤ amount) :
    deposit t num pin amount =
      (0, t.set_slot i
        { t.slot i with
          balance := (t.slot i).balance + amount
          statement := record_transaction (t.slot i).statement amount }) := by
  simp only [deposit, hfind, Double.not_lt_of_le h, if_false]

theorem withdraw_of_find (t : Table) (num : CString) (pin : Int) (i : Nat) (amount : Double)
    (hfind : find_account_index t num pin = some i)
    (hrem : Int.tmod (double_to_int amount) 500 = 0) (hpos : 0 < amount)
    (hbal : 1000 ≤ (t.slot i).balance - amount) :
    withdraw t num pin amount =
      (0, t.set_slot i
        { t.slot i with
          balance := (t.slot i).balance - amount
          statement := record_transaction (t.slot i).statement (-amount) }) := by
  simp only [withdraw, hfind, hrem, Double.not_le_of_lt hpos, Double.not_lt_of_le hbal, ne_eq,
    not_true_eq_false,
    or_self, if_false]

/-- A sequence of movements that passes the balance conditions is accepted call by call. -/
theorem all_succeed_of_accepted (num : CString) (pin : Int) (i : Nat) :
    ∀ (ms : List Movement) (u : Table), u.Inv → find_account_index u num pin = some i →
      movements_accepted (u.slot i).balance ms → all_succeed u num pin ms = true := by
  intro ms
  induction ms with
  | nil => intro u _ _ _; rfl
  | cons m ms ih =>
    intro u hinv hfind hacc
    have hlen := (find_account_index_some hfind).2.1
    cases m with
    | deposit amount =>
      obtain ⟨h500, hrest⟩ := hacc
      have heq := deposit_of_find u num pin i amount hfind h500
      have hok : (Movement.perform u num pin (Movement.deposit amount)).1 = 0 := by
        simp only [Movement.perform, heq]
      obtain ⟨hinv', hfind', _⟩ := movement_step hinv num pin i _ hfind hok
      simp only [all_succeed, hok, decide_True, Bool.true_and]
      apply ih _ hinv' hfind'
      simp only [Movement.perform, heq, slot_set_slot_same u i _ hlen]
      exact hrest
    | withdraw amount =>
      obtain ⟨hrem, hpos, hbal, hrest⟩ := hacc
      have heq := withdraw_of_find u num pin i amount hfind hrem hpos hbal
      have hok : (Movement.perform u num pin (Movement.withdraw amount)).1 = 0 := by
        simp only [Movement.perform, heq]
      obtain ⟨hinv', hfind', _⟩ := movement_step hinv num pin i _ hfind hok
      simp only [all_succeed, hok, decide_True, Bool.true_and]
      apply ih _ hinv' hfind'
      simp only [Movement.perform, heq, slot_set_slot_same u i _ hlen]
      exact hrest

theorem double_to_int_500 : double_to_int 500 = 500 := by decide

theorem double_to_int_1000 : double_to_int 1000 = 1000 := by decide

theorem sample_movements_succeed :
    all_succeed (open_account Table.empty sample_env "Alice".toList "12345678".toList
      "savings".toList 1000 1111).2 sample_number 1111 sample_movements = true := by
  apply all_succeed_of_accepted sample_number 1111 0 sample_movements _
    (inv_open_account inv_empty _ _ _ _ _ _) (by rfl)
  have hb : ((open_account Table.empty sample_env "Alice".toList "12345678".toList
      "savings".toList 1000 1111).2.slot 0).balance = 1000 := by rfl
  rw [hb]
  simp only [sample_movements, movements_accepted]
  decide

/-- Witness for C10: an account opened with 1000 on the empty table, then six accepted
movements; of the seven history entries the log keeps the last five. -/
theorem transaction_log_recent_history_witness :
    (∃ idx,
      (open_account Table.empty sample_env "Alice".toList "12345678".toList "savings".toList
          1000 1111).2.slot idx =
        (open_account Table.empty sample_env "Alice".toList "12345678".toList "savings".toList
          1000 1111).1 ∧
      find_account_index
        (perform_all (open_account Table.empty sample_env "Alice".toList "12345678".toList
          "savings".toList 1000 1111).2 sample_number 1111 sample_movements)
        sample_number 1111 = some idx ∧
      ((perform_all (open_account Table.empty sample_env "Alice".toList "12345678".toList
          "savings".toList 1000 1111).2 sample_number 1111 sample_movements).slot
          idx).statement.log =
        (history 1000 sample_movements).drop
          ((history 1000 sample_movements).length -
            min (history 1000 sample_movements).length 5)) ∧
      (history 1000 sample_movements).drop
          ((history 1000 sample_movements).length -
            min (history 1000 sample_movements).length 5) = [600, -500, 700, 800, -1000] :=
  ⟨transaction_log_recent_history Table.empty sample_env "Alice".toList "12345678".toList
      "savings".toList 1000 1111 sample_number sample_movements ⟨[], rfl⟩ (by rfl) sample_movements_succeed,
    by rfl⟩

/-! ## Saving and loading -/

/-- The file written for the table that holds one account named `Bob`. -/
theorem save_plain_name_table :
    save_accounts_to_file plain_name_table =
      "1\n1\nBob\n87654321\nchecking\n1700000042\n2222\n1000.00\n1\n1000.00\n---\n".toList := by
  decide

/-- Saving and loading gives back the account named `Bob` field by field. -/
theorem save_then_load_plain_name :
    (save_then_load plain_name_table).account_count = 1 ∧
      ((save_then_load plain_name_table).slot 0).is_active = 1 ∧
      ((save_then_load plain_name_table).slot 0).name = "Bob".toList ∧
      ((save_then_load plain_name_table).slot 0).national_id = "87654321".toList ∧
      ((save_then_load plain_name_table).slot 0).account_type = "checking".toList ∧
      ((save_then_load plain_name_table).slot 0).account_number = some "1700000042".toList ∧
      ((save_then_load plain_name_table).slot 0).pin = 2222 ∧
      ((save_then_load plain_name_table).slot 0).balance = 1000 ∧
      ((save_then_load plain_name_table).slot 0).statement.log = [1000] := by
  refine ⟨by decide, by decide, by decide, by decide, by decide, by decide, by decide,
    by decide, by decide⟩

/-- C9 (the code departs from it): a table produced by one `open_account` call whose name has 49
characters is saved and loaded into a fresh table.  The slot was active with national id
`87654321`, type `checking`, number `1700000042`, PIN 2222 and one transaction; after loading it
is active with an empty national id, type `87654321`, number `checking`, PIN 1700000042 and no
transaction: `fgets(name_buf, 50, file)` stops after the 49 characters and leaves the newline
to the next `fgets`, so every later field is read from the wrong line. -/
theorem save_then_load_long_name :
    Reachable long_name_table ∧
      (long_name_table.slot 0).is_active = 1 ∧
      (long_name_table.slot 0).name = List.replicate 49 'x' ∧
      (long_name_table.slot 0).national_id = "87654321".toList ∧
      (long_name_table.slot 0).account_type = "checking".toList ∧
      (long_name_table.slot 0).account_number = some "1700000042".toList ∧
      (long_name_table.slot 0).pin = 2222 ∧
      (long_name_table.slot 0).statement.transaction_count = 1 ∧
      ((save_then_load long_name_table).slot 0).is_active = 1 ∧
      ((save_then_load long_name_table).slot 0).name = List.replicate 49 'x' ∧
      ((save_then_load long_name_table).slot 0).national_id = [] ∧
      ((save_then_load long_name_table).slot 0).account_type = "87654321".toList ∧
      ((save_then_load long_name_table).slot 0).account_number = some "checking".toList ∧
      ((save_then_load long_name_table).slot 0).pin = 1700000042 ∧
      ((save_then_load long_name_table).slot 0).statement.transaction_count = 0 := by
  refine ⟨⟨_, rfl⟩, ?_⟩
  decide

/-- A second input on which saving and loading changes a field: a name that starts with a space
comes back without it, because the `\n` that ends the format `"%d\n"` of the preceding `fscanf`
reads all the white space that follows the active flag. -/
theorem save_then_load_spaced_name :
    Reachable spaced_name_table ∧
      (spaced_name_table.slot 0).is_active = 1 ∧
      (spaced_name_table.slot 0).name = " Bob".toList ∧
      ((save_then_load spaced_name_table).slot 0).is_active = 1 ∧
      ((save_then_load spaced_name_table).slot 0).name = "Bob".toList := by
  refine ⟨⟨_, rfl⟩, ?_⟩
  decide

/-! ## Lookups that fail, and the lowest match -/

theorem find_account_index_loop_none (num : CString) (pin : Int) :
    ∀ (l : List Account) (i : Nat), (∀ a ∈ l, account_matches a num pin = false) →
      find_account_index_loop num pin l i = none := by
  intro l
  induction l with
  | nil => intro i _; rfl
  | cons a rest ih =>
    intro i h
    unfold find_account_index_loop
    have ha : account_matches a num pin = false := h a (by simp)
    simp only [ha]
    exact ih (i + 1) (fun b hb => h b (by simp [hb]))

/-- The lookup fails when no slot below `account_count` matches. -/
theorem find_account_index_none_of_no_match (t : Table) (num : CString) (pin : Int)
    (h : ∀ i, i < t.account_count → account_matches (t.slot i) num pin = false) :
    find_account_index t num pin = none := by
  apply find_account_index_loop_none
  intro a ha
  obtain ⟨j, hj, rfl⟩ := List.getElem_of_mem ha
  simp only [List.length_take, lt_min_iff] at hj
  have hget : t.accounts[j]? = some (t.accounts[j]) := List.getElem?_eq_getElem hj.2
  have := h j hj.1
  rw [slot_of_getElem? t j _ hget] at this
  simpa using this

/-- A successful lookup returns the lowest matching index. -/
theorem find_account_index_lowest {t : Table} {num : CString} {pin : Int} {i : Nat}
    (h : find_account_index t num pin = some i) :
    ∀ j, j < i → account_matches (t.slot j) num pin = false := by
  obtain ⟨hcount, hlen, _⟩ := find_account_index_some h
  obtain ⟨_, _, hlow⟩ := find_account_index_loop_spec num pin _ 0 i h
  intro j hj
  have hj2 : j < t.accounts.length := by omega
  have hget : t.accounts[j]? = some (t.accounts[j]) := List.getElem?_eq_getElem hj2
  rw [slot_of_getElem? t j _ hget]
  apply hlow j _ (by omega)
  simp [List.getElem?_take, show j < t.account_count by omega, hget]

/-- The lookup succeeds as soon as some slot below `account_count` matches. -/
theorem find_account_index_isSome_of_match (t : Table) (num : CString) (pin : Int) (j : Nat)
    (hj : j < t.account_count) (hm : account_matches (t.slot j) num pin = true) :
    ∃ i, find_account_index t num pin = some i := by
  have hlen : j < t.accounts.length := by
    by_contra hge
    have hz : t.slot j = Account.zero := by
      simp [Table.slot, List.getD_eq_getElem?_getD, List.getElem?_eq_none (not_lt.mp hge)]
    rw [hz] at hm
    exact absurd ((account_matches_iff _ num pin).mp hm).1 (fun h => h rfl)
  have hget : t.accounts[j]? = some (t.accounts[j]) := List.getElem?_eq_getElem hlen
  rw [slot_of_getElem? t j _ hget] at hm
  have hmem : t.accounts[j] ∈ t.accounts.take t.account_count :=
    List.mem_iff_getElem?.mpr ⟨j, by simp [List.getElem?_take, hj, hget]⟩
  exact find_account_index_loop_isSome num pin _ 0 ⟨_, hmem, hm⟩

theorem close_account_of_none (t : Table) (num : CString) (pin : Int)
    (h : find_account_index t num pin = none) : close_account t num pin = (1, t) := by
  simp only [close_account, h]

theorem close_account_of_find (t : Table) (num : CString) (pin : Int) (i : Nat)
    (h : find_account_index t num pin = some i) :
    close_account t num pin =
      (0, t.set_slot i { t.slot i with account_number := none, is_active := 0 }) := by
  simp only [close_account, h]

/-- A wrong PIN for the active accounts that carry a number, or a number that no active account
carries, both mean that no slot matches. -/
theorem no_match_of_wrong_pin_or_unknown (t : Table) (num : CString) (pin : Int)
    (hcase :
      ((∃ i, i < t.account_count ∧ (t.slot i).is_active ≠ 0 ∧
            (t.slot i).account_number = some num) ∧
          ∀ i, i < t.account_count → (t.slot i).is_active ≠ 0 →
            (t.slot i).account_number = some num → (t.slot i).pin ≠ pin) ∨
        (∀ i, i < t.account_count → (t.slot i).is_active ≠ 0 →
          (t.slot i).account_number ≠ some num)) :
    ∀ i, i < t.account_count → account_matches (t.slot i) num pin = false := by
  intro i hi
  rw [Bool.eq_false_iff]
  intro hm
  have h := (account_matches_iff _ num pin).mp hm
  rcases hcase with ⟨_, hpin⟩ | hnum
  · exact hpin i hi h.1 h.2.1 h.2.2
  · exact hnum i hi h.1 h.2.1

/-! ## Requests whose lookup fails -/

theorem snprintf_not_found_error : snprintf RESPONSE_SIZE not_found_error = not_found_error := by
  decide

theorem handle_close_not_found (t : Table) (acc_num pin_text : CString)
    (hfind : find_account_index t acc_num (atoi pin_text) = none) :
    handle_close t [acc_num, pin_text] =
      { response := not_found_error, table := t, closed := false } := by
  simp [handle_close, close_account, hfind, snprintf_not_found_error]

theorem handle_withdraw_not_found (t : Table) (acc_num pin_text amount : CString)
    (hfind : find_account_index t acc_num (atoi pin_text) = none) :
    handle_withdraw t [acc_num, pin_text, amount] =
      { response := not_found_error, table := t, closed := false } := by
  simp [handle_withdraw, withdraw, hfind, snprintf_not_found_error]

theorem handle_deposit_not_found (t : Table) (acc_num pin_text amount : CString)
    (hfind : find_account_index t acc_num (atoi pin_text) = none) :
    handle_deposit t [acc_num, pin_text, amount] =
      { response := not_found_error, table := t, closed := false } := by
  simp [handle_deposit, deposit, hfind, snprintf_not_found_error]

theorem handle_balance_not_found (t : Table) (acc_num pin_text : CString)
    (hfind : find_account_index t acc_num (atoi pin_text) = none) :
    handle_balance t [acc_num, pin_text] =
      { response := not_found_error, table := t, closed := false } := by
  have hneg : ¬ ((0 : Double) ≤ Double.finite (-1)) := by
    rw [Double.ofNat_eq, Double.finite_le_finite]
    norm_num
  simp [handle_balance, check_balance, hfind, snprintf_not_found_error, hneg]

theorem handle_statement_not_found (t : Table) (acc_num pin_text : CString)
    (hfind : find_account_index t acc_num (atoi pin_text) = none) :
    handle_statement t [acc_num, pin_text] =
      { response := not_found_error, table := t, closed := false } := by
  simp [handle_statement, get_statement, hfind, snprintf_not_found_error]

/-- A request for `close`, `balance` or `statement` with two arguments, or for `withdraw` or
`deposit` with three, whose lookup fails is answered with the not-found error and changes
nothing. -/
theorem handle_request_not_found (t : Table) (env : Env) (received command acc_num pin_text : CString)
    (rest : List CString)
    (hparse : parse_request received = some (command, acc_num :: pin_text :: rest))
    (hcmd :
      ((command = "close".toList ∨ command = "balance".toList ∨ command = "statement".toList) ∧
          rest = []) ∨
        ((command = "withdraw".toList ∨ command = "deposit".toList) ∧ ∃ amount, rest = [amount]))
    (hfind : find_account_index t acc_num (atoi pin_text) = none) :
    handle_request t env received =
      { response := not_found_error, table := t, closed := false } := by
  simp only [handle_request, hparse]
  rcases hcmd with ⟨hc | hc | hc, rfl⟩ | ⟨hc | hc, amount, rfl⟩ <;> subst hc
  · unfold handle_command
    rw [if_neg (by decide), if_pos rfl]
    exact handle_close_not_found t acc_num pin_text hfind
  · unfold handle_command
    rw [if_neg (by decide), if_neg (by decide), if_neg (by decide), if_neg (by decide),
      if_pos rfl]
    exact handle_balance_not_found t acc_num pin_text hfind
  · unfold handle_command
    rw [if_neg (by decide), if_neg (by decide), if_neg (by decide), if_neg (by decide),
      if_neg (by decide), if_pos rfl]
    exact handle_statement_not_found t acc_num pin_text hfind
  · unfold handle_command
    rw [if_neg (by decide), if_neg (by decide), if_pos rfl]
    exact handle_withdraw_not_found t acc_num pin_text amount hfind
  · unfold handle_command
    rw [if_neg (by decide), if_neg (by decide), if_neg (by decide), if_pos rfl]
    exact handle_deposit_not_found t acc_num pin_text amount hfind

/-! ## `close_account` -/

/-- C11: `close_account` called with the number of an active account but a PIN that none of the
active accounts with that number has, or with a number that no active account has, returns 1
and leaves the table unchanged; the server answers a `close` request of either kind with the
text `ERROR 1 Account not found or incorrect PIN.;` followed by a newline, and keeps the table
and the connection. -/
theorem close_account_wrong_pin_or_unknown (t : Table) (env : Env) (num : CString) (pin : Int)
    (received pin_text : CString)
    (hcase :
      ((∃ i, i < t.account_count ∧ (t.slot i).is_active ≠ 0 ∧
            (t.slot i).account_number = some num) ∧
          ∀ i, i < t.account_count → (t.slot i).is_active ≠ 0 →
            (t.slot i).account_number = some num → (t.slot i).pin ≠ pin) ∨
        (∀ i, i < t.account_count → (t.slot i).is_active ≠ 0 →
          (t.slot i).account_number ≠ some num))
    (hparse : parse_request received = some ("close".toList, [num, pin_text]))
    (hpin : atoi pin_text = pin) :
    close_account t num pin = (1, t) ∧
      handle_request t env received =
        { response := "ERROR 1 Account not found or incorrect PIN.;\n".toList, table := t,
          closed := false } := by
  have hfind := find_account_index_none_of_no_match t num pin
    (no_match_of_wrong_pin_or_unknown t num pin hcase)
  refine ⟨close_account_of_none t num pin hfind, ?_⟩
  subst hpin
  exact handle_request_not_found t env received _ num pin_text [] hparse
    (Or.inl ⟨Or.inl rfl, rfl⟩) hfind

/-- Witness for C11: on the sample table, a `close` with the right number and the PIN 9999, and
a `close` with the unknown number 555, get the same answer. -/
theorem close_account_wrong_pin_or_unknown_witness :
    (close_account (sample_table 1500) sample_number 9999 = (1, sample_table 1500) ∧
      handle_request (sample_table 1500) sample_env "CLOSE,1700000042,9999;".toList =
        { response := "ERROR 1 Account not found or incorrect PIN.;\n".toList,
          table := sample_table 1500, closed := false }) ∧
    (close_account (sample_table 1500) "555".toList 1111 = (1, sample_table 1500) ∧
      handle_request (sample_table 1500) sample_env "CLOSE,555,1111;".toList =
        { response := "ERROR 1 Account not found or incorrect PIN.;\n".toList,
          table := sample_table 1500, closed := false }) :=
  ⟨close_account_wrong_pin_or_unknown (sample_table 1500) sample_env sample_number 9999
      "CLOSE,1700000042,9999;".toList "9999".toList
      (Or.inl ⟨⟨0, by decide, by decide, by decide⟩, fun i hi _ _ => by
        have h0 : i = 0 := Nat.lt_one_iff.mp hi
        subst h0
        decide⟩)
      (by decide) (by decide),
    close_account_wrong_pin_or_unknown (sample_table 1500) sample_env "555".toList 1111
      "CLOSE,555,1111;".toList "1111".toList
      (Or.inr fun i hi _ => by
        have h0 : i = 0 := Nat.lt_one_iff.mp hi
        subst h0
        decide)
      (by decide) (by decide)⟩

/-- C12: when `(account_number, pin)` matches an active account, `close_account` returns 0, the
lowest-index matching slot becomes inactive with a null account number, and every other slot
and `account_count` are unchanged. -/
theorem close_account_matched (t : Table) (num : CString) (pin : Int)
    (hmatch : ∃ j, j < t.account_count ∧ (t.slot j).is_active ≠ 0 ∧
      (t.slot j).account_number = some num ∧ (t.slot j).pin = pin) :
    ∃ i, i < t.account_count ∧ account_matches (t.slot i) num pin = true ∧
      (∀ j, j < i → account_matches (t.slot j) num pin = false) ∧
      (close_account t num pin).1 = 0 ∧
      ((close_account t num pin).2.slot i).is_active = 0 ∧
      ((close_account t num pin).2.slot i).account_number = none ∧
      (∀ j, j ≠ i → (close_account t num pin).2.slot j = t.slot j) ∧
      (close_account t num pin).2.account_count = t.account_count := by
  obtain ⟨j, hj, hm⟩ := hmatch
  obtain ⟨i, hfind⟩ := find_account_index_isSome_of_match t num pin j hj
    ((account_matches_iff _ num pin).mpr hm)
  obtain ⟨hcount, hlen, hmi⟩ := find_account_index_some hfind
  refine ⟨i, hcount, hmi, find_account_index_lowest hfind, ?_⟩
  rw [close_account_of_find t num pin i hfind]
  refine ⟨rfl, ?_, ?_, ?_, rfl⟩
  · rw [slot_set_slot_same t i _ hlen]
  · rw [slot_set_slot_same t i _ hlen]
  · intro k hk
    exact slot_set_slot_ne t i k _ (Ne.symm hk)

/-- Witness for C12: closing the account of the sample table with its number and PIN. -/
theorem close_account_matched_witness :
    ∃ i, i < (sample_table 1500).account_count ∧
      account_matches ((sample_table 1500).slot i) sample_number 1111 = true ∧
      (∀ j, j < i → account_matches ((sample_table 1500).slot j) sample_number 1111 = false) ∧
      (close_account (sample_table 1500) sample_number 1111).1 = 0 ∧
      ((close_account (sample_table 1500) sample_number 1111).2.slot i).is_active = 0 ∧
      ((close_account (sample_table 1500) sample_number 1111).2.slot i).account_number = none ∧
      (∀ j, j ≠ i →
        (close_account (sample_table 1500) sample_number 1111).2.slot j =
          (sample_table 1500).slot j) ∧
      (close_account (sample_table 1500) sample_number 1111).2.account_count =
        (sample_table 1500).account_count :=
  close_account_matched (sample_table 1500) sample_number 1111
    ⟨0, by decide, by decide, by decide, by decide⟩

/-! ## Invariants of reachable tables -/

theorem Double.not_le_nan (x : Double) (s : Bool) : ¬ x ≤ Double.nan s := by
  rw [Double.le_iff]
  cases x <;> simp [Double.le]

theorem Double.le_add_of_le (b a : Double) (hb : 1000 ≤ b) (ha : 500 ≤ a) : 1000 ≤ b + a := by
  cases b with
  | nan s => exact absurd hb (Double.not_le_nan _ s)
  | neg_zero => exact absurd hb (by decide)
  | inf s =>
    cases s
    · cases a with
      | nan s => exact absurd ha (Double.not_le_nan _ s)
      | neg_zero => rfl
      | finite qa => rfl
      | inf s2 =>
        cases s2
        · rfl
        · exact absurd ha (by decide)
    · exact absurd hb (by decide)
  | finite qb =>
    cases a with
    | nan s => exact absurd ha (Double.not_le_nan _ s)
    | neg_zero => exact absurd ha (by decide)
    | inf s2 =>
      cases s2
      · rfl
      · exact absurd ha (by decide)
    | finite qa =>
      rw [Double.ofNat_eq, Double.finite_le_finite] at hb ha
      have h : ((1000 : Nat) : ℚ) ≤ qb + qa := by
        push_cast at hb ha ⊢
        linarith
      exact Double.le_finite_add_finite 1000 qb qa (by decide) (by decide) h

theorem Double.neg_is_nan (a : Double) : (-a).is_nan = a.is_nan := by
  cases a with
  | finite q =>
    show (if q.num = 0 then Double.neg_zero else Double.finite (-q)).is_nan = false
    split <;> rfl
  | neg_zero => rfl
  | inf s => rfl
  | nan s => rfl

/-- The difference of a value that is at least 1000 and of an amount that has passed the
remainder test of `withdraw` is not a NaN. -/
theorem Double.sub_is_nan_of_le (b a : Double) (hb : 1000 ≤ b)
    (hrem : Int.tmod (double_to_int a) 500 = 0) : (b - a).is_nan = false := by
  cases a with
  | nan s =>
    have h : double_to_int (Double.nan s) = INT_MIN := rfl
    rw [h] at hrem
    exact absurd hrem (by decide)
  | inf s =>
    have h : double_to_int (Double.inf s) = INT_MIN := rfl
    rw [h] at hrem
    exact absurd hrem (by decide)
  | neg_zero =>
    cases b with
    | nan s => exact absurd hb (Double.not_le_nan _ s)
    | neg_zero => rfl
    | inf s => rfl
    | finite qb =>
      show (Double.add (Double.finite qb) (Double.finite 0)).is_nan = false
      exact round_to_double_is_nan _ _ _
  | finite qa =>
    cases b with
    | nan s => exact absurd hb (Double.not_le_nan _ s)
    | neg_zero => exact absurd hb (by decide)
    | inf s =>
      show (Double.add (Double.inf s)
        (if qa.num = 0 then Double.neg_zero else Double.finite (-qa))).is_nan = false
      split <;> rfl
    | finite qb =>
      show (Double.add (Double.finite qb)
        (if qa.num = 0 then Double.neg_zero else Double.finite (-qa))).is_nan = false
      split
      · rfl
      · exact round_to_double_is_nan _ _ _

theorem minimum_balance_set_slot {t : Table} (h : t.MinimumBalance) (i : Nat) (a : Account)
    (ha : a.is_active ≠ 0 → 1000 ≤ a.balance) : (t.set_slot i a).MinimumBalance := by
  intro b hb
  rcases List.mem_or_eq_of_mem_set hb with hmem | rfl
  · exact h b hmem
  · exact ha

theorem minimum_balance_slot {t : Table} (h : t.MinimumBalance) (i : Nat)
    (hact : (t.slot i).is_active ≠ 0) : 1000 ≤ (t.slot i).balance := by
  by_cases hlen : i < t.accounts.length
  · have hget : t.accounts[i]? = some (t.accounts[i]) := List.getElem?_eq_getElem hlen
    rw [slot_of_getElem? t i _ hget] at hact ⊢
    exact h _ (List.getElem_mem hlen) hact
  · have hz : t.slot i = Account.zero := by
      simp [Table.slot, List.getD_eq_getElem?_getD, List.getElem?_eq_none (not_lt.mp hlen)]
    rw [hz] at hact
    exact absurd rfl hact

theorem minimum_balance_empty : Table.empty.MinimumBalance := by
  intro a ha hact
  simp only [Table.empty, List.mem_replicate] at ha
  rw [ha.2] at hact
  exact absurd rfl hact

/-- A call whose amount is not a NaN keeps every active balance at 1000 or more. -/
theorem minimum_balance_run {t : Table} (h : t.MinimumBalance) (c : Call)
    (hc : c.amount_is_number = true) : (c.run t).MinimumBalance := by
  cases c with
  | open_account env name national_id account_type initial_deposit pin =>
    simp only [Call.amount_is_number, Bool.not_eq_true'] at hc
    show (open_account t env name national_id account_type initial_deposit pin).2.MinimumBalance
    by_cases hd : initial_deposit < 1000
    · simp only [open_account, hd, if_true]
      exact h
    · cases hslot : find_free_slot t with
      | none =>
        simp only [open_account, hd, if_false, hslot]
        exact h
      | some idx =>
        obtain ⟨hidx, hlen, h0, _⟩ := find_free_slot_some hslot
        have hgen' := generate_account_number_set_slot_inactive t env idx
          { t.slot idx with
            name := strncpy_field MAX_NAME_LEN name
            national_id := strncpy_field MAX_ID_LEN national_id
            account_type := strncpy_field MAX_ACCOUNT_TYPE_LEN account_type } h0 h0
        cases hgen : generate_account_number t env with
        | none =>
          rw [hgen] at hgen'
          simp only [open_account, hd, if_false, hslot, hgen', slot_set_slot_same t idx _ hlen]
          refine minimum_balance_set_slot (minimum_balance_set_slot h idx _ ?_) idx _ ?_
          · intro hact
            exact absurd h0 hact
          · intro hact
            exact absurd rfl hact
        | some acc_num =>
          rw [open_account_eq_of_success t env name national_id account_type initial_deposit
            pin idx acc_num hd hslot hgen]
          refine minimum_balance_set_slot (t := { t with account_count := _ }) h idx _ ?_
          intro _
          exact Double.le_of_not_lt hd hc rfl
  | close_account account_number pin =>
    show (close_account t account_number pin).2.MinimumBalance
    unfold close_account
    cases hfind : find_account_index t account_number pin with
    | none => exact h
    | some i =>
      refine minimum_balance_set_slot h i _ ?_
      intro hact
      exact absurd rfl hact
  | deposit account_number pin amount =>
    simp only [Call.amount_is_number, Bool.not_eq_true'] at hc
    show (deposit t account_number pin amount).2.MinimumBalance
    unfold deposit
    cases hfind : find_account_index t account_number pin with
    | none => exact h
    | some i =>
      by_cases ha : amount < 500
      · simp only [ha, if_true]
        exact h
      · simp only [ha, if_false]
        refine minimum_balance_set_slot h i _ ?_
        intro hact
        exact Double.le_add_of_le _ _ (minimum_balance_slot h i hact)
          (Double.le_of_not_lt ha hc rfl)
  | withdraw account_number pin amount =>
    show (withdraw t account_number pin amount).2.MinimumBalance
    unfold withdraw
    cases hfind : find_account_index t account_number pin with
    | none => exact h
    | some i =>
      simp only
      split
      · exact h
      · rename_i hcheck
        split
        · exact h
        · rename_i hb
          refine minimum_balance_set_slot h i _ ?_
          intro hact
          have hrem : Int.tmod (double_to_int amount) 500 = 0 := by
            by_contra hne
            exact hcheck (Or.inl hne)
          exact Double.le_of_not_lt hb
            (Double.sub_is_nan_of_le _ _ (minimum_balance_slot h i hact) hrem) rfl

theorem minimum_balance_run_calls (calls : List Call) :
    ∀ t : Table, t.MinimumBalance → (∀ c ∈ calls, c.amount_is_number = true) →
      (run_calls t calls).MinimumBalance := by
  induction calls with
  | nil => intro t h _; exact h
  | cons c cs ih =>
    intro t h hnum
    exact ih (c.run t) (minimum_balance_run h c (hnum c (List.mem_cons_self _ _)))
      (fun c2 hc2 => hnum c2 (List.mem_cons_of_mem _ hc2))

/-- C13 (the code departs from it): `open_account` is meant to refuse a deposit below the
minimum of 1000, but its test `initial_deposit < 1000.0` is false for a NaN.  One call with a
NaN deposit on the empty table leaves an active account whose balance is the NaN, which is not
at least 1000; the request `OPEN,Bob,12345678,savings,nan,2222;` produces that table, and the
balance is then refused to its owner because `balance >= 0.0` is false. -/
theorem nan_deposit_opens_account :
    Reachable nan_table ∧ (nan_table.slot 0).is_active ≠ 0 ∧
      (nan_table.slot 0).balance = Double.nan false ∧
      ¬ (1000 ≤ (nan_table.slot 0).balance) ∧
      handle_request Table.empty sample_env "OPEN,Bob,12345678,savings,nan,2222;".toList =
        { response := "OK,Account Number:1700000042,PIN:2222;\n".toList,
          table := nan_table, closed := false } ∧
      (handle_request nan_table sample_env "BALANCE,1700000042,2222;".toList).response =
        "ERROR 1 Account not found or incorrect PIN.;\n".toList := by
  refine ⟨⟨_, rfl⟩, by decide, by decide, by decide, by decide, by decide⟩

/-- Apart from NaN amounts the minimum balance holds: in every table produced from the empty
table by calls of `open_account`, `close_account`, `deposit` and `withdraw` whose amounts are
not NaN, every active account has a balance of at least 1000; the rounding of the sums never
takes a balance below 1000. -/
theorem balance_at_least_1000_without_nan (calls : List Call) (i : Nat)
    (hnum : ∀ c ∈ calls, c.amount_is_number = true)
    (hact : ((run_calls Table.empty calls).slot i).is_active ≠ 0) :
    1000 ≤ ((run_calls Table.empty calls).slot i).balance :=
  minimum_balance_slot (minimum_balance_run_calls calls Table.empty minimum_balance_empty hnum)
    i hact

/-- An instance: the second account of the table reached by two openings. -/
theorem balance_at_least_1000_without_nan_sample :
    (∀ c ∈ [Call.open_account sample_env "Alice".toList "12345678".toList "savings".toList
          1500 1111,
        Call.open_account sample_env "Bob".toList "87654321".toList "checking".toList
          1000 2222], c.amount_is_number = true) ∧
      (two_accounts.slot 1).is_active ≠ 0 ∧ 1000 ≤ (two_accounts.slot 1).balance :=
  ⟨by decide, by decide,
    balance_at_least_1000_without_nan
      [Call.open_account sample_env "Alice".toList "12345678".toList "savings".toList 1500 1111,
       Call.open_account sample_env "Bob".toList "87654321".toList "checking".toList 1000 2222]
      1 (by decide) (by decide)⟩

theorem account_count_open_account (t : Table) (env : Env)
    (name national_id account_type : CString) (initial_deposit : Double) (pin : Int) :
    t.account_count ≤
      (open_account t env name national_id account_type initial_deposit pin).2.account_count := by
  unfold open_account
  split
  · exact le_refl _
  · split
    · exact le_refl _
    · simp only
      split
      · exact le_refl _
      · simp only [account_count_set_slot]
        split <;> omega

/-- C14: for every table and every call of `open_account`, `close_account`, `deposit` or
`withdraw`, successful or not, `account_count` after the call is at least `account_count`
before the call. -/
theorem account_count_never_decreases (t : Table) (c : Call) :
    t.account_count ≤ (c.run t).account_count := by
  cases c with
  | open_account env name national_id account_type initial_deposit pin =>
    exact account_count_open_account t env name national_id account_type initial_deposit pin
  | close_account account_number pin =>
    simp only [Call.run, close_account]
    split <;> exact le_refl _
  | deposit account_number pin amount =>
    simp only [Call.run, deposit]
    split
    · split <;> exact le_refl _
    · exact le_refl _
  | withdraw account_number pin amount =>
    simp only [Call.run, withdraw]
    split
    · split
      · exact le_refl _
      · split <;> exact le_refl _
    · exact le_refl _

/-! ## The wire format of the responses -/

/-- C15 (the code departs from it): three responses of the server do not end with a semicolon
followed by a newline: the answer to a request without terminating semicolon, the answer to an
`open` with an unknown account type, and the answer to an `open` that the account table
refuses (here a deposit of 999).  Each ends with a full stop and a newline. -/
theorem responses_without_semicolon :
    ((handle_request Table.empty sample_env "HELLO".toList).response =
        "ERROR Invalid protocol format: Missing terminating semicolon ';'.\n".toList ∧
      ¬ (";\n".toList <:+ (handle_request Table.empty sample_env "HELLO".toList).response)) ∧
    ((handle_request Table.empty sample_env
          "OPEN,Bob,12345678,current,1000,2222;".toList).response =
        "ERROR Invalid account type. Use 'savings' or 'checking'.\n".toList ∧
      ¬ (";\n".toList <:+ (handle_request Table.empty sample_env
          "OPEN,Bob,12345678,current,1000,2222;".toList).response)) ∧
    ((handle_request Table.empty sample_env
          "OPEN,Bob,12345678,savings,999,2222;".toList).response =
        ("ERROR 2 Failed to open account. National ID may already exist or invalid " ++
          "deposit amount.\n").toList ∧
      ¬ (";\n".toList <:+ (handle_request Table.empty sample_env
          "OPEN,Bob,12345678,savings,999,2222;".toList).response)) := by
  decide

/-! ## White space in requests -/

/-- C16 (the code departs from it): a space in front of the command or of an argument changes
the response.  `QUIT;` ends the connection, while the same request preceded by a space is
answered as an unknown command; `BALANCE,1700000042,1111;` returns the balance, while the same
request with a space in front of the account number is answered with the not-found error.
`trim_whitespace` leaves the leading space where it is. -/
theorem leading_space_changes_response :
    handle_request Table.empty sample_env "QUIT;".toList =
        { response := "OK,Connection terminated.;\n".toList, table := Table.empty,
          closed := true } ∧
      handle_request Table.empty sample_env " QUIT;".toList =
        { response := "ERROR Unknown command:  quit;\n".toList, table := Table.empty,
          closed := false } ∧
      handle_request (sample_table 1500) sample_env "BALANCE,1700000042,1111;".toList =
        { response := "OK,Balance:1500.00;\n".toList, table := sample_table 1500,
          closed := false } ∧
      handle_request (sample_table 1500) sample_env "BALANCE, 1700000042,1111;".toList =
        { response := "ERROR 1 Account not found or incorrect PIN.;\n".toList,
          table := sample_table 1500, closed := false } ∧
      trim_whitespace " QUIT".toList = " QUIT".toList := by
  decide

/-- White space after a token is removed: `QUIT` followed by a space and the semicolon, and by a
newline, is handled as `QUIT;`. -/
theorem trailing_space_is_trimmed :
    handle_request Table.empty sample_env "QUIT ;\n".toList =
      handle_request Table.empty sample_env "QUIT;".toList := by
  decide

/-! ## PIN arguments that are not numbers -/

/-- C17 (as stated, false): a table reached through the protocol by opening an account with the
PIN text `0000`, then a `close` request whose PIN argument is the non-numeric text `abcd`.  The
PIN converts to 0, the lookup succeeds, and the account is closed. -/
theorem non_numeric_pin_closes_account :
    (handle_client Table.empty
        [(sample_env, "OPEN,Bob,12345678,savings,1000,0000;".toList)]).1 =
        ["OK,Account Number:1700000042,PIN:0;\n".toList] ∧
      parse_request "CLOSE,1700000042,abcd;".toList =
        some ("close".toList, ["1700000042".toList, "abcd".toList]) ∧
      atoi "abcd".toList = 0 ∧
      (handle_request pin_zero_table sample_env "CLOSE,1700000042,abcd;".toList).response =
        "OK,Account 1700000042 closed successfully.;\n".toList ∧
      (pin_zero_table.slot 0).is_active = 1 ∧
      ((handle_request pin_zero_table sample_env
        "CLOSE,1700000042,abcd;".toList).table.slot 0).is_active = 0 := by
  decide

/-- C17 (amended): for every table and every `close`, `balance` or `statement` request with two
arguments, or `withdraw` or `deposit` request with three, whose PIN argument does not start
(after white space and a sign) with a digit, the PIN converts to 0; if no active account with
the given number has the PIN 0, the response is the not-found error and the table is
unchanged. -/
theorem non_numeric_pin_not_found (t : Table) (env : Env)
    (received command acc_num pin_text : CString) (rest : List CString)
    (hparse : parse_request received = some (command, acc_num :: pin_text :: rest))
    (hcmd :
      ((command = "close".toList ∨ command = "balance".toList ∨ command = "statement".toList) ∧
          rest = []) ∨
        ((command = "withdraw".toList ∨ command = "deposit".toList) ∧ ∃ amount, rest = [amount]))
    (hnon : (scan_d pin_text).1 = none)
    (hzero : ∀ i, i < t.account_count → (t.slot i).is_active ≠ 0 →
      (t.slot i).account_number = some acc_num → (t.slot i).pin ≠ 0) :
    atoi pin_text = 0 ∧
      handle_request t env received =
        { response := "ERROR 1 Account not found or incorrect PIN.;\n".toList, table := t,
          closed := false } := by
  have hatoi : atoi pin_text = 0 := by simp [atoi, hnon]
  refine ⟨hatoi, ?_⟩
  apply handle_request_not_found t env received command acc_num pin_text rest hparse hcmd
  rw [hatoi]
  apply find_account_index_none_of_no_match
  intro i hi
  rw [Bool.eq_false_iff]
  intro hm
  have h := (account_matches_iff _ acc_num 0).mp hm
  exact hzero i hi h.1 h.2.1 h.2.2

/-- Witness for C17 (amended): a withdrawal request with the PIN text `abcd` on the sample
table, whose only account has the PIN 1111. -/
theorem non_numeric_pin_not_found_witness :
    atoi "abcd".toList = 0 ∧
      handle_request (sample_table 1500) sample_env "WITHDRAW,1700000042,abcd,500;".toList =
        { response := "ERROR 1 Account not found or incorrect PIN.;\n".toList,
          table := sample_table 1500, closed := false } :=
  non_numeric_pin_not_found (sample_table 1500) sample_env
    "WITHDRAW,1700000042,abcd,500;".toList "withdraw".toList "1700000042".toList "abcd".toList
    ["500".toList] (by decide) (Or.inr ⟨Or.inl rfl, "500".toList, rfl⟩) (by decide)
    (fun i hi _ _ => by
      have h0 : i = 0 := Nat.lt_one_iff.mp hi
      subst h0
      decide)

/-! ## Requests that match no account -/

/-- C18: for every table and every `close`, `balance` or `statement` request with two arguments,
or `withdraw` or `deposit` request with three, whose account number and PIN match no active
account, the response is exactly `ERROR 1 Account not found or incorrect PIN.;` followed by a
newline, and the table is unchanged. -/
theorem request_without_match_not_found (t : Table) (env : Env)
    (received command acc_num pin_text : CString) (rest : List CString)
    (hparse : parse_request received = some (command, acc_num :: pin_text :: rest))
    (hcmd :
      ((command = "close".toList ∨ command = "balance".toList ∨ command = "statement".toList) ∧
          rest = []) ∨
        ((command = "withdraw".toList ∨ command = "deposit".toList) ∧ ∃ amount, rest = [amount]))
    (hno : ∀ i, i < t.account_count →
      ¬ ((t.slot i).is_active ≠ 0 ∧ (t.slot i).account_number = some acc_num ∧
        (t.slot i).pin = atoi pin_text)) :
    handle_request t env received =
      { response := "ERROR 1 Account not found or incorrect PIN.;\n".toList, table := t,
        closed := false } := by
  apply handle_request_not_found t env received command acc_num pin_text rest hparse hcmd
  apply find_account_index_none_of_no_match
  intro i hi
  rw [Bool.eq_false_iff]
  intro hm
  exact hno i hi ((account_matches_iff _ acc_num _).mp hm)

/-- Witness for C18: a statement request for an account number that the sample table does not
hold. -/
theorem request_without_match_not_found_witness :
    handle_request (sample_table 1500) sample_env "STATEMENT,999,1234;".toList =
      { response := "ERROR 1 Account not found or incorrect PIN.;\n".toList,
        table := sample_table 1500, closed := false } :=
  request_without_match_not_found (sample_table 1500) sample_env "STATEMENT,999,1234;".toList
    "statement".toList "999".toList "1234".toList [] (by decide)
    (Or.inl ⟨Or.inr (Or.inr rfl), rfl⟩)
    (fun i hi => by
      have h0 : i = 0 := Nat.lt_one_iff.mp hi
      subst h0
      decide)

/-! ## Requests without terminating semicolon, and unknown commands -/

/-- The protocol check fails exactly when the text without its trailing white space is empty or
does not end with a semicolon. -/
theorem parse_request_none_of_no_semicolon (received : CString)
    (hbad : received.rdropWhile is_space = [] ∨
      (received.rdropWhile is_space).getLast? ≠ some ';') :
    parse_request received = none := by
  unfold parse_request trim_whitespace
  by_cases hall : received.dropWhile is_space = []
  · simp only [hall, if_true]
    rw [if_pos]
    by_cases hnil : received = []
    · exact Or.inl hnil
    · right
      intro hlast
      have hmem : ';' ∈ received := List.mem_of_mem_getLast? hlast
      have hsp := (List.dropWhile_eq_nil_iff.mp hall) ';' hmem
      exact absurd hsp (by decide)
  · simp only [hall, if_false]
    rw [if_pos hbad]

theorem snprintf_format_error : snprintf RESPONSE_SIZE format_error = format_error := by
  decide

/-- C19: for every received text that, once its trailing white space is removed, is empty or
does not end with a semicolon, the server responds with the protocol-format error and leaves
the table unchanged; the handling loop continues, so the requests that follow are handled as if
they had come first. -/
theorem missing_semicolon_format_error (t : Table) (env : Env) (received : CString)
    (rest : List (Env × CString))
    (hbad : received.rdropWhile is_space = [] ∨
      (received.rdropWhile is_space).getLast? ≠ some ';') :
    handle_request t env received =
        { response :=
            "ERROR Invalid protocol format: Missing terminating semicolon ';'.\n".toList,
          table := t, closed := false } ∧
      handle_client t ((env, received) :: rest) =
        ("ERROR Invalid protocol format: Missing terminating semicolon ';'.\n".toList ::
            (handle_client t rest).1,
          (handle_client t rest).2) := by
  have hreq : handle_request t env received =
      { response := format_error, table := t, closed := false } := by
    simp only [handle_request, parse_request_none_of_no_semicolon received hbad,
      snprintf_format_error]
  refine ⟨hreq, ?_⟩
  simp only [handle_client, hreq]
  rfl

/-- Witness for C19: the text `BALANCE,1700000042,1111` without semicolon, followed by the same
request with its semicolon, which is then answered with the balance. -/
theorem missing_semicolon_format_error_witness :
    (handle_request (sample_table 1500) sample_env "BALANCE,1700000042,1111\n".toList =
        { response :=
            "ERROR Invalid protocol format: Missing terminating semicolon ';'.\n".toList,
          table := sample_table 1500, closed := false } ∧
      handle_client (sample_table 1500)
          [(sample_env, "BALANCE,1700000042,1111\n".toList),
            (sample_env, "BALANCE,1700000042,1111;\n".toList)] =
        ("ERROR Invalid protocol format: Missing terminating semicolon ';'.\n".toList ::
            (handle_client (sample_table 1500)
              [(sample_env, "BALANCE,1700000042,1111;\n".toList)]).1,
          (handle_client (sample_table 1500)
            [(sample_env, "BALANCE,1700000042,1111;\n".toList)]).2)) ∧
      (handle_client (sample_table 1500)
        [(sample_env, "BALANCE,1700000042,1111;\n".toList)]).1 = ["OK,Balance:1500.00;\n".toList] :=
  ⟨missing_semicolon_format_error (sample_table 1500) sample_env
      "BALANCE,1700000042,1111\n".toList [(sample_env, "BALANCE,1700000042,1111;\n".toList)]
      (Or.inr (by decide)),
    by decide⟩

/-- The command a request is parsed to fits in `command[50]`. -/
theorem length_command_of_parse_request (received command : CString) (args : List CString)
    (h : parse_request received = some (command, args)) : command.length ≤ 49 := by
  unfold parse_request at h
  split at h
  · cases h
  · simp only [Option.some.injEq] at h
    unfold parse_tokens at h
    split at h
    · simp only [Prod.mk.injEq] at h
      rw [← h.1]
      exact Nat.zero_le _
    · simp only [Prod.mk.injEq] at h
      rw [← h.1, to_lowercase, List.length_map]
      exact List.length_take_le _ _

/-- C20: for every semicolon-terminated request whose command, once lowercased, is none of
`open`, `close`, `withdraw`, `deposit`, `balance`, `statement` and `quit`, the response is
exactly `ERROR Unknown command: ` followed by the lowercased command, a semicolon and a newline;
the table is unchanged and the connection stays open. -/
theorem unknown_command_response (t : Table) (env : Env) (received command : CString)
    (args : List CString) (hparse : parse_request received = some (command, args))
    (hunknown : command ∉ ["open".toList, "close".toList, "withdraw".toList, "deposit".toList,
      "balance".toList, "statement".toList, "quit".toList]) :
    handle_request t env received =
      { response := "ERROR Unknown command: ".toList ++ command ++ ";\n".toList, table := t,
        closed := false } := by
  have hlen := length_command_of_parse_request received command args hparse
  simp only [List.mem_cons, List.mem_singleton, not_or, List.not_mem_nil, not_false_eq_true,
    and_true] at hunknown
  obtain ⟨h1, h2, h3, h4, h5, h6, h7⟩ := hunknown
  simp only [handle_request, hparse, handle_command, h1, h2, h3, h4, h5, h6, h7, if_false]
  have hfit : ("ERROR Unknown command: ".toList ++ command ++ ";\n".toList).length ≤
      RESPONSE_SIZE - 1 := by
    simp only [List.length_append]
    have h23 : "ERROR Unknown command: ".toList.length = 23 := by decide
    have h2 : ";\n".toList.length = 2 := by decide
    have hsize : RESPONSE_SIZE - 1 = 2047 := by decide
    rw [h23, h2, hsize]
    omega
  simp only [snprintf, List.take_of_length_le hfit]

/-- Witness for C20: the request `FOO;`. -/
theorem unknown_command_response_witness :
    handle_request (sample_table 1500) sample_env "FOO;".toList =
      { response := "ERROR Unknown command: ".toList ++ "foo".toList ++ ";\n".toList,
        table := sample_table 1500, closed := false } :=
  unknown_command_response (sample_table 1500) sample_env "FOO;".toList "foo".toList []
    (by decide) (by decide)

/-! ## What a successful deposit or withdrawal leaves untouched -/

/-- C29: a deposit or withdrawal that returns 0 changes only the balance and the transaction
log of the matched slot: every other slot, the name, national id, account type, account number,
PIN and `is_active` of the matched slot, and `account_count` are unchanged. -/
theorem successful_movement_frame (t : Table) (num : CString) (pin : Int) (m : Movement)
    (hok : (m.perform t num pin).1 = 0) :
    ∃ i, find_account_index t num pin = some i ∧
      (∀ j, j ≠ i → (m.perform t num pin).2.slot j = t.slot j) ∧
      ((m.perform t num pin).2.slot i).name = (t.slot i).name ∧
      ((m.perform t num pin).2.slot i).national_id = (t.slot i).national_id ∧
      ((m.perform t num pin).2.slot i).account_type = (t.slot i).account_type ∧
      ((m.perform t num pin).2.slot i).account_number = (t.slot i).account_number ∧
      ((m.perform t num pin).2.slot i).pin = (t.slot i).pin ∧
      ((m.perform t num pin).2.slot i).is_active = (t.slot i).is_active ∧
      (m.perform t num pin).2.account_count = t.account_count := by
  cases hfind : find_account_index t num pin with
  | none =>
    cases m with
    | deposit amount => simp [Movement.perform, deposit, hfind] at hok
    | withdraw amount => simp [Movement.perform, withdraw, hfind] at hok
  | some i =>
    have hlen := (find_account_index_some hfind).2.1
    have key : ∀ (balance x : Double),
        (∀ j, j ≠ i →
          (t.set_slot i
            { t.slot i with
              balance := balance
              statement := record_transaction (t.slot i).statement x }).slot j = t.slot j) ∧
        ((t.set_slot i
            { t.slot i with
              balance := balance
              statement := record_transaction (t.slot i).statement x }).slot i) =
          { t.slot i with
            balance := balance, statement := record_transaction (t.slot i).statement x } := by
      intro balance x
      exact ⟨fun j hj => slot_set_slot_ne t i j _ (Ne.symm hj), slot_set_slot_same t i _ hlen⟩
    cases m with
    | deposit amount =>
      simp only [Movement.perform, deposit, hfind] at hok ⊢
      by_cases ha : amount < 500
      · simp [ha] at hok
      · simp only [ha, if_false]
        obtain ⟨h1, h2⟩ := key ((t.slot i).balance + amount) amount
        refine ⟨i, rfl, h1, ?_, ?_, ?_, ?_, ?_, ?_, rfl⟩ <;> rw [h2]
    | withdraw amount =>
      simp only [Movement.perform, withdraw, hfind] at hok ⊢
      by_cases hc : Int.tmod (double_to_int amount) 500 ≠ 0 ∨ amount ≤ 0
      · simp [hc] at hok
      · by_cases hb : (t.slot i).balance - amount < 1000
        · simp [hc, hb] at hok
        · simp only [hc, hb, if_false]
          obtain ⟨h1, h2⟩ := key ((t.slot i).balance - amount) (-amount)
          refine ⟨i, rfl, h1, ?_, ?_, ?_, ?_, ?_, ?_, rfl⟩ <;> rw [h2]

/-- Witness for C29: a deposit of 500 on the sample table. -/
theorem successful_movement_frame_witness :
    ∃ i, find_account_index (sample_table 1500) sample_number 1111 = some i ∧
      (∀ j, j ≠ i →
        ((Movement.deposit 500).perform (sample_table 1500) sample_number 1111).2.slot j =
          (sample_table 1500).slot j) ∧
      (((Movement.deposit 500).perform (sample_table 1500) sample_number 1111).2.slot i).name =
        ((sample_table 1500).slot i).name ∧
      (((Movement.deposit 500).perform (sample_table 1500) sample_number
        1111).2.slot i).national_id = ((sample_table 1500).slot i).national_id ∧
      (((Movement.deposit 500).perform (sample_table 1500) sample_number
        1111).2.slot i).account_type = ((sample_table 1500).slot i).account_type ∧
      (((Movement.deposit 500).perform (sample_table 1500) sample_number
        1111).2.slot i).account_number = ((sample_table 1500).slot i).account_number ∧
      (((Movement.deposit 500).perform (sample_table 1500) sample_number 1111).2.slot i).pin =
        ((sample_table 1500).slot i).pin ∧
      (((Movement.deposit 500).perform (sample_table 1500) sample_number
        1111).2.slot i).is_active = ((sample_table 1500).slot i).is_active ∧
      ((Movement.deposit 500).perform (sample_table 1500) sample_number 1111).2.account_count =
        (sample_table 1500).account_count :=
  successful_movement_frame (sample_table 1500) sample_number 1111 (Movement.deposit 500)
    (by decide)

/-! ## The text fields stored by `open_account` -/

/-- An `open_account` call that returns an active account has passed the deposit test, found
a free slot and obtained a number. -/
theorem open_account_active (t : Table) (env : Env) (name national_id account_type : CString)
    (d : Double) (pin : Int)
    (h : (open_account t env name national_id account_type d pin).1.is_active ≠ 0) :
    ∃ idx num, ¬ d < 1000 ∧ find_free_slot t = some idx ∧
      generate_account_number t env = some num := by
  by_cases hd : d < 1000
  · simp [open_account, hd, Account.zero] at h
  · cases hslot : find_free_slot t with
    | none => simp [open_account, hd, hslot, Account.zero] at h
    | some idx =>
      obtain ⟨_, _, h0, _⟩ := find_free_slot_some hslot
      have hgen' := generate_account_number_set_slot_inactive t env idx
        { t.slot idx with
          name := strncpy_field MAX_NAME_LEN name
          national_id := strncpy_field MAX_ID_LEN national_id
          account_type := strncpy_field MAX_ACCOUNT_TYPE_LEN account_type } h0 h0
      cases hgen : generate_account_number t env with
      | none =>
        rw [hgen] at hgen'
        simp [open_account, hd, hslot, hgen', Account.zero] at h
      | some num => exact ⟨idx, num, hd, rfl, rfl⟩

/-- C27: for every successful `open_account` call, the stored name is the first 49 characters
of the supplied name, the stored national id the first 19 characters of the supplied id and the
stored account type the first 9 characters of the supplied type, each unchanged when it is
within its limit; the slot that holds the account carries these fields. -/
theorem open_account_truncates_fields (t : Table) (env : Env)
    (name national_id account_type : CString) (d : Double) (pin : Int)
    (hok : (open_account t env name national_id account_type d pin).1.is_active ≠ 0) :
    (open_account t env name national_id account_type d pin).1.name = name.take 49 ∧
      (open_account t env name national_id account_type d pin).1.national_id =
        national_id.take 19 ∧
      (open_account t env name national_id account_type d pin).1.account_type =
        account_type.take 9 ∧
      (∃ idx, (open_account t env name national_id account_type d pin).2.slot idx =
        (open_account t env name national_id account_type d pin).1) ∧
      (name.length ≤ 49 →
        (open_account t env name national_id account_type d pin).1.name = name) ∧
      (national_id.length ≤ 19 →
        (open_account t env name national_id account_type d pin).1.national_id = national_id) ∧
      (account_type.length ≤ 9 →
        (open_account t env name national_id account_type d pin).1.account_type =
          account_type) := by
  obtain ⟨idx, num, hd, hslot, hgen⟩ :=
    open_account_active t env name national_id account_type d pin hok
  have hlen := (find_free_slot_some hslot).2.1
  rw [open_account_eq_of_success t env name national_id account_type d pin idx num hd hslot hgen]
  refine ⟨rfl, rfl, rfl, ⟨idx, ?_⟩, ?_, ?_, ?_⟩
  · simp [Table.slot, List.getD_eq_getElem?_getD, List.getElem?_set, hlen]
  · intro h
    exact List.take_of_length_le h
  · intro h
    exact List.take_of_length_le h
  · intro h
    exact List.take_of_length_le h

/-- Witness for C27: an opening with a name of 60 characters, of which 49 are stored. -/
theorem open_account_truncates_fields_witness :
    (open_account Table.empty sample_env (List.replicate 60 'x') "12345678".toList
        "savings".toList 1000 1111).1.name = (List.replicate 60 'x').take 49 ∧
      (open_account Table.empty sample_env (List.replicate 60 'x') "12345678".toList
        "savings".toList 1000 1111).1.national_id = "12345678".toList.take 19 ∧
      (open_account Table.empty sample_env (List.replicate 60 'x') "12345678".toList
        "savings".toList 1000 1111).1.account_type = "savings".toList.take 9 ∧
      (∃ idx, (open_account Table.empty sample_env (List.replicate 60 'x') "12345678".toList
          "savings".toList 1000 1111).2.slot idx =
        (open_account Table.empty sample_env (List.replicate 60 'x') "12345678".toList
          "savings".toList 1000 1111).1) ∧
      ((List.replicate 60 'x').length ≤ 49 →
        (open_account Table.empty sample_env (List.replicate 60 'x') "12345678".toList
          "savings".toList 1000 1111).1.name = List.replicate 60 'x') ∧
      ("12345678".toList.length ≤ 19 →
        (open_account Table.empty sample_env (List.replicate 60 'x') "12345678".toList
          "savings".toList 1000 1111).1.national_id = "12345678".toList) ∧
      ("savings".toList.length ≤ 9 →
        (open_account Table.empty sample_env (List.replicate 60 'x') "12345678".toList
          "savings".toList 1000 1111).1.account_type = "savings".toList) :=
  open_account_truncates_fields Table.empty sample_env (List.replicate 60 'x')
    "12345678".toList "savings".toList 1000 1111 (by decide)

/-! ## The generator when every candidate is taken -/

/-- The generator returns `NULL` exactly when each of the candidates of the attempts it has
left is in use. -/
theorem generate_account_number_loop_eq_none_iff (t : Table) (env : Env) :
    ∀ remaining attempts, generate_account_number_loop t env remaining attempts = none ↔
      ∀ k, k < remaining → number_in_use t (candidate_number env (attempts + k)) = true := by
  intro remaining
  induction remaining with
  | zero =>
    intro attempts
    simp [generate_account_number_loop]
  | succ n ih =>
    intro attempts
    simp only [generate_account_number_loop]
    by_cases hc : number_in_use t (candidate_number env attempts) = true
    · have hc' : number_in_use t
          (render_lld (env.time attempts + ((env.rand attempts : Int) % 100000) + attempts)) =
          true := hc
      simp only [hc', if_true]
      rw [ih (attempts + 1)]
      constructor
      · intro h k hk
        cases k with
        | zero => simpa using hc
        | succ k =>
          have := h k (by omega)
          rwa [show attempts + 1 + k = attempts + (k + 1) by omega] at this
      · intro h k hk
        have := h (k + 1) (by omega)
        rwa [show attempts + (k + 1) = attempts + 1 + k by omega] at this
    · have hc' : ¬ number_in_use t
          (render_lld (env.time attempts + ((env.rand attempts : Int) % 100000) + attempts)) =
          true := hc
      simp only [hc', if_false]
      constructor
      · intro h; cases h
      · intro h
        exact absurd (by simpa using h 0 (by omega)) hc

/-- The function `generate_account_number` returns `NULL` exactly when all 100 candidates are in
use: it gives up after attempt number 99 and not before. -/
theorem generate_account_number_eq_none_iff (t : Table) (env : Env) :
    generate_account_number t env = none ↔
      ∀ k, k < 100 → number_in_use t (candidate_number env k) = true := by
  unfold generate_account_number
  rw [generate_account_number_loop_eq_none_iff t env 100 0]
  simp

/-- The result of `open_account` when the deposit test has passed, the slot search has returned
`idx` and the generator has returned `NULL`. -/
theorem open_account_eq_of_no_number (t : Table) (env : Env)
    (name national_id account_type : CString) (initial_deposit : Double) (pin : Int) (idx : Nat)
    (hd : ¬ initial_deposit < 1000) (hslot : find_free_slot t = some idx)
    (hgen : generate_account_number t env = none) :
    open_account t env name national_id account_type initial_deposit pin =
      (Account.zero,
        t.set_slot idx
          { t.slot idx with
            name := strncpy_field MAX_NAME_LEN name
            national_id := strncpy_field MAX_ID_LEN national_id
            account_type := strncpy_field MAX_ACCOUNT_TYPE_LEN account_type
            account_number := none
            is_active := 0 }) := by
  obtain ⟨_, hlen, h0, _⟩ := find_free_slot_some hslot
  have hgen' := generate_account_number_set_slot_inactive t env idx
    { t.slot idx with
      name := strncpy_field MAX_NAME_LEN name
      national_id := strncpy_field MAX_ID_LEN national_id
      account_type := strncpy_field MAX_ACCOUNT_TYPE_LEN account_type } h0 h0
  rw [hgen] at hgen'
  simp only [open_account, hd, if_false, hslot, hgen', slot_set_slot_same t idx _ hlen]
  simp [Table.set_slot]

/-- The loop of the generator returns the first candidate that is not in use, when there is
one among the attempts left. -/
theorem generate_account_number_loop_eq_some (t : Table) (env : Env) :
    ∀ (remaining attempts k : Nat), k < remaining →
      (∀ k2, k2 < k → number_in_use t (candidate_number env (attempts + k2)) = true) →
      number_in_use t (candidate_number env (attempts + k)) = false →
      generate_account_number_loop t env remaining attempts =
        some (candidate_number env (attempts + k)) := by
  intro remaining
  induction remaining with
  | zero => intro attempts k hk; omega
  | succ n ih =>
    intro attempts k hk hbefore hfree
    simp only [generate_account_number_loop]
    cases k with
    | zero =>
      have hc : number_in_use t
          (render_lld (env.time attempts + ((env.rand attempts : Int) % 100000) + attempts)) =
          false := hfree
      simp only [hc, Bool.false_eq_true, if_false]
      rfl
    | succ k =>
      have hc : number_in_use t
          (render_lld (env.time attempts + ((env.rand attempts : Int) % 100000) + attempts)) =
          true := hbefore 0 (by omega)
      simp only [hc, if_true]
      have := ih (attempts + 1) k (by omega)
        (fun k2 hk2 => by
          have h := hbefore (k2 + 1) (by omega)
          rwa [show attempts + (k2 + 1) = attempts + 1 + k2 by omega] at h)
        (by rwa [show attempts + (k + 1) = attempts + 1 + k by omega] at hfree)
      rwa [show attempts + 1 + k = attempts + (k + 1) by omega] at this

/-- C28: on a table with an inactive slot, with an initial deposit of at least 1000.  The
generator tries the candidates of attempts 0 to 99 in order: it returns the first one that is
not in use, and it returns `NULL` exactly when all 100 are in use, so only after 100 attempts.
If each of the 100 candidates is the number of an active account below `account_count`, then
`generate_account_number` returns `NULL`, `open_account` returns an inactive account, the
selected slot, which is the lowest inactive one, stays inactive, and every active account and
`account_count` are unchanged. -/
theorem open_account_generator_exhausted (t : Table) (env : Env)
    (name national_id account_type : CString) (initial_deposit : Double) (pin : Int) (hwf : t.WF)
    (hfree : ∃ j, j < MAX_ACCOUNTS ∧ (t.slot j).is_active = 0) (hd : 1000 ≤ initial_deposit) :
    (generate_account_number t env = none ↔
        ∀ k, k < 100 → number_in_use t (candidate_number env k) = true) ∧
      (∀ k, k < 100 → (∀ k2, k2 < k → number_in_use t (candidate_number env k2) = true) →
        number_in_use t (candidate_number env k) = false →
        generate_account_number t env = some (candidate_number env k)) ∧
      ((∀ k, k < 100 → ∃ j, j < t.account_count ∧ (t.slot j).is_active ≠ 0 ∧
          (t.slot j).account_number = some (candidate_number env k)) →
        generate_account_number t env = none ∧
        (open_account t env name national_id account_type initial_deposit pin).1.is_active = 0 ∧
        (∃ idx, idx < MAX_ACCOUNTS ∧ (t.slot idx).is_active = 0 ∧
          (∀ j, j < idx → (t.slot j).is_active ≠ 0) ∧
          ((open_account t env name national_id account_type initial_deposit pin).2.slot
            idx).is_active = 0) ∧
        (∀ j, (t.slot j).is_active ≠ 0 →
          (open_account t env name national_id account_type initial_deposit pin).2.slot j =
            t.slot j) ∧
        (open_account t env name national_id account_type initial_deposit pin).2.account_count =
          t.account_count) := by
  refine ⟨generate_account_number_eq_none_iff t env, ?_, ?_⟩
  · intro k hk hbefore hfree2
    have h := generate_account_number_loop_eq_some t env 100 0 k hk
      (fun k2 hk2 => by simpa using hbefore k2 hk2) (by simpa using hfree2)
    simpa [generate_account_number] using h
  intro hall
  have hgen : generate_account_number t env = none := by
    rw [generate_account_number_eq_none_iff]
    intro k hk
    obtain ⟨j, hj, hact, hnum⟩ := hall k hk
    rw [number_in_use_iff]
    have hlen : j < t.accounts.length := by
      by_contra hge
      have hz : t.slot j = Account.zero := by
        simp [Table.slot, List.getD_eq_getElem?_getD, List.getElem?_eq_none (not_lt.mp hge)]
      rw [hz] at hact
      exact hact rfl
    have hget : t.accounts[j]? = some (t.accounts[j]) := List.getElem?_eq_getElem hlen
    rw [slot_of_getElem? t j _ hget] at hact hnum
    exact ⟨j, _, hj, hget, hact, hnum⟩
  obtain ⟨j, hj, hj0⟩ := hfree
  have hjlen : j < t.accounts.length := by rw [hwf.length_accounts]; exact hj
  have hget : t.accounts[j]? = some (t.accounts[j]) := List.getElem?_eq_getElem hjlen
  have hmem : t.accounts[j] ∈ t.accounts.take MAX_ACCOUNTS :=
    List.mem_iff_getElem?.mpr ⟨j, by simp [List.getElem?_take, hj, hget]⟩
  obtain ⟨idx, hidx⟩ := find_free_slot_loop_isSome (t.accounts.take MAX_ACCOUNTS) 0
    ⟨t.accounts[j], hmem, by rw [← slot_of_getElem? t j _ hget]; exact hj0⟩
  obtain ⟨h1, hlen, h0, hlow⟩ := find_free_slot_some hidx
  refine ⟨hgen, ?_⟩
  rw [open_account_eq_of_no_number t env name national_id account_type initial_deposit pin idx
    (Double.not_lt_of_le hd) hidx hgen]
  refine ⟨rfl, ⟨idx, h1, h0, hlow, ?_⟩, ?_, rfl⟩
  · rw [slot_set_slot_same t idx _ hlen]
  · intro k hk
    have hne : idx ≠ k := by
      intro h
      rw [h] at h0
      exact hk h0
    exact slot_set_slot_ne t idx k _ hne

theorem stuck_env_candidate (k : Nat) : candidate_number stuck_env k = sample_number := by
  have h : (1700000042 - (k : Int) + (((0 : Nat) : Int) % 100000) + k) = 1700000042 := by
    simp
  simp only [candidate_number, stuck_env, h]
  decide

/-- Witness for C28: on the sample table, a generator run whose 100 candidates all equal the
number of the account in slot 0, so that the opening fails; and a run whose first candidate is
that number and whose second candidate is free, which returns the second candidate. -/
theorem open_account_generator_exhausted_witness :
    (generate_account_number (sample_table 1500) stuck_env = none ∧
      (open_account (sample_table 1500) stuck_env "Bob".toList "87654321".toList
        "checking".toList 1000 2222).1.is_active = 0 ∧
      (∃ idx, idx < MAX_ACCOUNTS ∧ ((sample_table 1500).slot idx).is_active = 0 ∧
        (∀ j, j < idx → ((sample_table 1500).slot j).is_active ≠ 0) ∧
        ((open_account (sample_table 1500) stuck_env "Bob".toList "87654321".toList
          "checking".toList 1000 2222).2.slot idx).is_active = 0) ∧
      (∀ j, ((sample_table 1500).slot j).is_active ≠ 0 →
        (open_account (sample_table 1500) stuck_env "Bob".toList "87654321".toList
          "checking".toList 1000 2222).2.slot j = (sample_table 1500).slot j) ∧
      (open_account (sample_table 1500) stuck_env "Bob".toList "87654321".toList
        "checking".toList 1000 2222).2.account_count = (sample_table 1500).account_count) ∧
      generate_account_number (sample_table 1500) sample_env =
        some (candidate_number sample_env 1) ∧
      candidate_number sample_env 1 = "1700000043".toList :=
  ⟨(open_account_generator_exhausted (sample_table 1500) stuck_env "Bob".toList
      "87654321".toList "checking".toList 1000 2222 (sample_table_wf 1500) ⟨1, by decide, rfl⟩
      (by decide)).2.2
      (fun k _ => ⟨0, by decide, by decide, by rw [stuck_env_candidate]; rfl⟩),
    (open_account_generator_exhausted (sample_table 1500) sample_env "Bob".toList
      "87654321".toList "checking".toList 1000 2222 (sample_table_wf 1500) ⟨1, by decide, rfl⟩
      (by decide)).2.1 1 (by decide)
      (fun k2 hk2 => by
        have h0 : k2 = 0 := by omega
        subst h0
        decide)
      (by decide),
    by decide⟩

/-! ## The account type of an `open` request -/

theorem handle_request_open (t : Table) (env : Env) (received : CString) (args : List CString)
    (hparse : parse_request received = some ("open".toList, args)) :
    handle_request t env received = handle_open t env args := by
  simp only [handle_request, hparse, handle_command, if_true]

/-- C22: for every `open` request with five arguments, if the account type, lowercased, is
neither `savings` nor `checking`, the server answers with the invalid-account-type error and
the table is unchanged; if it is one of them, `open_account` is called with the lowercase form,
and the account it opens is stored with exactly that type, `savings` or `checking`. -/
theorem open_request_account_type (t : Table) (env : Env)
    (received name national_id account_type initial_deposit pin : CString)
    (hparse : parse_request received =
      some ("open".toList, [name, national_id, account_type, initial_deposit, pin])) :
    ((to_lowercase account_type ≠ "savings".toList ∧
        to_lowercase account_type ≠ "checking".toList) →
      handle_request t env received =
        { response := "ERROR Invalid account type. Use 'savings' or 'checking'.\n".toList,
          table := t, closed := false }) ∧
    ((to_lowercase account_type = "savings".toList ∨
        to_lowercase account_type = "checking".toList) →
      (handle_request t env received).table =
        (open_account t env name national_id (to_lowercase account_type) (atof initial_deposit)
          (atoi pin)).2 ∧
      ((open_account t env name national_id (to_lowercase account_type) (atof initial_deposit)
          (atoi pin)).1.is_active ≠ 0 →
        (open_account t env name national_id (to_lowercase account_type) (atof initial_deposit)
          (atoi pin)).1.account_type = to_lowercase account_type ∧
        ((open_account t env name national_id (to_lowercase account_type)
            (atof initial_deposit) (atoi pin)).1.account_type = "savings".toList ∨
          (open_account t env name national_id (to_lowercase account_type)
            (atof initial_deposit) (atoi pin)).1.account_type = "checking".toList) ∧
        ∃ idx, (handle_request t env received).table.slot idx =
          (open_account t env name national_id (to_lowercase account_type)
            (atof initial_deposit) (atoi pin)).1)) := by
  rw [handle_request_open t env received _ hparse]
  constructor
  · intro hbad
    simp only [handle_open]
    rw [if_pos hbad]
    rfl
  · intro hgood
    have hnot : ¬ (to_lowercase account_type ≠ "savings".toList ∧
        to_lowercase account_type ≠ "checking".toList) := by
      rintro ⟨h1, h2⟩
      rcases hgood with h | h
      · exact h1 h
      · exact h2 h
    have htable : (handle_open t env [name, national_id, account_type, initial_deposit,
        pin]).table =
        (open_account t env name national_id (to_lowercase account_type) (atof initial_deposit)
          (atoi pin)).2 := by
      simp only [handle_open]
      rw [if_neg hnot]
      split <;> rfl
    refine ⟨htable, ?_⟩
    intro hact
    rw [htable]
    obtain ⟨h1, h2, h3, hslot, h5, h6, h7⟩ :=
      (show _ ∧ _ ∧ _ ∧ _ ∧ _ ∧ _ ∧ _ from by
        obtain ⟨idx, num, hd, hs, hgen⟩ :=
          open_account_active t env name national_id (to_lowercase account_type)
            (atof initial_deposit) (atoi pin) hact
        have hlen := (find_free_slot_some hs).2.1
        rw [open_account_eq_of_success t env name national_id (to_lowercase account_type)
          (atof initial_deposit) (atoi pin) idx num hd hs hgen]
        exact ⟨rfl, rfl, rfl,
          (⟨idx, by simp [Table.slot, List.getD_eq_getElem?_getD, List.getElem?_set, hlen]⟩ :
            ∃ idx, Table.slot _ idx = _), trivial, trivial, trivial⟩ :
        (open_account t env name national_id (to_lowercase account_type) (atof initial_deposit)
            (atoi pin)).1.name = strncpy_field MAX_NAME_LEN name ∧
          (open_account t env name national_id (to_lowercase account_type)
            (atof initial_deposit) (atoi pin)).1.national_id =
              strncpy_field MAX_ID_LEN national_id ∧
          (open_account t env name national_id (to_lowercase account_type)
            (atof initial_deposit) (atoi pin)).1.account_type =
              strncpy_field MAX_ACCOUNT_TYPE_LEN (to_lowercase account_type) ∧
          (∃ idx, (open_account t env name national_id (to_lowercase account_type)
              (atof initial_deposit) (atoi pin)).2.slot idx =
            (open_account t env name national_id (to_lowercase account_type)
              (atof initial_deposit) (atoi pin)).1) ∧ True ∧ True ∧ True)
    have htype : (open_account t env name national_id (to_lowercase account_type)
        (atof initial_deposit) (atoi pin)).1.account_type = to_lowercase account_type := by
      rw [h3]
      rcases hgood with h | h <;> rw [h] <;> decide
    refine ⟨htype, ?_, hslot⟩
    rw [htype]
    exact hgood

/-- Witness for C22: an `open` with the type written `SaVings`, which opens an account stored
with the type `savings`, and one with the type `current`, which is refused. -/
theorem open_request_account_type_witness :
    ((handle_request Table.empty sample_env "OPEN,Bob,12345678,SaVings,1000,2222;".toList).table =
        (open_account Table.empty sample_env "Bob".toList "12345678".toList
          (to_lowercase "SaVings".toList) (atof "1000".toList) (atoi "2222".toList)).2 ∧
      (open_account Table.empty sample_env "Bob".toList "12345678".toList
          (to_lowercase "SaVings".toList) (atof "1000".toList)
          (atoi "2222".toList)).1.is_active ≠ 0 ∧
      ((open_account Table.empty sample_env "Bob".toList "12345678".toList
          (to_lowercase "SaVings".toList) (atof "1000".toList)
          (atoi "2222".toList)).1.account_type = to_lowercase "SaVings".toList ∧
        ((open_account Table.empty sample_env "Bob".toList "12345678".toList
            (to_lowercase "SaVings".toList) (atof "1000".toList)
            (atoi "2222".toList)).1.account_type = "savings".toList ∨
          (open_account Table.empty sample_env "Bob".toList "12345678".toList
            (to_lowercase "SaVings".toList) (atof "1000".toList)
            (atoi "2222".toList)).1.account_type = "checking".toList) ∧
        ∃ idx, (handle_request Table.empty sample_env
            "OPEN,Bob,12345678,SaVings,1000,2222;".toList).table.slot idx =
          (open_account Table.empty sample_env "Bob".toList "12345678".toList
            (to_lowercase "SaVings".toList) (atof "1000".toList) (atoi "2222".toList)).1) ∧
      ((handle_request Table.empty sample_env
          "OPEN,Bob,12345678,SaVings,1000,2222;".toList).table.slot 0).is_active = 1 ∧
      ((handle_request Table.empty sample_env
          "OPEN,Bob,12345678,SaVings,1000,2222;".toList).table.slot 0).account_type =
        "savings".toList) ∧
    handle_request Table.empty sample_env "OPEN,Bob,12345678,current,1000,2222;".toList =
      { response := "ERROR Invalid account type. Use 'savings' or 'checking'.\n".toList,
        table := Table.empty, closed := false } :=
  ⟨⟨((open_request_account_type Table.empty sample_env
        "OPEN,Bob,12345678,SaVings,1000,2222;".toList "Bob".toList "12345678".toList
        "SaVings".toList "1000".toList "2222".toList (by decide)).2 (Or.inl (by decide))).1,
      by decide,
      ((open_request_account_type Table.empty sample_env
        "OPEN,Bob,12345678,SaVings,1000,2222;".toList "Bob".toList "12345678".toList
        "SaVings".toList "1000".toList "2222".toList (by decide)).2 (Or.inl (by decide))).2
        (by decide),
      by decide, by decide⟩,
    (open_request_account_type Table.empty sample_env
      "OPEN,Bob,12345678,current,1000,2222;".toList "Bob".toList "12345678".toList
      "current".toList "1000".toList "2222".toList (by decide)).1 ⟨by decide, by decide⟩⟩

/-! ## Loading a file -/

/-- C25 (the code departs from it): loading the file `1\n1\n` into the empty table, a file that
ends after the active flag of its first record, returns 0 and leaves slot 0 active with a null
account number while `account_count` is 0: the flag is stored before the name is read, and the
`break` taken when `fgets` finds the end of the file does not reset it. -/
theorem load_truncated_file_active_without_number :
    (load_accounts_from_file Table.empty (some truncated_file)).1 = 0 ∧
      ((load_accounts_from_file Table.empty (some truncated_file)).2.slot 0).is_active = 1 ∧
      ((load_accounts_from_file Table.empty (some truncated_file)).2.slot 0).account_number =
        none ∧
      (load_accounts_from_file Table.empty (some truncated_file)).2.account_count = 0 := by
  decide

/-- The slot loop of the load over `k` iterations from index `i`: `account_count` ends at most
at `i + k` (or where it was), the array keeps its length, and no slot from `i + k` on is
written. -/
theorem load_loop_bounds :
    ∀ (k : Nat) (t : Table) (i : Nat) (input : List Char),
      (load_loop t k i input).account_count ≤ max t.account_count (i + k) ∧
        (load_loop t k i input).accounts.length = t.accounts.length ∧
        ∀ j, i + k ≤ j → (load_loop t k i input).slot j = t.slot j := by
  intro k
  induction k with
  | zero =>
    intro t i input
    exact ⟨le_max_left _ _, rfl, fun _ _ => rfl⟩
  | succ k ih =>
    intro t i input
    have hstep : ∀ u : Table,
        (u = t.set_slot i (load_record (t.slot i) input).account ∨
          u = { t.set_slot i (load_record (t.slot i) input).account with
                account_count := i + 1 }) →
        u.account_count ≤ max t.account_count (i + 1) ∧
          u.accounts.length = t.accounts.length ∧ ∀ j, i + 1 ≤ j → u.slot j = t.slot j := by
      intro u hu
      rcases hu with rfl | rfl
      · refine ⟨le_max_left _ _, length_set_slot t i _, ?_⟩
        intro j hj
        exact slot_set_slot_ne t i j _ (by omega)
      · refine ⟨le_max_right _ _, length_set_slot t i _, ?_⟩
        intro j hj
        exact slot_set_slot_ne t i j _ (by omega)
    simp only [load_loop]
    have hu := hstep
      (if (load_record (t.slot i) input).counted = true then
        { t.set_slot i (load_record (t.slot i) input).account with account_count := i + 1 }
      else t.set_slot i (load_record (t.slot i) input).account)
      (by split; exact Or.inr rfl; exact Or.inl rfl)
    obtain ⟨hc, hl, hs⟩ := hu
    cases hrest : (load_record (t.slot i) input).rest with
    | none =>
      simp only
      refine ⟨le_trans hc (max_le (le_max_left _ _) (le_trans (by omega) (le_max_right _ _))),
        hl, ?_⟩
      intro j hj
      exact hs j (by omega)
    | some rest =>
      simp only
      obtain ⟨hc2, hl2, hs2⟩ := ih
        (if (load_record (t.slot i) input).counted = true then
          { t.set_slot i (load_record (t.slot i) input).account with account_count := i + 1 }
        else t.set_slot i (load_record (t.slot i) input).account) (i + 1) rest
      refine ⟨?_, hl2.trans hl, ?_⟩
      · refine le_trans hc2 (max_le (le_trans hc (max_le (le_max_left _ _)
          (le_trans (by omega) (le_max_right _ _)))) (le_trans (by omega) (le_max_right _ _)))
      · intro j hj
        rw [hs2 j (by omega)]
        exact hs j (by omega)

/-- C26: for every file content (and a missing file), after `load_accounts_from_file` the value
of `account_count` is at most 100; the slot loop runs for at most 100 records, the array keeps
its length, and no slot of index 100 or more is written by it. -/
theorem load_account_count_bounded (t : Table) (file : Option (List Char)) :
    (load_accounts_from_file t file).2.account_count ≤ MAX_ACCOUNTS ∧
      (∃ k input, k ≤ MAX_ACCOUNTS ∧
        (load_accounts_from_file t file).2 = load_loop (reset_table t) k 0 input) ∧
      (load_accounts_from_file t file).2.accounts.length = t.accounts.length ∧
      ∀ j, MAX_ACCOUNTS ≤ j →
        (load_accounts_from_file t file).2.slot j = (reset_table t).slot j := by
  have hreset : (reset_table t).accounts.length = t.accounts.length := by
    simp [reset_table]
  have hloop : ∀ k input, k ≤ MAX_ACCOUNTS →
      (load_loop (reset_table t) k 0 input).account_count ≤ MAX_ACCOUNTS ∧
        (∃ k' input', k' ≤ MAX_ACCOUNTS ∧
          load_loop (reset_table t) k 0 input = load_loop (reset_table t) k' 0 input') ∧
        (load_loop (reset_table t) k 0 input).accounts.length = t.accounts.length ∧
        ∀ j, MAX_ACCOUNTS ≤ j →
          (load_loop (reset_table t) k 0 input).slot j = (reset_table t).slot j := by
    intro k input hk
    obtain ⟨hc, hl, hs⟩ := load_loop_bounds k (reset_table t) 0 input
    refine ⟨?_, ⟨k, input, hk, rfl⟩, hl.trans hreset, ?_⟩
    · refine le_trans hc (max_le (Nat.zero_le _) (by omega))
    · intro j hj
      exact hs j (by omega)
  cases file with
  | none => exact hloop 0 [] (Nat.zero_le _)
  | some content =>
    simp only [load_accounts_from_file]
    cases hscan : scan_d content with
    | mk v rest =>
      cases v with
      | none => exact hloop 0 [] (Nat.zero_le _)
      | some n =>
        simp only
        apply hloop
        split
        · exact le_refl _
        · rename_i h
          have hn : n ≤ (MAX_ACCOUNTS : Int) := not_lt.mp h
          have : n.toNat ≤ MAX_ACCOUNTS := by
            have h100 : (MAX_ACCOUNTS : Int) = 100 := rfl
            have h100' : MAX_ACCOUNTS = 100 := rfl
            omega
          exact this

/-! ## `get_statement` against the statement text -/

theorem Double.neg_eq_abs_of_neg (x : Double) (h : x < 0) : -x = x.abs := by
  cases x with
  | nan s => exact absurd (Double.is_nan_of_lt h).1 (by simp [Double.is_nan])
  | neg_zero => exact absurd h (by decide)
  | inf s =>
    cases s
    · exact absurd h (by decide)
    · rfl
  | finite q =>
    rw [Double.ofNat_eq, Double.finite_lt_finite] at h
    have hq : q < 0 := by
      push_cast at h
      exact h
    have hnum : q.num ≠ 0 := by
      intro h0
      rw [Rat.num_eq_zero] at h0
      rw [h0] at hq
      exact lt_irrefl _ hq
    show (if q.num = 0 then Double.neg_zero else Double.finite (-q)) = Double.finite |q|
    rw [if_neg hnum, abs_of_neg hq]

theorem statement_line_eq_entry (j : Nat) (x : Double) :
    statement_line j x = statement_entry (j + 1) x := by
  unfold statement_line statement_entry
  by_cases h : 0 ≤ x
  · simp only [h, if_true, List.append_assoc]
    rfl
  · simp only [h, if_false, List.append_assoc]
    by_cases hneg : x < 0
    · rw [if_pos hneg, Double.neg_eq_abs_of_neg x hneg]
      rfl
    · rw [if_neg hneg]
      rfl

/-- The loop of `get_statement`, started with less text than the buffer holds: it returns 2
exactly when the text followed by the remaining entry lines would not fit, and otherwise
returns 0 with that text. -/
theorem statement_loop_spec (ts : List Double) (size : Nat) :
    ∀ (k j : Nat) (text : CString), j + k ≤ ts.length → text.length < size →
      (statement_loop ts size k j text).1 =
          (if (text ++ statement_entries (j + 1) ((ts.drop j).take k)).length ≥ size then 2
            else 0) ∧
        ((text ++ statement_entries (j + 1) ((ts.drop j).take k)).length < size →
          statement_loop ts size k j text =
            (0, text ++ statement_entries (j + 1) ((ts.drop j).take k))) := by
  intro k
  induction k with
  | zero =>
    intro j text _ htext
    simp [statement_loop, statement_entries, not_le.mpr htext]
  | succ k ih =>
    intro j text hj htext
    have hjlt : j < ts.length := by omega
    have hdrop : (ts.drop j).take (k + 1) = ts[j] :: (ts.drop (j + 1)).take k := by
      rw [List.drop_eq_getElem_cons hjlt, List.take_succ_cons]
    have hgetD : ts.getD j 0 = ts[j] := by
      simp [List.getD_eq_getElem?_getD, List.getElem?_eq_getElem hjlt]
    rw [hdrop]
    simp only [statement_loop, statement_entries, hgetD, statement_line_eq_entry]
    by_cases hfull : (text ++ statement_entry (j + 1) ts[j]).length ≥ size
    · have hge : (text ++ (statement_entry (j + 1) ts[j] ++
          statement_entries (j + 1 + 1) ((ts.drop (j + 1)).take k))).length ≥ size := by
        simp only [List.length_append] at hfull ⊢
        omega
      simp only [hfull, if_true, hge]
      exact ⟨trivial, fun h => absurd hge (not_le.mpr h)⟩
    · simp only [hfull, if_false]
      have := ih (j + 1) (text ++ statement_entry (j + 1) ts[j]) (by omega) (not_le.mp hfull)
      simpa only [List.append_assoc] using this

/-- The result of `get_statement` on a matched account whose transaction count is within its
array: code 2 exactly when the statement text is as long as the buffer or longer, and
otherwise code 0 with the statement text. -/
theorem get_statement_spec (t : Table) (num : CString) (pin : Int) (i size : Nat)
    (hfind : find_account_index t num pin = some i)
    (hcount : (t.slot i).statement.transaction_count ≤
      (t.slot i).statement.transactions.length) :
    (get_statement t num pin size).1 =
        (if (statement_text num (t.slot i).balance (t.slot i).statement.log).length ≥ size
          then 2 else 0) ∧
      ((statement_text num (t.slot i).balance (t.slot i).statement.log).length < size →
        get_statement t num pin size =
          (0, statement_text num (t.slot i).balance (t.slot i).statement.log)) := by
  have hloglen : (t.slot i).statement.log.length = (t.slot i).statement.transaction_count := by
    simp [Statement.log, hcount]
  simp only [get_statement, hfind]
  by_cases hh : (statement_header num (t.slot i).balance).length ≥ size
  · have hge : (statement_text num (t.slot i).balance (t.slot i).statement.log).length ≥
        size := by
      have : (statement_header num (t.slot i).balance).length ≤
          (statement_text num (t.slot i).balance (t.slot i).statement.log).length := by
        simp only [statement_text, statement_header, List.length_append]
        omega
      omega
    simp only [hh, if_true, hge]
    exact ⟨trivial, fun h => absurd hge (not_le.mpr h)⟩
  · simp only [hh, if_false]
    by_cases h0 : (t.slot i).statement.transaction_count = 0
    · have hlog : (t.slot i).statement.log = [] := by
        apply List.eq_nil_of_length_eq_zero
        rw [hloglen, h0]
      have htext : statement_text num (t.slot i).balance (t.slot i).statement.log =
          statement_header num (t.slot i).balance ++ "No transactions yet.\n".toList := by
        simp only [statement_text, statement_header, hlog, if_true]
      rw [htext]
      simp only [h0, if_true]
      split
      · exact ⟨rfl, fun h => absurd ‹_› (not_le.mpr h)⟩
      · exact ⟨rfl, fun _ => rfl⟩
    · have hlog : (t.slot i).statement.log ≠ [] := by
        intro h
        rw [h] at hloglen
        exact h0 hloglen.symm
      have htext : statement_text num (t.slot i).balance (t.slot i).statement.log =
          statement_header num (t.slot i).balance ++ "Last ".toList ++
            render_d ((t.slot i).statement.transaction_count : Int) ++
            " Transactions:\n".toList ++
            statement_entries 1 (((t.slot i).statement.transactions.drop 0).take
              (t.slot i).statement.transaction_count) := by
        unfold statement_text statement_header
        rw [if_neg hlog, hloglen]
        simp only [Statement.log, List.drop_zero, List.append_assoc]
      rw [htext]
      simp only [h0, if_false]
      by_cases h1 : (statement_header num (t.slot i).balance ++ "Last ".toList ++
          render_d ((t.slot i).statement.transaction_count : Int) ++
          " Transactions:\n".toList).length ≥ size
      · have hge : (statement_header num (t.slot i).balance ++ "Last ".toList ++
            render_d ((t.slot i).statement.transaction_count : Int) ++
            " Transactions:\n".toList ++
            statement_entries 1 (((t.slot i).statement.transactions.drop 0).take
              (t.slot i).statement.transaction_count)).length ≥ size := by
          rw [List.length_append]
          omega
        simp only [h1, if_true, hge]
        exact ⟨trivial, fun h => absurd hge (not_le.mpr h)⟩
      · simp only [h1, if_false]
        exact statement_loop_spec (t.slot i).statement.transactions size
          (t.slot i).statement.transaction_count 0 _ (by omega) (not_le.mp h1)

theorem transaction_count_le_length_of_wf {t : Table} (hwf : t.WF) (i : Nat)
    (hlen : i < t.accounts.length) :
    (t.slot i).statement.transaction_count ≤ (t.slot i).statement.transactions.length := by
  have hget : t.accounts[i]? = some (t.accounts[i]) := List.getElem?_eq_getElem hlen
  rw [slot_of_getElem? t i _ hget]
  rw [hwf.length_transactions _ (List.getElem_mem hlen)]
  exact hwf.transaction_count_le _ (List.getElem_mem hlen)

/-- Whatever the loop of `get_statement` leaves in the buffer is a beginning of the text
followed by the remaining entry lines. -/
theorem statement_loop_prefix (ts : List Double) (size : Nat) :
    ∀ (k j : Nat) (text : CString), j + k ≤ ts.length →
      (statement_loop ts size k j text).2 <+:
        text ++ statement_entries (j + 1) ((ts.drop j).take k) := by
  intro k
  induction k with
  | zero =>
    intro j text _
    simp [statement_loop, statement_entries]
  | succ k ih =>
    intro j text hj
    have hjlt : j < ts.length := by omega
    have hdrop : (ts.drop j).take (k + 1) = ts[j] :: (ts.drop (j + 1)).take k := by
      rw [List.drop_eq_getElem_cons hjlt, List.take_succ_cons]
    have hgetD : ts.getD j 0 = ts[j] := by
      simp [List.getD_eq_getElem?_getD, List.getElem?_eq_getElem hjlt]
    rw [hdrop]
    simp only [statement_loop, statement_entries, hgetD, statement_line_eq_entry]
    split
    · rw [← List.append_assoc]
      exact (List.take_prefix _ _).trans (List.prefix_append _ _)
    · have := ih (j + 1) (text ++ statement_entry (j + 1) ts[j]) (by omega)
      simpa only [List.append_assoc] using this

/-- When the transaction count of the matched account is not 0, whatever `get_statement` leaves
in the buffer is a beginning of the header followed by `Last <k> Transactions:` and the entry
lines. -/
theorem get_statement_prefix_of_count_ne_zero (t : Table) (num : CString) (pin : Int)
    (i size : Nat) (hfind : find_account_index t num pin = some i)
    (hcount : (t.slot i).statement.transaction_count ≤
      (t.slot i).statement.transactions.length)
    (h0 : (t.slot i).statement.transaction_count ≠ 0) :
    (get_statement t num pin size).2 <+:
      statement_header num (t.slot i).balance ++ "Last ".toList ++
        render_d ((t.slot i).statement.transaction_count : Int) ++ " Transactions:\n".toList ++
        statement_entries 1 (t.slot i).statement.log := by
  simp only [get_statement, hfind, h0, if_false]
  split
  · simp only [List.append_assoc]
    exact (List.take_prefix _ _).trans (List.prefix_append _ _)
  · split
    · exact (List.take_prefix _ _).trans (List.prefix_append _ _)
    · have := statement_loop_prefix (t.slot i).statement.transactions size
        (t.slot i).statement.transaction_count 0
        (statement_header num (t.slot i).balance ++ "Last ".toList ++
          render_d ((t.slot i).statement.transaction_count : Int) ++
          " Transactions:\n".toList) (by omega)
      simpa only [List.drop_zero, Statement.log] using this

/-- C23: on a table in which `(account_number, pin)` matches an active account, with an output
buffer larger than the statement text, `get_statement` returns 0 and writes exactly that text:
the header with the number and the balance, then `No transactions yet.` for an empty log and
otherwise `Last <k> Transactions:` with the `k` entry lines, oldest first. -/
theorem get_statement_writes_statement_text (t : Table) (num : CString) (pin : Int)
    (i output_size : Nat) (hwf : t.WF) (hfind : find_account_index t num pin = some i)
    (hsize : (statement_text num (t.slot i).balance (t.slot i).statement.log).length <
      output_size) :
    get_statement t num pin output_size =
      (0, statement_text num (t.slot i).balance (t.slot i).statement.log) :=
  (get_statement_spec t num pin i output_size hfind
    (transaction_count_le_length_of_wf hwf i (find_account_index_some hfind).2.1)).2 hsize

/-- Witness for C23: the statement of the sample account in a buffer of 2048 bytes. -/
theorem get_statement_writes_statement_text_witness :
    get_statement (sample_table 1500) sample_number 1111 2048 =
        (0, statement_text sample_number ((sample_table 1500).slot 0).balance
          ((sample_table 1500).slot 0).statement.log) ∧
      statement_text sample_number ((sample_table 1500).slot 0).balance
          ((sample_table 1500).slot 0).statement.log =
        ("Statement for Account 1700000042 (Balance: 1500.00):\n" ++
          "Last 1 Transactions:\n1. Deposit: 1500.00\n").toList :=
  ⟨get_statement_writes_statement_text (sample_table 1500) sample_number 1111 0 2048
      (sample_table_wf 1500) (find_sample 1500) (by decide),
    by decide⟩

/-- C24: on a table in which `(account_number, pin)` matches an active account, for every
`output_size`, `get_statement` returns 2 exactly when the length of the full statement text is
at least `output_size` (the text and its terminator do not fit) and returns 0 otherwise; when
it returns 0 the buffer holds the full text. -/
theorem get_statement_buffer_too_small (t : Table) (num : CString) (pin : Int)
    (i output_size : Nat) (hwf : t.WF) (hfind : find_account_index t num pin = some i) :
    ((get_statement t num pin output_size).1 = 2 ↔
        (statement_text num (t.slot i).balance (t.slot i).statement.log).length ≥
          output_size) ∧
      ((get_statement t num pin output_size).1 = 0 ↔
        (statement_text num (t.slot i).balance (t.slot i).statement.log).length <
          output_size) ∧
      ((get_statement t num pin output_size).1 = 0 →
        (get_statement t num pin output_size).2 =
          statement_text num (t.slot i).balance (t.slot i).statement.log) := by
  obtain ⟨hcode, htext⟩ := get_statement_spec t num pin i output_size hfind
    (transaction_count_le_length_of_wf hwf i (find_account_index_some hfind).2.1)
  by_cases hfull : (statement_text num (t.slot i).balance (t.slot i).statement.log).length ≥
      output_size
  · rw [hcode]
    simp only [hfull, if_true]
    refine ⟨by simp, ?_, by simp⟩
    constructor
    · intro h; cases h
    · intro h; exact absurd hfull (not_le.mpr h)
  · have hlt := not_le.mp hfull
    rw [htext hlt]
    refine ⟨?_, by simp [hlt], fun _ => rfl⟩
    constructor
    · intro h; cases h
    · intro h; exact absurd h hfull

/-- Witness for C24: the statement of the sample account, 94 characters long, in a buffer of
94 bytes and in a buffer of 95 bytes. -/
theorem get_statement_buffer_too_small_witness :
    (statement_text sample_number ((sample_table 1500).slot 0).balance
        ((sample_table 1500).slot 0).statement.log).length = 94 ∧
      (get_statement (sample_table 1500) sample_number 1111 94).1 = 2 ∧
      (get_statement (sample_table 1500) sample_number 1111 95).1 = 0 :=
  ⟨by decide,
    (get_statement_buffer_too_small (sample_table 1500) sample_number 1111 0 94
      (sample_table_wf 1500) (find_sample 1500)).1.mpr (by decide),
    (get_statement_buffer_too_small (sample_table 1500) sample_number 1111 0 95
      (sample_table_wf 1500) (find_sample 1500)).2.1.mpr (by decide)⟩

/-- C30: in every table reachable from the empty table by calls of `open_account`,
`close_account`, `deposit` and `withdraw`, every active account has a transaction count between
1 and 5, the size of its transactions array; and `get_statement` on such an account never takes
the branch of the empty log: what it writes is a beginning of the header followed by
`Last <k> Transactions:` and the entry lines. -/
theorem reachable_transaction_count (t : Table) (i : Nat) (hreach : Reachable t)
    (hact : (t.slot i).is_active ≠ 0) :
    1 ≤ (t.slot i).statement.transaction_count ∧
      (t.slot i).statement.transaction_count ≤ 5 ∧
      (t.slot i).statement.transactions.length = 5 ∧
      ∀ (num : CString) (pin : Int) (size : Nat), find_account_index t num pin = some i →
        (get_statement t num pin size).2 <+:
          statement_header num (t.slot i).balance ++ "Last ".toList ++
            render_d ((t.slot i).statement.transaction_count : Int) ++
            " Transactions:\n".toList ++ statement_entries 1 (t.slot i).statement.log := by
  have hinv := inv_of_reachable hreach
  have hlen : i < t.accounts.length := by
    by_contra hge
    have hz : t.slot i = Account.zero := by
      simp [Table.slot, List.getD_eq_getElem?_getD, List.getElem?_eq_none (not_lt.mp hge)]
    rw [hz] at hact
    exact hact rfl
  have hg := hinv.slot_good i hlen
  have hpos := hg.transaction_count_pos hact
  refine ⟨hpos, hg.transaction_count_le, hg.length_transactions, ?_⟩
  intro num pin size hfind
  apply get_statement_prefix_of_count_ne_zero t num pin i size hfind
  · rw [hg.length_transactions]; exact hg.transaction_count_le
  · omega

/-- Witness for C30: the first account of the table reached by two openings. -/
theorem reachable_transaction_count_witness :
    1 ≤ (two_accounts.slot 0).statement.transaction_count ∧
      (two_accounts.slot 0).statement.transaction_count ≤ 5 ∧
      (two_accounts.slot 0).statement.transactions.length = 5 ∧
      ∀ (num : CString) (pin : Int) (size : Nat),
        find_account_index two_accounts num pin = some 0 →
        (get_statement two_accounts num pin size).2 <+:
          statement_header num (two_accounts.slot 0).balance ++ "Last ".toList ++
            render_d ((two_accounts.slot 0).statement.transaction_count : Int) ++
            " Transactions:\n".toList ++
            statement_entries 1 (two_accounts.slot 0).statement.log :=
  reachable_transaction_count two_accounts 0 ⟨_, rfl⟩ (by decide)

/-! ## Letter case of the command -/

theorem is_space_toLower (c : Char) : is_space c.toLower = is_space c := by
  unfold Char.toLower
  simp only
  split
  · rename_i h
    have hc : c = Char.ofNat c.toNat := (Char.ofNat_toNat c).symm
    generalize c.toNat = n at h hc
    subst hc
    obtain ⟨h1, h2⟩ := h
    interval_cases n <;> decide
  · rfl

theorem is_space_comp_toLower : is_space ∘ Char.toLower = is_space :=
  funext is_space_toLower

/-- A letter is neither white space nor a semicolon. -/
theorem not_space_of_isAlpha (c : Char) (h : c.isAlpha = true) :
    is_space c = false ∧ c ≠ ';' := by
  refine ⟨?_, ?_⟩
  · by_contra hs
    have hs' : is_space c = true := by simpa using hs
    simp only [is_space, Bool.or_eq_true, decide_eq_true_eq] at hs'
    rcases hs' with (((((rfl | rfl) | rfl) | rfl) | rfl) | rfl) <;> exact absurd h (by decide)
  · rintro rfl
    exact absurd h (by decide)

theorem to_lowercase_rdropWhile (s : CString) :
    to_lowercase (s.rdropWhile is_space) = (to_lowercase s).rdropWhile is_space := by
  simp only [to_lowercase, List.rdropWhile, List.map_reverse]
  congr 1
  rw [← List.map_reverse, List.dropWhile_map, is_space_comp_toLower]

/-- Trimming and lowercasing commute. -/
theorem to_lowercase_trim_whitespace (s : CString) :
    to_lowercase (trim_whitespace s) = trim_whitespace (to_lowercase s) := by
  unfold trim_whitespace
  have h : (to_lowercase s).dropWhile is_space = to_lowercase (s.dropWhile is_space) := by
    simp only [to_lowercase, List.dropWhile_map, is_space_comp_toLower]
  rw [h]
  by_cases h0 : s.dropWhile is_space = []
  · simp [h0, to_lowercase]
  · have h1 : to_lowercase (s.dropWhile is_space) ≠ [] := by
      simpa [to_lowercase] using h0
    simp only [h0, h1, if_false]
    exact to_lowercase_rdropWhile s

/-- Trailing white space is removed from the second part of a text whose first part ends with a
character that is not white space. -/
theorem rdropWhile_append_of_getLast (a b : CString) (c : Char) (ha : a.getLast? = some c)
    (hc : is_space c = false) :
    (a ++ b).rdropWhile is_space = a ++ b.rdropWhile is_space := by
  have hsplit : a = a.dropLast ++ [c] := (List.dropLast_append_getLast? c ha).symm
  have hrev : a.reverse = c :: a.dropLast.reverse := by
    conv_lhs => rw [hsplit]
    simp
  simp only [List.rdropWhile, List.reverse_append, List.dropWhile_append]
  split
  · rename_i hempty
    have hnil : List.dropWhile is_space b.reverse = [] := by
      simpa [List.isEmpty_iff] using hempty
    rw [hnil, hrev, List.dropWhile_cons_of_neg (by simp [hc])]
    simp only [List.reverse_nil, List.append_nil]
    rw [← hrev, List.reverse_reverse]
  · simp

/-- The tokens of `strtok` are not affected by commas in front of the text. -/
theorem strtok_tokens_commas (pre s : CString) (hpre : ∀ c ∈ pre, c = ',') :
    strtok_tokens (pre ++ s) = strtok_tokens s := by
  induction pre with
  | nil => rfl
  | cons c pre ih =>
    have hc : c = ',' := hpre c (by simp)
    subst hc
    have ih' := ih (fun c hc => hpre c (by simp [hc]))
    unfold strtok_tokens List.splitOn at ih' ⊢
    rw [List.cons_append, List.splitOnP_cons]
    simpa using ih'

/-- The first token of `strtok` on a text that starts with characters other than commas: these
characters and those that follow up to the next comma. -/
theorem strtok_tokens_first (x p2 : CString) (hx : x ≠ []) (hcomma : ∀ c ∈ x, c ≠ ',') :
    strtok_tokens (x ++ p2) =
      (x ++ p2.takeWhile fun c => c != ',') ::
        strtok_tokens (p2.dropWhile fun c => c != ',') := by
  have hw : ∀ c ∈ x ++ p2.takeWhile (fun c => c != ','), ¬ (c == ',') = true := by
    intro c hc
    rcases List.mem_append.mp hc with h | h
    · simpa using hcomma c h
    · simpa using List.mem_takeWhile_imp h
  have hne : x ++ p2.takeWhile (fun c => c != ',') ≠ [] := by
    simp [hx]
  have hp2 : x ++ p2 = (x ++ p2.takeWhile fun c => c != ',') ++
      p2.dropWhile fun c => c != ',' := by
    rw [List.append_assoc, List.takeWhile_append_dropWhile]
  rw [hp2]
  cases hrest : p2.dropWhile (fun c => c != ',') with
  | nil =>
    simp only [List.append_nil]
    unfold strtok_tokens List.splitOn
    rw [List.splitOnP_eq_single _ _ hw]
    simp [hne, List.splitOnP_nil]
  | cons d rest =>
    have hd : d = ',' := by
      have := List.head_dropWhile_not (fun c => c != ',') p2 (by rw [hrest]; simp)
      simpa [hrest] using this
    subst hd
    have htail : strtok_tokens (',' :: rest) = strtok_tokens rest :=
      strtok_tokens_commas [','] rest (by simp)
    rw [htail]
    unfold strtok_tokens List.splitOn
    rw [List.splitOnP_first _ _ hw ',' (by simp)]
    simp [hne]

/-- The command and the arguments parsed from a buffer whose first field starts with `x`. -/
theorem parse_tokens_first (pre x p2 : CString) (hpre : ∀ c ∈ pre, c = ',') (hx : x ≠ [])
    (hcomma : ∀ c ∈ x, c ≠ ',') :
    parse_tokens (pre ++ x ++ p2) =
      (to_lowercase ((trim_whitespace (x ++ p2.takeWhile fun c => c != ',')).take 49),
        (((strtok_tokens (p2.dropWhile fun c => c != ',')).take MAX_ARGS).map
          trim_whitespace).map fun a => a.take 99) := by
  unfold parse_tokens
  rw [List.append_assoc, strtok_tokens_commas pre _ hpre, strtok_tokens_first x p2 hx hcomma]
  simp [MAX_ARGS]

/-- The parsing of a request that starts, after commas, with a text `tok` free of commas whose
last character is a letter: the command is read from `tok` and the characters that follow it up
to the next comma, the arguments from the rest. -/
theorem parse_request_of_first_token (pre tok post : CString) (c : Char)
    (hpre : ∀ d ∈ pre, d = ',') (htok : ∀ d ∈ tok, d ≠ ',')
    (hlast : tok.getLast? = some c) (hc : c.isAlpha = true) :
    parse_request (pre ++ tok ++ post) =
      if post.rdropWhile is_space = [] ∨ (post.rdropWhile is_space).getLast? ≠ some ';' then none
      else some
        (to_lowercase ((trim_whitespace
            (tok ++ ((post.rdropWhile is_space).dropLast).takeWhile fun d => d != ',')).take 49),
          (((strtok_tokens
            (((post.rdropWhile is_space).dropLast).dropWhile fun d => d != ',')).take
              MAX_ARGS).map trim_whitespace).map fun a => a.take 99) := by
  obtain ⟨hsp, hsemi⟩ := not_space_of_isAlpha c hc
  have hne : tok ≠ [] := by
    rintro rfl
    simp at hlast
  have hmem : c ∈ tok := by
    rw [← List.dropLast_append_getLast? c hlast]
    simp
  have hlast2 : (pre ++ tok).getLast? = some c := by
    rw [List.getLast?_append_of_ne_nil _ hne, hlast]
  have hdrop : (pre ++ tok ++ post).dropWhile is_space ≠ [] := by
    intro h
    have hall := List.dropWhile_eq_nil_iff.mp h c (by simp [hmem])
    rw [hsp] at hall
    exact Bool.false_ne_true hall
  have htrim : trim_whitespace (pre ++ tok ++ post) = pre ++ tok ++ post.rdropWhile is_space := by
    unfold trim_whitespace
    rw [if_neg hdrop]
    exact rdropWhile_append_of_getLast (pre ++ tok) post c hlast2 hsp
  have hne2 : pre ++ tok ≠ [] := by simp [hne]
  unfold parse_request
  rw [htrim]
  by_cases hr : post.rdropWhile is_space = []
  · rw [hr, List.append_nil, if_pos (Or.inl rfl), if_pos]
    right
    rw [hlast2]
    intro h
    exact hsemi (Option.some.inj h)
  · have hg : (pre ++ tok ++ post.rdropWhile is_space).getLast? =
        (post.rdropWhile is_space).getLast? := List.getLast?_append_of_ne_nil _ hr
    have hd : (pre ++ tok ++ post.rdropWhile is_space).dropLast =
        pre ++ tok ++ (post.rdropWhile is_space).dropLast := List.dropLast_append_of_ne_nil _ hr
    rw [hg, hd]
    have hnil : ¬ pre ++ tok ++ post.rdropWhile is_space = [] := by simp [hne]
    by_cases hs : (post.rdropWhile is_space).getLast? = some ';'
    · have hnot : ¬ (pre ++ tok ++ post.rdropWhile is_space = [] ∨
          (post.rdropWhile is_space).getLast? ≠ some ';') := by
        rintro (h | h)
        · exact hnil h
        · exact h hs
      have hnot2 : ¬ (post.rdropWhile is_space = [] ∨
          (post.rdropWhile is_space).getLast? ≠ some ';') := by
        rintro (h | h)
        · exact hr h
        · exact h hs
      rw [if_neg hnot, if_neg hnot2, parse_tokens_first pre tok _ hpre hne htok]
    · rw [if_pos (Or.inr hs), if_pos (Or.inr hs)]

/-- Lowercasing the command read from a field is reading it from the lowercased field. -/
theorem to_lowercase_take_trim (x w : CString) :
    to_lowercase ((trim_whitespace (x ++ w)).take 49) =
      (trim_whitespace (to_lowercase x ++ to_lowercase w)).take 49 := by
  have h : to_lowercase x ++ to_lowercase w = to_lowercase (x ++ w) := by
    simp [to_lowercase]
  rw [h, ← to_lowercase_trim_whitespace]
  simp [to_lowercase, List.map_take]

/-- Claim C21: the command is matched without regard to letter case.  A request is written as
commas (which the tokenizer skips), the command token `tok` up to its last letter, and the rest
of the text; replacing `tok` by a text `tok2` that differs from it in letter case only (both
lowercase to the same text) gives the same response, the same table and the same decision to
go on or to close. -/
theorem command_case_insensitive (t : Table) (env : Env) (pre tok tok2 post : CString)
    (hpre : ∀ c ∈ pre, c = ',') (htok : ∀ c ∈ tok, c ≠ ',') (htok2 : ∀ c ∈ tok2, c ≠ ',')
    (hcase : to_lowercase tok = to_lowercase tok2)
    (hlast : ∃ c, tok.getLast? = some c ∧ c.isAlpha = true)
    (hlast2 : ∃ c, tok2.getLast? = some c ∧ c.isAlpha = true) :
    handle_request t env (pre ++ tok ++ post) = handle_request t env (pre ++ tok2 ++ post) := by
  obtain ⟨c, hc1, hc2⟩ := hlast
  obtain ⟨d, hd1, hd2⟩ := hlast2
  have h : parse_request (pre ++ tok ++ post) = parse_request (pre ++ tok2 ++ post) := by
    rw [parse_request_of_first_token pre tok post c hpre htok hc1 hc2,
      parse_request_of_first_token pre tok2 post d hpre htok2 hd1 hd2,
      to_lowercase_take_trim, to_lowercase_take_trim, hcase]
  unfold handle_request
  rw [h]

theorem command_case_insensitive_witness :
    handle_request Table.empty sample_env "OpEn,Bob,12345678,savings,1000,2222;".toList =
        handle_request Table.empty sample_env "open,Bob,12345678,savings,1000,2222;".toList ∧
      (handle_request Table.empty sample_env
        "open,Bob,12345678,savings,1000,2222;".toList).response.take 18 =
        "OK,Account Number:".toList :=
  ⟨command_case_insensitive Table.empty sample_env [] "OpEn".toList "open".toList
      ",Bob,12345678,savings,1000,2222;".toList (by decide) (by decide) (by decide) (by decide)
      ⟨'n', by decide, by decide⟩ ⟨'n', by decide, by decide⟩,
    by decide⟩

/-! ## Empty fields of a request -/

/-- The fields on both sides of a separator: the fields of the text before it, then those of
the text after it. -/
theorem splitOnP_append_cons (p : Char → Bool) (a q : CString) (c : Char) (hc : p c = true) :
    List.splitOnP p (a ++ c :: q) = List.splitOnP p a ++ List.splitOnP p q := by
  induction a with
  | nil => simp [List.splitOnP_cons, hc, List.splitOnP_nil]
  | cons x a ih =>
    rw [List.cons_append, List.splitOnP_cons, List.splitOnP_cons, ih]
    by_cases hx : p x = true
    · simp [hx]
    · simp only [hx, Bool.false_eq_true, if_false]
      cases hsplit : List.splitOnP p a with
      | nil => exact absurd hsplit (List.splitOnP_ne_nil p a)
      | cons y ys => rfl

/-- The tokens of `strtok` on a text with a comma: the tokens before the comma, then the tokens
after it. -/
theorem strtok_tokens_append_comma (a q : CString) :
    strtok_tokens (a ++ ',' :: q) = strtok_tokens a ++ strtok_tokens q := by
  unfold strtok_tokens List.splitOn
  rw [splitOnP_append_cons _ a q ',' (by simp), List.filter_append]

/-- A second comma next to a comma adds no token. -/
theorem strtok_tokens_double_comma (a q : CString) :
    strtok_tokens (a ++ ',' :: ',' :: q) = strtok_tokens (a ++ ',' :: q) := by
  have h : strtok_tokens (',' :: q) = strtok_tokens q :=
    strtok_tokens_commas [','] q (by simp)
  rw [strtok_tokens_append_comma a (',' :: q), strtok_tokens_append_comma a q, h]

theorem strtok_tokens_ne_nil (buffer x : CString) (hx : x ∈ strtok_tokens buffer) : x ≠ [] := by
  unfold strtok_tokens at hx
  have h := (List.mem_filter.mp hx).2
  intro h0
  simp [h0] at h

/-- The function `trim_whitespace` never empties a text that is not empty. -/
theorem trim_whitespace_ne_nil (s : CString) (hs : s ≠ []) : trim_whitespace s ≠ [] := by
  unfold trim_whitespace
  by_cases h : s.dropWhile is_space = []
  · rw [if_pos h]
    exact hs
  · rw [if_neg h]
    intro h0
    apply h
    rw [List.dropWhile_eq_nil_iff]
    exact List.rdropWhile_eq_nil_iff.mp h0

/-- The parsing of a request with a comma at the end of its first part `p`: the semicolon is
looked for in the second part, and the tokens are those of `p` followed by the second part
without its trailing white space and its semicolon. -/
theorem parse_request_of_comma (p b : CString) (hp : p.getLast? = some ',') :
    parse_request (p ++ b) =
      if b.rdropWhile is_space = [] ∨ (b.rdropWhile is_space).getLast? ≠ some ';' then none
      else some (parse_tokens (p ++ (b.rdropWhile is_space).dropLast)) := by
  have hsp : is_space ',' = false := by decide
  have hne : p ≠ [] := by
    rintro rfl
    simp at hp
  have hmem : ',' ∈ p := by
    rw [← List.dropLast_append_getLast? ',' hp]
    simp
  have hdrop : (p ++ b).dropWhile is_space ≠ [] := by
    intro h
    have hall := List.dropWhile_eq_nil_iff.mp h ',' (by simp [hmem])
    rw [hsp] at hall
    exact Bool.false_ne_true hall
  have htrim : trim_whitespace (p ++ b) = p ++ b.rdropWhile is_space := by
    unfold trim_whitespace
    rw [if_neg hdrop]
    exact rdropWhile_append_of_getLast p b ',' hp hsp
  unfold parse_request
  rw [htrim]
  by_cases hr : b.rdropWhile is_space = []
  · rw [hr, List.append_nil, if_pos (Or.inl rfl), if_pos]
    right
    rw [hp]
    decide
  · have hg : (p ++ b.rdropWhile is_space).getLast? = (b.rdropWhile is_space).getLast? :=
      List.getLast?_append_of_ne_nil _ hr
    have hd : (p ++ b.rdropWhile is_space).dropLast = p ++ (b.rdropWhile is_space).dropLast :=
      List.dropLast_append_of_ne_nil _ hr
    rw [hg, hd]
    have hnil : ¬ p ++ b.rdropWhile is_space = [] := by simp [hne]
    by_cases hs : (b.rdropWhile is_space).getLast? = some ';'
    · have hnot : ¬ (p ++ b.rdropWhile is_space = [] ∨
          (b.rdropWhile is_space).getLast? ≠ some ';') := by
        rintro (h | h)
        · exact hnil h
        · exact h hs
      have hnot2 : ¬ (b.rdropWhile is_space = [] ∨
          (b.rdropWhile is_space).getLast? ≠ some ';') := by
        rintro (h | h)
        · exact hr h
        · exact h hs
      rw [if_neg hnot, if_neg hnot2]
    · rw [if_pos (Or.inr hs), if_pos (Or.inr hs)]

/-- The arguments produced by `parse_tokens` are not empty. -/
theorem parse_tokens_args_ne_nil (buffer x : CString) (hx : x ∈ (parse_tokens buffer).2) :
    x ≠ [] := by
  have hall : ∀ y ∈ ((strtok_tokens buffer).take (MAX_ARGS + 1)).map trim_whitespace,
      y ≠ [] := by
    intro y hy
    obtain ⟨z, hz, rfl⟩ := List.mem_map.mp hy
    exact trim_whitespace_ne_nil z (strtok_tokens_ne_nil buffer z (List.mem_of_mem_take hz))
  unfold parse_tokens at hx
  generalize ((strtok_tokens buffer).take (MAX_ARGS + 1)).map trim_whitespace = l at hx hall
  cases l with
  | nil => simp at hx
  | cons token tokens =>
    obtain ⟨y, hy, rfl⟩ := List.mem_map.mp hx
    have hy0 : y ≠ [] := hall y (List.mem_cons_of_mem _ hy)
    cases y with
    | nil => exact absurd rfl hy0
    | cons d ds => simp

/-- Claim C31: the parser skips empty fields.  A comma inserted next to a comma of a request
changes neither the result of the parsing (the same protocol error, or the same command and the
same list of arguments, hence the same count) nor the response, the table and the decision to
close; and no argument that the parser hands to a command handler is the empty text. -/
theorem extra_comma_skipped (t : Table) (env : Env) (a b : CString) :
    parse_request (a ++ ',' :: ',' :: b) = parse_request (a ++ ',' :: b) ∧
      handle_request t env (a ++ ',' :: ',' :: b) = handle_request t env (a ++ ',' :: b) ∧
      ∀ (received command : CString) (args : List CString),
        parse_request received = some (command, args) → ∀ x ∈ args, x ≠ [] := by
  have h : parse_request (a ++ ',' :: ',' :: b) = parse_request (a ++ ',' :: b) := by
    have h1 : a ++ ',' :: ',' :: b = (a ++ [',', ',']) ++ b := by simp
    have h2 : a ++ ',' :: b = (a ++ [',']) ++ b := by simp
    rw [h1, h2, parse_request_of_comma (a ++ [',', ',']) b (by simp),
      parse_request_of_comma (a ++ [',']) b (by simp)]
    unfold parse_tokens
    have h3 : ∀ q : CString, a ++ [',', ','] ++ q = a ++ ',' :: ',' :: q := by simp
    have h4 : ∀ q : CString, a ++ [','] ++ q = a ++ ',' :: q := by simp
    rw [h3, h4, strtok_tokens_double_comma]
  refine ⟨h, ?_, ?_⟩
  · unfold handle_request
    rw [h]
  · intro received command args hparse x hx
    unfold parse_request at hparse
    split at hparse
    · exact absurd hparse (by simp)
    · have hp := Option.some.inj hparse
      have hargs : args = (parse_tokens (trim_whitespace received).dropLast).2 := by
        rw [hp]
      rw [hargs] at hx
      exact parse_tokens_args_ne_nil _ x hx

theorem extra_comma_skipped_witness :
    parse_request "CLOSE,,1700000042,1111;".toList =
        some ("close".toList, ["1700000042".toList, "1111".toList]) ∧
      parse_request "CLOSE,,1700000042,1111;".toList =
        parse_request "CLOSE,1700000042,1111;".toList ∧
      handle_request (sample_table 1500) sample_env "CLOSE,,1700000042,1111;".toList =
        handle_request (sample_table 1500) sample_env "CLOSE,1700000042,1111;".toList ∧
      (handle_request (sample_table 1500) sample_env "CLOSE,1700000042,1111;".toList).response =
        "OK,Account 1700000042 closed successfully.;\n".toList :=
  ⟨by decide,
    (extra_comma_skipped (sample_table 1500) sample_env "CLOSE".toList
      "1700000042,1111;".toList).1,
    (extra_comma_skipped (sample_table 1500) sample_env "CLOSE".toList
      "1700000042,1111;".toList).2.1,
    by decide⟩

end Bank
